import Mathlib

/-!
Verification model of the `edl` Python package (CMX3600 Edit Decision List
parser / generator).

The model is a shallow embedding of the source files `edl/edl.py`,
`edl/events.py`, `edl/sfm.py`, `edl/nfm.py`, `edl/comments.py`,
`edl/sources.py`, `edl/tracks.py`, `edl/fcm.py`.

Modelling conventions:

* Python strings are modelled as `List Char` (`Str`), which gives full
  inductive reasoning over characters.  Only the ASCII fragment of
  `str.lower` / `str.upper` / `str.isnumeric` is modelled; every string the
  claims mention is ASCII.
* A text stream is modelled as the string it carries; reading it line by
  line (`readline` / `readlines` with `rstrip("\n")`) is modelled by
  `splitNl`, which splits the character list at every `'\n'`.
* Fallible Python code (constructors raising `ValueError`, `IndexError`,
  regex-then-parse failures) is modelled with `Except Str` / `Option`,
  carrying the source's message strings.
* The regular expressions in the source are fixed-field patterns whose
  groups are separated by `\s+` (with the two local exceptions `K\s?B` and
  the optional `(\(F\))?` in `KeyBackgroundStatement.PAT_EVENT`, and the
  trailing `\s+` with no `$` anchor in
  `MotionMemoryNoteFormStatement.PAT_NOTE`).  Each pattern is translated
  into a total matcher over the whitespace lexing of the line
  (`lexLine`: leading-whitespace count plus the list of maximal non-space
  tokens with their following whitespace run lengths).  Doc comments on
  each matcher state the regex it embeds.
* The external `timecode` library (an external collaborator per the spec)
  is modelled from the spec: a `Timecode` is the four parsed
  `HH:MM:SS:FF` fields, rendered back zero-padded; ordering and duration
  go through a total frame count at a fixed rate; a `TimecodeRange`
  requires `start ≤ end`.
-/

namespace EdlModel

/-- Python strings, modelled as character lists. -/
abbrev Str := List Char

/-- Shorthand turning a Lean string literal into the model's string type. -/
def str (s : String) : Str := s.data

/-! ## Python character and string primitives (ASCII fragment) -/

/-- Python `str.isspace` / regex `\s` membership for a single character:
space, tab, newline, carriage return, vertical tab, form feed. -/
def isPySpace (c : Char) : Bool :=
  c = ' ' || c = '\t' || c = '\n' || c = '\r' || c = '\x0b' || c = '\x0c'

/-- Decimal digit test (code points 48–57); the ASCII fragment of
Python's `str.isnumeric` character test. -/
def isDigitCh (c : Char) : Bool := 48 ≤ c.toNat && c.toNat ≤ 57

/-- Python `str.isnumeric()` on ASCII strings: non-empty and all digits. -/
def pyIsNumeric (s : Str) : Bool := !s.isEmpty && s.all isDigitCh

/-- ASCII `lower` of one character. -/
def toLowerCh (c : Char) : Char :=
  if 65 ≤ c.toNat ∧ c.toNat ≤ 90 then Char.ofNat (c.toNat + 32) else c

/-- ASCII `upper` of one character. -/
def toUpperCh (c : Char) : Char :=
  if 97 ≤ c.toNat ∧ c.toNat ≤ 122 then Char.ofNat (c.toNat - 32) else c

/-- Python `str.lower()` (ASCII fragment). -/
def pyLower (s : Str) : Str := s.map toLowerCh

/-- Python `str.upper()` (ASCII fragment). -/
def pyUpper (s : Str) : Str := s.map toUpperCh

/-- Python `str.lstrip()`. -/
def pyLStrip (s : Str) : Str := s.dropWhile isPySpace

/-- Python `str.rstrip()`. -/
def pyRStrip (s : Str) : Str := (s.reverse.dropWhile isPySpace).reverse

/-- Python `str.strip()`. -/
def pyStrip (s : Str) : Str := pyRStrip (pyLStrip s)

/-- Python `s.startswith(p)`. -/
def pyStartsWith (p s : Str) : Bool := p.isPrefixOf s

/-- Horner evaluation of a digit string; Python `int(s)` restricted to the
digit strings it is applied to in the source (tokens checked by
`isnumeric` or matched by `\d+`). -/
def pyInt (s : Str) : Nat := s.foldl (fun a c => a * 10 + (c.toNat - 48)) 0

/-- Decimal digit character of a value `< 10`. -/
def digitCh (d : Nat) : Char := Char.ofNat (48 + d)

/-- Fuelled decimal rendering, most significant digit first. -/
def natToStrF : Nat → Nat → Str
  | 0, _ => []
  | f + 1, n => if n < 10 then [digitCh n] else natToStrF f (n / 10) ++ [digitCh (n % 10)]

/-- Python `str(n)` for a natural number. -/
def natToStr (n : Nat) : Str := natToStrF (n + 1) n

/-- Python `str.zfill(w)` on the strings the source applies it to (decimal
renderings, no sign). -/
def zfill (w : Nat) (s : Str) : Str := List.replicate (w - s.length) '0' ++ s

/-- A run of `n` spaces. -/
def spaces (n : Nat) : Str := List.replicate n ' '

/-- Python `str.ljust(w)` (space fill). -/
def ljust (w : Nat) (s : Str) : Str := s ++ spaces (w - s.length)

/-- Python `str.rjust(w)` (space fill). -/
def rjust (w : Nat) (s : Str) : Str := spaces (w - s.length) ++ s

/-! ## Whitespace lexing of a line

`lexRaw` folds over the characters and produces the maximal runs of a
line: each entry holds a maximal non-space token together with the length
of the whitespace run that follows it; a leading-whitespace run appears as
an entry with an empty token.  `lexLine` separates the leading run.  The
fixed-field regex patterns of the source are then total functions of this
lexing. -/

/-- One lexed token: its characters and the length of the whitespace run
following it (`0` only at end of line). -/
structure TokG where
  tok : Str
  gap : Nat
  deriving DecidableEq, Repr

/-- One step of the right fold building the lexing. -/
def lexStep (c : Char) (L : List TokG) : List TokG :=
  if isPySpace c then
    match L with
    | ⟨[], g⟩ :: rest => ⟨[], g + 1⟩ :: rest
    | _ => ⟨[], 1⟩ :: L
  else
    match L with
    | ⟨[], g⟩ :: rest => ⟨[c], g⟩ :: rest
    | ⟨t, g⟩ :: rest => ⟨c :: t, g⟩ :: rest
    | [] => [⟨[c], 0⟩]

/-- Raw lexing of a line (leading whitespace, if any, as a head entry with
an empty token). -/
def lexRaw (s : Str) : List TokG := s.foldr lexStep []

/-- Lexing of a line: length of the leading whitespace run, and the
non-empty tokens with their trailing gaps. -/
def lexLine (s : Str) : Nat × List TokG :=
  match lexRaw s with
  | ⟨[], g⟩ :: rest => (g, rest)
  | L => (0, L)

/-- Python `s.split()` (and the first element of `s.split(maxsplit=1)`):
the whitespace-separated tokens. -/
def pySplit (s : Str) : List Str := (lexLine s).2.map TokG.tok

/-! ## `edl/fcm.py` -/

/-- `Fcm(enum.Enum)`: EDL frame counting modes. -/
inductive Fcm
  | nonDropFrame
  | dropFrame
  | pal
  deriving DecidableEq, Repr

/-- The `value` of each `Fcm` member. -/
def Fcm.value : Fcm → Str
  | .nonDropFrame => str "NON-DROP FRAME"
  | .dropFrame => str "DROP FRAME"
  | .pal => str "PAL"

/-- `Fcm(s)`: enum lookup by value, `ValueError` when no member matches
(surfaced by `Edl._parse_fcm_from_line` as "Invalid FCM specified"). -/
def Fcm.ofValue (s : Str) : Option Fcm :=
  if s = str "NON-DROP FRAME" then some .nonDropFrame
  else if s = str "DROP FRAME" then some .dropFrame
  else if s = str "PAL" then some .pal
  else none

/-! ## `edl/tracks.py` -/

/-- `Track.Type`: types of EDL tracks. -/
inductive TrackType
  | video
  | audio
  deriving DecidableEq, Repr

/-- The enum value string of a track type (`"V"` / `"A"`). -/
def TrackType.value : TrackType → Str
  | .video => str "V"
  | .audio => str "A"

/-- `Track`: a track identified by type plus index. -/
structure Track where
  ttype : TrackType
  index : Nat
  deriving DecidableEq, Repr

/-- `Track.__init__(name)`: `Type(name[0].upper())` then
`int(name[1:]) if len(name) > 1 else 1`.  `none` models the `ValueError`
raised by the enum lookup on a character other than `V`/`A` (as happens
for the track token `B`), or by `int` on a non-digit remainder. -/
def Track.ofName (name : Str) : Option Track :=
  match name with
  | [] => none
  | c :: rest =>
    let ty : Option TrackType :=
      if toUpperCh c = 'V' then some .video
      else if toUpperCh c = 'A' then some .audio
      else none
    match ty with
    | none => none
    | some t =>
      if rest = [] then some ⟨t, 1⟩
      else if rest.all isDigitCh then some ⟨t, pyInt rest⟩
      else none

/-- `Track.name`: the type's value, with the index appended when it is
greater than one. -/
def Track.name (t : Track) : Str :=
  if t.index > 1 then t.ttype.value ++ natToStr t.index else t.ttype.value

/-! ## `edl/sources.py`

`Master` is declared in the source but is produced by no validator and
never returned by `SourceReel.from_string`; it is omitted. -/

/-- `SourceReel` variants: `BlackSource`, `AuxSource`, `TapeSource`. -/
inductive SourceReel
  | black
  | aux
  | tape (name : Str)
  deriving DecidableEq, Repr

/-- The `name` property (`_NAME`). -/
def SourceReel.name : SourceReel → Str
  | .black => str "BL"
  | .aux => str "AX"
  | .tape n => n

/-- `BlackSource.validate`. -/
def blackValidate (reelName : Str) : Bool := pyUpper reelName = str "BL"

/-- `AuxSource.validate`. -/
def auxValidate (reelName : Str) : Bool := pyUpper reelName = str "AX"

/-- `TapeSource.validate`: `len(reel_name.strip()) and not
re.search("[\s]", reel_name)`. -/
def tapeValidate (reelName : Str) : Bool :=
  !(pyStrip reelName).isEmpty && reelName.all (fun c => !isPySpace c)

/-- `SourceReel.from_string`: try Black, then Aux, then Tape; raise
`ValueError` when none accepts. -/
def SourceReel.fromString (reelName : Str) : Except Str SourceReel :=
  if blackValidate reelName then .ok .black
  else if auxValidate reelName then .ok .aux
  else if tapeValidate reelName then .ok (.tape reelName)
  else .error (str "Reel name format is not recognized")

/-! ## The external `timecode` library (modelled from the spec)

Modelled from the spec: the `Timecode` / `TimecodeRange` abstraction is an
external collaborator (spec §1 OUT OF SCOPE, §6).  A timecode parsed from
`HH:MM:SS:FF` keeps its four fields and renders them back zero-padded to
width 2; ordering and duration go through a total frame count at a fixed
frame rate; a range enforces `start ≤ end` (spec §3) and exposes
`start` / `end` / `duration`. -/

/-- Frame rate used by the frame-count model. -/
def tcRate : Nat := 24

/-- A timecode value: the four `HH:MM:SS:FF` fields. -/
structure Timecode where
  hh : Nat
  mm : Nat
  ss : Nat
  ff : Nat
  deriving DecidableEq, Repr

/-- Total frame count of a timecode. -/
def Timecode.frames (t : Timecode) : Nat :=
  ((t.hh * 60 + t.mm) * 60 + t.ss) * tcRate + t.ff

/-- `str(Timecode)`: the four fields, zero-padded to width 2, colon
separated. -/
def Timecode.render (t : Timecode) : Str :=
  zfill 2 (natToStr t.hh) ++ [':'] ++ zfill 2 (natToStr t.mm) ++ [':'] ++
    zfill 2 (natToStr t.ss) ++ [':'] ++ zfill 2 (natToStr t.ff)

/-- Shape test and parse of one `\d{2}:\d{2}:\d{2}:\d{2}` token. -/
def parseTc (s : Str) : Option Timecode :=
  match s with
  | [h1, h2, ':', m1, m2, ':', s1, s2, ':', f1, f2] =>
    if isDigitCh h1 && isDigitCh h2 && isDigitCh m1 && isDigitCh m2 &&
        isDigitCh s1 && isDigitCh s2 && isDigitCh f1 && isDigitCh f2 then
      some ⟨pyInt [h1, h2], pyInt [m1, m2], pyInt [s1, s2], pyInt [f1, f2]⟩
    else none
  | _ => none

/-- A timecode range; the constructor (below) enforces `start ≤ end`. -/
structure TimecodeRange where
  start : Timecode
  stop : Timecode
  deriving DecidableEq, Repr

/-- `TimecodeRange(start=a, end=b)`: `none` models the rejection of a
range with `end < start` (spec §3: "timecode ranges must have start ≤ end
(enforced by the external timecode range type)"). -/
def mkRange (a b : Timecode) : Option TimecodeRange :=
  if a.frames ≤ b.frames then some ⟨a, b⟩ else none

/-- The `duration` of a range, as a frame count. -/
def TimecodeRange.duration (r : TimecodeRange) : Nat :=
  r.stop.frames - r.start.frames

/-! ## `edl/sfm.py`: standard form statements

Each `PAT_EVENT` is a `re.match`-anchored, case-insensitive fixed-field
pattern whose groups are separated by `\s+` and end with `\s*$`; every
group is a run of non-space characters, so a match decomposes the line
exactly into its whitespace lexing (`lexLine`), with a leading-whitespace
run ruled out by the `^\d+` anchor.  The one non-token construct is
`KeyBackgroundStatement`'s `K\s?B` / optional `(\(F\))?`, which the
dedicated matcher below handles through the recorded gap lengths. -/

/-- A `\d+` group filling a whole token. -/
def isDigits (s : Str) : Bool := !s.isEmpty && s.all isDigitCh

/-- The `(?P<track_type>A\d*|B|V)` group (case-insensitive). -/
def isTrackTok (s : Str) : Bool :=
  match s with
  | [] => false
  | c :: rest =>
    (toUpperCh c = 'A' && rest.all isDigitCh) ||
      (rest.isEmpty && (toUpperCh c = 'B' || toUpperCh c = 'V'))

/-- A `\d{2}:\d{2}:\d{2}:\d{2}` group filling a whole token. -/
def isTcTok (s : Str) : Bool := (parseTc s).isSome

/-- The named groups shared by all `PAT_EVENT` patterns. -/
structure SfsGroups where
  event_number : Str
  reel_name : Str
  track_type : Str
  tc_src_in : Str
  tc_src_out : Str
  tc_rec_in : Str
  tc_rec_out : Str
  deriving DecidableEq, Repr

/-- `CutStatement.PAT_EVENT`:
`^(\d+)\s+([^\s]+)\s+(A\d*|B|V)\s+(C)\s+` then four timecodes separated
by `\s+`, ending `\s*$`, case-insensitive. -/
def cutPat (l : Str) : Option SfsGroups :=
  match lexLine l with
  | (0, [⟨n, _⟩, ⟨r, _⟩, ⟨k, _⟩, ⟨e, _⟩, ⟨t1, _⟩, ⟨t2, _⟩, ⟨t3, _⟩, ⟨t4, _⟩]) =>
    if isDigits n && isTrackTok k && pyUpper e = str "C" &&
        isTcTok t1 && isTcTok t2 && isTcTok t3 && isTcTok t4 then
      some ⟨n, r, k, t1, t2, t3, t4⟩
    else none
  | _ => none

/-- `DissolveStatement.PAT_EVENT`: as `cutPat` but with event type `D` and
an `(?P<event_duration>\d+)` group before the timecodes. -/
def dissolvePat (l : Str) : Option (SfsGroups × Str) :=
  match lexLine l with
  | (0, [⟨n, _⟩, ⟨r, _⟩, ⟨k, _⟩, ⟨e, _⟩, ⟨d, _⟩, ⟨t1, _⟩, ⟨t2, _⟩, ⟨t3, _⟩, ⟨t4, _⟩]) =>
    if isDigits n && isTrackTok k && pyUpper e = str "D" && isDigits d &&
        isTcTok t1 && isTcTok t2 && isTcTok t3 && isTcTok t4 then
      some (⟨n, r, k, t1, t2, t3, t4⟩, d)
    else none
  | _ => none

/-- `WipeStatement.PAT_EVENT`: as `dissolvePat` but with event type
`(?P<event_type>W\d+)`. -/
def wipePat (l : Str) : Option (SfsGroups × Str × Str) :=
  match lexLine l with
  | (0, [⟨n, _⟩, ⟨r, _⟩, ⟨k, _⟩, ⟨e, _⟩, ⟨d, _⟩, ⟨t1, _⟩, ⟨t2, _⟩, ⟨t3, _⟩, ⟨t4, _⟩]) =>
    match e with
    | w :: wid =>
      if isDigits n && isTrackTok k && toUpperCh w = 'W' && isDigits wid && isDigits d &&
          isTcTok t1 && isTcTok t2 && isTcTok t3 && isTcTok t4 then
        some (⟨n, r, k, t1, t2, t3, t4⟩, wid, d)
      else none
    | [] => none
  | _ => none

/-- `KeyForegroundStatement.PAT_EVENT`: as `dissolvePat` but with event
type `K`. -/
def keyFgPat (l : Str) : Option (SfsGroups × Str) :=
  match lexLine l with
  | (0, [⟨n, _⟩, ⟨r, _⟩, ⟨k, _⟩, ⟨e, _⟩, ⟨d, _⟩, ⟨t1, _⟩, ⟨t2, _⟩, ⟨t3, _⟩, ⟨t4, _⟩]) =>
    if isDigits n && isTrackTok k && pyUpper e = str "K" && isDigits d &&
        isTcTok t1 && isTcTok t2 && isTcTok t3 && isTcTok t4 then
      some (⟨n, r, k, t1, t2, t3, t4⟩, d)
    else none
  | _ => none

/-- The `(?P<event_type>K\s?B)` group of `KeyBackgroundStatement` at the
head of the remaining tokens: one token `KB`, or tokens `K` and `B`
separated by exactly one whitespace character.  Returns the gap after the
`B` and the remaining tokens. -/
def kbEvType : List TokG → Option (Nat × List TokG)
  | ⟨t1, g1⟩ :: rest =>
    if pyUpper t1 = str "KB" then some (g1, rest)
    else if pyUpper t1 = str "K" && g1 = 1 then
      match rest with
      | ⟨t2, g2⟩ :: rest' => if pyUpper t2 = str "B" then some (g2, rest') else none
      | [] => none
    else none
  | [] => none

/-- The `\s+(?P<fade_condition>\(F\))?\s+` part of
`KeyBackgroundStatement.PAT_EVENT` followed by the four timecode groups:
either an `(F)` token then the timecodes, or the timecodes directly — in
which case the two consecutive `\s+` require the gap after the `B` to be
at least 2. -/
def kbFade (gapB : Nat) (rest : List TokG) : Option (Bool × Str × Str × Str × Str) :=
  match rest with
  | [⟨f, _⟩, ⟨t1, _⟩, ⟨t2, _⟩, ⟨t3, _⟩, ⟨t4, _⟩] =>
    if pyUpper f = str "(F)" && isTcTok t1 && isTcTok t2 && isTcTok t3 && isTcTok t4 then
      some (true, t1, t2, t3, t4)
    else none
  | [⟨t1, _⟩, ⟨t2, _⟩, ⟨t3, _⟩, ⟨t4, _⟩] =>
    if gapB ≥ 2 && isTcTok t1 && isTcTok t2 && isTcTok t3 && isTcTok t4 then
      some (false, t1, t2, t3, t4)
    else none
  | _ => none

/-- `KeyBackgroundStatement.PAT_EVENT`:
`^(\d+)\s+([^\s]+)\s+(A\d*|B|V)\s+(K\s?B)\s+(\(F\))?\s+` then the four
timecodes, ending `\s*$`, case-insensitive. -/
def keyBgPat (l : Str) : Option (SfsGroups × Bool) :=
  match lexLine l with
  | (0, ⟨n, _⟩ :: ⟨r, _⟩ :: ⟨k, _⟩ :: rest) =>
    if isDigits n && isTrackTok k then
      match kbEvType rest with
      | some (gapB, rest') =>
        match kbFade gapB rest' with
        | some (fade, t1, t2, t3, t4) => some (⟨n, r, k, t1, t2, t3, t4⟩, fade)
        | none => none
      | none => none
    else none
  | _ => none

/-- The fields shared by every `StandardFormStatement`
(`__init__` plus `_parse_shared_elements`): source reel, the single
parsed track (the source stores the singleton set `{Track(...)}`), the
source and record timecode ranges, and the originating event number. -/
structure SfsCore where
  reel : SourceReel
  track : Track
  timecode_source : TimecodeRange
  timecode_record : TimecodeRange
  event_number : Option Nat
  deriving DecidableEq, Repr

/-- The `StandardFormStatement` variants, in the declaration (and
therefore `all_statement_types`) order of `edl/sfm.py`. -/
inductive Sfs
  | cut (core : SfsCore)
  | dissolve (core : SfsCore) (dissolve_length : Nat)
  | wipe (core : SfsCore) (wipe_length : Nat) (wipe_id : Nat)
  | keyFg (core : SfsCore) (dissolve_length : Nat)
  | keyBg (core : SfsCore) (fade : Bool)
  deriving DecidableEq, Repr

/-- The shared fields of a statement. -/
def Sfs.core : Sfs → SfsCore
  | .cut c => c
  | .dissolve c _ => c
  | .wipe c _ _ => c
  | .keyFg c _ => c
  | .keyBg c _ => c

/-- `StandardFormStatement.fcm`: hardcoded to `NON_DROP_FRAME` in the
source ("TODO: No hardcode no mo plz bb"). -/
def Sfs.fcm (_ : Sfs) : Fcm := .nonDropFrame

/-- `_parse_shared_elements` plus the base `__init__`: event number via
`int`, `Track(track_type)` (which raises on `B`), the two
`TimecodeRange`s, and `SourceReel.from_string(reel_name)`.  Error strings
of the external raises are representative; no claim inspects them. -/
def mkSfsCore (g : SfsGroups) : Except Str SfsCore :=
  match Track.ofName g.track_type with
  | none => .error (str "is not a valid Type")
  | some track =>
    match parseTc g.tc_src_in, parseTc g.tc_src_out with
    | some a, some b =>
      (match mkRange a b with
      | none => .error (str "invalid timecode range")
      | some tsrc =>
        match parseTc g.tc_rec_in, parseTc g.tc_rec_out with
        | some a2, some b2 =>
          (match mkRange a2 b2 with
          | none => .error (str "invalid timecode range")
          | some trec =>
            match SourceReel.fromString g.reel_name with
            | .error e => .error e
            | .ok reel => .ok ⟨reel, track, tsrc, trec, some (pyInt g.event_number)⟩)
        | _, _ => .error (str "invalid timecode"))
    | _, _ => .error (str "invalid timecode")

/-- The standard-form stage of `Event._identify_line`: try each
`PAT_EVENT` in `all_statement_types` order (Cut, Dissolve, Wipe,
KeyForeground, KeyBackground); on the first syntactic match run that
variant's `parse_from_pattern` (whose failure propagates). -/
def sfsParseLine (l : Str) : Option (Except Str Sfs) :=
  match cutPat l with
  | some g =>
    some (match mkSfsCore g with | .error e => .error e | .ok c => .ok (Sfs.cut c))
  | none =>
    match dissolvePat l with
    | some (g, d) =>
      some (match mkSfsCore g with
        | .error e => .error e | .ok c => .ok (Sfs.dissolve c (pyInt d)))
    | none =>
      match wipePat l with
      | some (g, wid, d) =>
        some (match mkSfsCore g with
          | .error e => .error e | .ok c => .ok (Sfs.wipe c (pyInt d) (pyInt wid)))
      | none =>
        match keyFgPat l with
        | some (g, d) =>
          some (match mkSfsCore g with
            | .error e => .error e | .ok c => .ok (Sfs.keyFg c (pyInt d)))
        | none =>
          match keyBgPat l with
          | some (g, fade) =>
            some (match mkSfsCore g with
              | .error e => .error e | .ok c => .ok (Sfs.keyBg c fade))
          | none => none

/-! ## `edl/nfm.py`: note form statements -/

/-- Characters of the `(?P<speed>[\+\-\.0-9]+)` class. -/
def isSpeedCh (c : Char) : Bool := c = '+' || c = '-' || c = '.' || isDigitCh c

/-- Python `float(s)` on tokens over the speed character class, as an
exact rational: optional sign, then digits with an optional point
(`"1"`, `"1."`, `".5"`, `"+4.75"`); `none` models the `ValueError` on
anything else (`""`, `"."`, `"--1"`, `"1.2.3"`, …). -/
def parseUnsignedDec (s : Str) : Option ℚ :=
  let a := s.takeWhile isDigitCh
  match s.dropWhile isDigitCh with
  | [] => if a.isEmpty then none else some (pyInt a)
  | '.' :: b =>
    if b.all isDigitCh && (!a.isEmpty || !b.isEmpty) then
      some ((pyInt a : ℚ) + (pyInt b : ℚ) / (10 : ℚ) ^ b.length)
    else none
  | _ => none

/-- Python `float(s)` (sign handling). -/
def pyFloatQ (s : Str) : Option ℚ :=
  match s with
  | '+' :: r => parseUnsignedDec r
  | '-' :: r => (parseUnsignedDec r).map Neg.neg
  | _ => parseUnsignedDec s

/-- `MotionMemoryNoteFormStatement`: source reel, speed, source start. -/
structure Nfs where
  reel : SourceReel
  speed : ℚ
  tc_start : Timecode
  deriving DecidableEq, Repr

/-- `MotionMemoryNoteFormStatement.PAT_NOTE`:
`^(M2)\s+([^\s]+)\s+([\+\-\.0-9]+)\s+(\d{2}:\d{2}:\d{2}:\d{2})\s+`,
case-insensitive, with no end anchor: the final `\s+` requires at least
one whitespace character after the timecode (further text may follow and
is ignored). -/
def m2Pat (l : Str) : Option (Str × Str × Str) :=
  match lexLine l with
  | (0, ⟨m, _⟩ :: ⟨r, _⟩ :: ⟨sp, _⟩ :: ⟨t1, g4⟩ :: rest) =>
    if pyUpper m = str "M2" && !sp.isEmpty && sp.all isSpeedCh && isTcTok t1 &&
        (decide (g4 ≥ 1) || !rest.isEmpty) then
      some (r, sp, t1)
    else none
  | _ => none

/-- `MotionMemoryNoteFormStatement.parse_from_pattern` plus `__init__`:
reel via `SourceReel.from_string`, speed via `float`, start via
`Timecode`. -/
def m2Parse (r sp t1 : Str) : Except Str Nfs :=
  match SourceReel.fromString r with
  | .error e => .error e
  | .ok reel =>
    match pyFloatQ sp with
    | none => .error (str "could not convert string to float")
    | some speed =>
      match parseTc t1 with
      | none => .error (str "invalid timecode")
      | some tc => .ok ⟨reel, speed, tc⟩

/-! ## `edl/comments.py` -/

/-- The comment variants: `FieldComment` and `StandardComment`. -/
inductive Cmt
  | field (fieldName : Str) (value : Str)
  | standard (comment : Str)
  deriving DecidableEq, Repr

/-- `BaseComment.validate`: `all((len(line.strip()), not
re.search("[\n]", line), not line.split()[0][0].isnumeric()))`.  The
tuple is built eagerly, so on a line with no tokens the subscript raises
`IndexError` before `all` runs: that is the `none` case. -/
def baseValidate (l : Str) : Option Bool :=
  match pySplit l with
  | (c :: _) :: _ =>
    some (!(pyStrip l).isEmpty && !l.contains '\n' && !isDigitCh c)
  | _ => none

/-- `FieldComment.PAT_MATCH.search` with the anchored pattern
`^\*\s*[^\s]+.*\:\s*[^\s]+.*$`: after a leading `*` and optional
whitespace there is a non-space character, and after at least one
character there is a `:` followed (anywhere later) by a non-space
character. -/
def hasColonThenNonspace : Str → Bool
  | [] => false
  | ':' :: b => b.any (fun c => !isPySpace c) || hasColonThenNonspace b
  | _ :: b => hasColonThenNonspace b

/-- See `hasColonThenNonspace`; the whole-pattern test. -/
def fieldPatMatch (l : Str) : Bool :=
  match l with
  | '*' :: t =>
    let rest := t.dropWhile isPySpace
    !rest.isEmpty && hasColonThenNonspace (rest.drop 1)
  | _ => false

/-- `FieldComment.validate`: the base validator and the pattern (both
evaluated eagerly inside `all`). -/
def fieldValidate (l : Str) : Option Bool :=
  (baseValidate l).map (fun b => b && fieldPatMatch l)

/-- `StandardComment.validate` is exactly the base validator. -/
def stdValidate (l : Str) : Option Bool := baseValidate l

/-- Python `line[1:].split(":", maxsplit=1)`: the text before the first
colon and the text after it, when a colon exists. -/
def splitFirstColon : Str → Option (Str × Str)
  | [] => none
  | c :: r =>
    if c = ':' then some ([], r) else (splitFirstColon r).map (fun p => (c :: p.1, p.2))

/-- `FieldComment.from_string`: split the tail at the first colon, strip
both parts; subscripting the split models the `IndexError` when no colon
exists (unreachable after validation). -/
def fieldFromString (l : Str) : Except Str Cmt :=
  match splitFirstColon (l.drop 1) with
  | some (a, b) => .ok (.field (pyStrip a) (pyStrip b))
  | none => .error (str "list index out of range")

/-! ## `edl/events.py` -/

/-- The classification outcome of one line. -/
inductive Parsed
  | sfs (s : Sfs)
  | note (n : Nfs)
  | comment (c : Cmt)
  deriving DecidableEq, Repr

/-- The note-form and comment stages of `Event._identify_line`: the
note-form patterns; else the comment validators (FieldComment, then
StandardComment); else "Unrecognized line". -/
def identifyTail (l : Str) : Except Str Parsed :=
  match m2Pat l with
  | some (r, sp, t1) =>
    (match m2Parse r sp t1 with | .error e => .error e | .ok n => .ok (.note n))
  | none =>
    match fieldValidate l with
    | none => .error (str "list index out of range")
    | some true =>
      (match fieldFromString l with | .error e => .error e | .ok c => .ok (.comment c))
    | some false =>
      match stdValidate l with
      | none => .error (str "list index out of range")
      | some true => .ok (.comment (.standard l))
      | some false => .error (str "Unrecognized line")

/-- `Event._identify_line`: all standard-form patterns in order; else an
immediate failure when the line's first character is numeric; else the
note-form and comment stages. -/
def identifyLine (l : Str) : Except Str Parsed :=
  match sfsParseLine l with
  | some res => (match res with | .error e => .error e | .ok s => .ok (.sfs s))
  | none =>
    if !l.isEmpty && isDigitCh (l.headD ' ') then
      .error (str "Unrecognized standard form statement")
    else identifyTail l

/-- An `Event`: its standard statements, note statements and comments, in
parse order. -/
structure Event where
  sfs : List Sfs
  nfs : List Nfs
  comments : List Cmt
  deriving DecidableEq, Repr

/-- `Event.__init__` validation: at least one standard statement, and all
statements agreeing on their FCM. -/
def mkEvent (sfs : List Sfs) (nfs : List Nfs) (comments : List Cmt) : Except Str Event :=
  if sfs.isEmpty then
    .error (str "An event must contain at least one standard form statement (zero were given)")
  else if (sfs.map Sfs.fcm).dedup.length ≠ 1 then
    .error (str "Standard Form Statements must have matching FCMs")
  else
    .ok ⟨sfs, nfs, comments⟩

/-- The classification loop of `Event.from_string`: skip blank lines,
classify the rest, and gather each kind in order. -/
def classifyLines : List Str → Except Str (List Sfs × List Nfs × List Cmt)
  | [] => .ok ([], [], [])
  | l :: ls =>
    if (pyStrip l).isEmpty then classifyLines ls
    else
      match identifyLine l with
      | .error e => .error e
      | .ok p =>
        match classifyLines ls with
        | .error e => .error e
        | .ok (a, b, c) =>
          match p with
          | .sfs s => .ok (s :: a, b, c)
          | .note n => .ok (a, n :: b, c)
          | .comment cm => .ok (a, b, cm :: c)

/-- `Event.from_string` on the buffered lines (the source joins the
buffer with `"\n"` and `splitlines` it back; on the newline-free lines
the buffer holds, that plumbing is the identity). -/
def Event.fromLines (lines : List Str) : Except Str Event :=
  match classifyLines lines with
  | .error e => .error e
  | .ok (a, b, c) => mkEvent a b c

/-- `Event.tracks`: the union of every statement's track set.  Python
`Track` equality and hashing go through the rendered `name`, so the set
is the set of track names. -/
def Event.trackNames (e : Event) : Finset Str :=
  (e.sfs.map (fun s => s.core.track.name)).toFinset

/-- `Event.sources`: the set of statement sources.  Python `SourceReel`
equality and hashing go through `name`, so the set is the set of source
names. -/
def Event.sourceNames (e : Event) : Finset Str :=
  (e.sfs.map (fun s => s.core.reel.name)).toFinset

/-- `Event.timecode_extents.start`: the minimum record-range start, as a
frame count. -/
def Event.minRecStart (e : Event) : Nat :=
  match e.sfs.map (fun s => s.core.timecode_record.start.frames) with
  | [] => 0
  | x :: xs => xs.foldl min x

/-- `Event.timecode_extents.end`: the maximum record-range end, as a
frame count. -/
def Event.maxRecEnd (e : Event) : Nat :=
  match e.sfs.map (fun s => s.core.timecode_record.stop.frames) with
  | [] => 0
  | x :: xs => xs.foldl max x

/-- `Event.duration`: the duration of the extents range. -/
def Event.duration (e : Event) : Nat := e.maxRecEnd - e.minRecStart

/-! ## Serialization -/

/-- Python `str.zfill`, including its treatment of a leading sign. -/
def pyZfill (w : Nat) (s : Str) : Str :=
  match s with
  | c :: rest =>
    if c = '-' || c = '+' then c :: (List.replicate (w - s.length) '0' ++ rest)
    else List.replicate (w - s.length) '0' ++ s
  | [] => List.replicate w '0'

/-- The rendered `str(self.event_number if self.event_number is not None
else 1).zfill(3)` field. -/
def SfsCore.numField (c : SfsCore) : Str := pyZfill 3 (natToStr (c.event_number.getD 1))

/-- The four space-separated timecode fields closing every statement
line. -/
def SfsCore.tcFields (c : SfsCore) : Str :=
  c.timecode_source.start.render ++ [' '] ++ c.timecode_source.stop.render ++ [' '] ++
    c.timecode_record.start.render ++ [' '] ++ c.timecode_record.stop.render

/-- The common front of every statement line: padded event number, reel
name left-justified to 128, the joined track names (a singleton here)
left-justified to 3. -/
def SfsCore.front (c : SfsCore) : Str :=
  c.numField ++ str "  " ++ ljust 128 c.reel.name ++ str "  " ++ ljust 3 c.track.name

/-- The `__str__` of each statement variant, with the exact spacing of
the source f-strings. -/
def Sfs.render : Sfs → Str
  | .cut c => c.front ++ str "  C       " ++ c.tcFields
  | .dissolve c len => c.front ++ str "  D  " ++ pyZfill 3 (natToStr len) ++ str "  " ++ c.tcFields
  | .wipe c len wid =>
    c.front ++ str "  W" ++ pyZfill 3 (natToStr wid) ++ str "  " ++ pyZfill 3 (natToStr len) ++
      str "  " ++ c.tcFields
  | .keyFg c len => c.front ++ str "  K  " ++ pyZfill 3 (natToStr len) ++ str "  " ++ c.tcFields
  | .keyBg c fade =>
    c.front ++ str "  K B  " ++ (if fade then str "(F)" else str "   ") ++ str "  " ++ c.tcFields

/-- Python `str.rjust`. -/
def pyRjust (w : Nat) (s : Str) : Str := spaces (w - s.length) ++ s

/-- `str(round(self.speed, 1))`, modelled as exact rational rounding to
one decimal place rendered with exactly one fractional digit.  (The
source rounds a binary float with round-half-even and renders it with
`repr`; the claims never depend on this field's exact text, only on it
containing no whitespace, which holds of both.) -/
def speedRound1Str (q : ℚ) : Str :=
  let n : ℤ := round (q * 10)
  (if n < 0 then ['-'] else []) ++ natToStr (n.natAbs / 10) ++ ['.'] ++ [digitCh (n.natAbs % 10)]

/-- `MotionMemoryNoteFormStatement.__str__`:
`f"M2     {reel_name.ljust(129)}  {str(round(speed,1)).zfill(6 if speed <
0 else 5).rjust(6)}  {timecode_start}"`. -/
def Nfs.render (n : Nfs) : Str :=
  str "M2     " ++ ljust 129 n.reel.name ++ str "  " ++
    pyRjust 6 (pyZfill (if n.speed < 0 then 6 else 5) (speedRound1Str n.speed)) ++
    str "  " ++ n.tc_start.render

/-- `__str__` of a comment: `FieldComment` re-renders `* field: value`;
`StandardComment` returns its text verbatim. -/
def Cmt.render : Cmt → Str
  | .field f v => str "* " ++ f ++ str ": " ++ v
  | .standard c => c

/-- Join strings with a newline between consecutive elements
(Python `"\n".join`). -/
def joinNl : List Str → Str
  | [] => []
  | [x] => x
  | x :: xs => x ++ '\n' :: joinNl xs

/-- `Event.__str__`: the statements, the notes and the comments, each
group newline-joined, the three groups newline-joined (an empty group
contributes an empty line). -/
def Event.render (e : Event) : Str :=
  joinNl [joinNl (e.sfs.map Sfs.render), joinNl (e.nfs.map Nfs.render),
    joinNl (e.comments.map Cmt.render)]

/-! ## `edl/edl.py` -/

/-- An `Edl`: title, frame counting mode, events. -/
structure Edl where
  title : Str
  fcm : Fcm
  events : List Event
  deriving DecidableEq, Repr

/-- `Edl.header`: `TITLE: <title>`, and `FCM: <value>` on a second line
unless the FCM is PAL. -/
def Edl.header (e : Edl) : Str :=
  str "TITLE: " ++ e.title ++
    (if e.fcm ≠ Fcm.pal then '\n' :: (str "FCM: " ++ e.fcm.value) else [])

/-- `Edl.write` / `Edl.__str__`: the header then each event, `print`
appending a newline after each. -/
def Edl.renderText (e : Edl) : Str :=
  e.header ++ ['\n'] ++ (e.events.map (fun ev => ev.render ++ ['\n'])).flatten

/-- `Edl._parse_title_from_line`. -/
def parseTitleLine (line : Str) : Except Str Str :=
  if pyStartsWith (str "title:") (pyLower line) then
    let t := pyStrip (line.drop 6)
    if t.isEmpty then .error (str "Title is empty") else .ok t
  else .error (str "Title was expected, but not found")

/-- `Edl._parse_fcm_from_line`. -/
def parseFcmLine (line : Str) : Except Str Fcm :=
  if pyStartsWith (str "fcm:") (pyLower line) then
    match Fcm.ofValue (pyStrip (line.drop 4)) with
    | some f => .ok f
    | none => .error (str "Invalid FCM specified")
  else .error (str "FCM was expected, but not found")

/-- `Edl._is_begin_new_event(line, current_index)`: `False` when the
index is unset (`0`); else the first token of the line (an `IndexError`
on a whitespace-only line), which begins a new event when its `lower()`
is in the set `{"FCM:", "SPLIT:"}` or when it is numeric and differs
from the current index. -/
def isBeginNewEvent (line : Str) (currentIndex : Nat) : Except Str Bool :=
  if currentIndex = 0 then .ok false
  else
    match pySplit line with
    | [] => .error (str "list index out of range")
    | t :: _ =>
      if pyLower t = str "FCM:" || pyLower t = str "SPLIT:" then .ok true
      else if pyIsNumeric t && pyInt t ≠ currentIndex then .ok true
      else .ok false

/-- The segmentation state of `Edl.from_file`: flushed events, the
pending line buffer, and the tracked event index (`0` = unset). -/
structure SegState where
  events : List Event
  buffer : List Str
  idx : Nat
  deriving DecidableEq, Repr

/-- The body of the `for` loop of `Edl.from_file` for one non-blank
line: flush the buffer into an `Event` when a new event begins; update
the tracked index from a numeric first token (an `IndexError` on a
whitespace-only line); append the line to the buffer. -/
def stepLine (st : SegState) (line : Str) : Except Str SegState :=
  match
    (if st.buffer.isEmpty then .ok st
     else
       match isBeginNewEvent line st.idx with
       | .error e => .error e
       | .ok false => .ok st
       | .ok true =>
         match Event.fromLines st.buffer with
         | .error e => .error e
         | .ok ev => .ok ⟨st.events ++ [ev], [], 0⟩ : Except Str SegState) with
  | .error e => .error e
  | .ok st₁ =>
    match pySplit line with
    | [] => .error (str "list index out of range")
    | t :: _ =>
      .ok ⟨st₁.events, st₁.buffer ++ [line], if pyIsNumeric t then pyInt t else st₁.idx⟩

/-- The `for line_num, line_edl in enumerate(...)` loop: blank lines are
skipped (but numbered); any error of the body is wrapped as
`Line {line_num+2}: {e}`. -/
def segLoop : List Str → Nat → SegState → Except Str SegState
  | [], _, st => .ok st
  | l :: ls, n, st =>
    if l.isEmpty then segLoop ls (n + 1) st
    else
      match stepLine st l with
      | .ok st' => segLoop ls (n + 1) st'
      | .error e => .error (str "Line " ++ natToStr (n + 2) ++ str ": " ++ e)

/-- The tail of `Edl.from_file` after the header: run the loop over the
remaining lines, then flush any remaining buffer as the final event —
outside the `try`, so its errors are not wrapped. -/
def Edl.finishBody (title : Str) (fcm : Fcm) (body : List Str) : Except Str Edl :=
  match segLoop body 0 ⟨[], [], 0⟩ with
  | .error e => .error e
  | .ok st =>
    if st.buffer.isEmpty then .ok ⟨title, fcm, st.events⟩
    else
      match Event.fromLines st.buffer with
      | .error e => .error e
      | .ok ev => .ok ⟨title, fcm, st.events ++ [ev]⟩

/-- `Edl.from_file` on the stream's lines: parse the title from the
first line; peek the next line and consume it as the FCM when it starts
with `FCM:` (case-insensitively), else default to PAL and leave it;
segment the rest. -/
def Edl.fromLines (lines : List Str) : Except Str Edl :=
  match lines with
  | [] =>
    (match parseTitleLine [] with
     | .error e => .error e
     | .ok t => .ok ⟨t, .pal, []⟩)
  | t :: rest =>
    match parseTitleLine t with
    | .error e => .error e
    | .ok title =>
      match rest with
      | [] => .ok ⟨title, .pal, []⟩
      | l :: rs =>
        if pyStartsWith (str "FCM:") (pyUpper l) then
          match parseFcmLine l with
          | .error e => .error e
          | .ok f => Edl.finishBody title f rs
        else Edl.finishBody title .pal (l :: rs)

/-- Split a character list at every newline (how the line-oriented reads
of `Edl.from_file` — `readline`, `readlines` with `rstrip("\n")` —
decompose the stream's text). -/
def splitNl : Str → List Str
  | [] => [[]]
  | c :: cs =>
    if c = '\n' then [] :: splitNl cs
    else
      match splitNl cs with
      | g :: gs => (c :: g) :: gs
      | [] => [[c]]

/-- `Edl.from_file` on a text. -/
def Edl.fromText (s : Str) : Except Str Edl := Edl.fromLines (splitNl s)

/-! ## Lexer lemmas -/

/-- The canonical line built from a token/gap list. -/
def tgJoin : List TokG → Str
  | [] => []
  | ⟨t, g⟩ :: rest => t ++ spaces g ++ tgJoin rest

/-! ## Round-trip machinery (claim C1)

`Edl.from_file (write(D))` does not reproduce `D` verbatim: a track
index below 1 re-reads as index 1 (same rendered name), a missing event
number renders as 1 and re-reads as 1, M2 note lines re-read as
comments (their rendering lacks the trailing whitespace `PAT_NOTE`
demands), and each event's comments are re-classified from their
rendering.  `roundEdl` is that normal form; the round-trip theorem shows
re-parsing yields exactly `roundEdl D`, from which the claim's
preserved observables (title, fcm, event count, per-event track-name
set, source-name set, duration) follow. -/

/-- The track a rendered track name re-reads as: index at least 1. -/
def normTrack (t : Track) : Track := ⟨t.ttype, max 1 t.index⟩

/-- The shared fields a rendered statement re-reads as. -/
def roundCore (c : SfsCore) : SfsCore :=
  ⟨c.reel, normTrack c.track, c.timecode_source, c.timecode_record,
    some (c.event_number.getD 1)⟩

/-- The statement a rendered statement re-reads as. -/
def roundSfs : Sfs → Sfs
  | .cut c => .cut (roundCore c)
  | .dissolve c len => .dissolve (roundCore c) len
  | .wipe c len wid => .wipe (roundCore c) len wid
  | .keyFg c len => .keyFg (roundCore c) len
  | .keyBg c fade => .keyBg (roundCore c) fade

/-- The comment a rendered comment re-reads as (total; for the comments
produced by a successful parse the fallback branch is unreachable). -/
def reclassifyCmt (c : Cmt) : Cmt :=
  match identifyLine (Cmt.render c) with
  | .ok (.comment c') => c'
  | _ => c

/-- The event a rendered event re-reads as: statements normalised, note
statements re-read as comments after the original comments are
re-classified. -/
def roundEvent (e : Event) : Event :=
  ⟨e.sfs.map roundSfs, [],
    e.nfs.map (fun n => .standard (Nfs.render n)) ++ e.comments.map reclassifyCmt⟩

/-- The document a rendered document re-reads as. -/
def roundEdl (d : Edl) : Edl := ⟨d.title, d.fcm, d.events.map roundEvent⟩

/-- The lines of a rendered event (`str(event)` split at newlines): the
statement lines, then the note lines, then the comment lines, an empty
group contributing one empty line. -/
def Event.renderLines (e : Event) : List Str :=
  e.sfs.map Sfs.render ++ (if e.nfs.isEmpty then [[]] else e.nfs.map Nfs.render) ++
    (if e.comments.isEmpty then [[]] else e.comments.map Cmt.render)

/-- The event number a statement renders with (`event_number` defaulted
to 1). -/
def numOf (s : Sfs) : Nat := s.core.event_number.getD 1

/-- The event-number sequence of an event's statements. -/
def numsOf (e : Event) : List Nat := e.sfs.map numOf

/-- The last statement number of an event — the value the segmentation
loop's `current_index` holds once the event's lines are buffered. -/
def lastNum (e : Event) : Nat := (numsOf e).getLastD 0

/-- The first statement number of an event. -/
def firstNum (e : Event) : Nat := (numsOf e).headD 0

/-- One step of the `current_index` chain: a line numbered `b` does not
begin a new event while the tracked index is `a`. -/
def ChainR (a b : Nat) : Prop := a = 0 ∨ b = a

/-- The boundary between consecutive parsed events: the flush that
separated them requires a non-zero tracked index differing from the new
line's number. -/
def evBound (e₁ e₂ : Event) : Prop := lastNum e₁ ≠ 0 ∧ firstNum e₂ ≠ lastNum e₁

/-- A good source reel: its name is a non-empty whitespace-free token
that dispatches back to the same reel. -/
def GoodReel (r : SourceReel) : Prop :=
  r.name ≠ [] ∧ (∀ c ∈ r.name, isPySpace c = false) ∧
    SourceReel.fromString r.name = .ok r

/-- A good track: video tracks carry index 1 (the `A\d*|B|V` pattern
admits an explicit index only after `A`). -/
def GoodTrack (t : Track) : Prop := t.ttype = .video → t.index = 1

/-- A good timecode: two-digit fields. -/
def GoodTc (t : Timecode) : Prop := t.hh ≤ 99 ∧ t.mm ≤ 99 ∧ t.ss ≤ 99 ∧ t.ff ≤ 99

/-- A good range: two-digit fields, ordered ends. -/
def GoodRange (r : TimecodeRange) : Prop :=
  GoodTc r.start ∧ GoodTc r.stop ∧ r.start.frames ≤ r.stop.frames

/-- The shared-field invariants a successful parse establishes. -/
def GoodCore (c : SfsCore) : Prop :=
  GoodReel c.reel ∧ GoodTrack c.track ∧ GoodRange c.timecode_source ∧
    GoodRange c.timecode_record ∧ ∃ n, c.event_number = some n

/-- A good statement. -/
def GoodSfs (s : Sfs) : Prop := GoodCore s.core

/-- A good note statement. -/
def GoodNfs (n : Nfs) : Prop := GoodReel n.reel ∧ GoodTc n.tc_start

/-- A good comment: a standard comment is classification-stable (it was
produced by classifying its own verbatim text) and passes its validator;
a field comment's parts are newline-free. -/
def GoodCmt : Cmt → Prop
  | .standard x => identifyLine x = .ok (.comment (.standard x)) ∧ stdValidate x = some true
  | .field f v => '\n' ∉ f ∧ '\n' ∉ v

/-- The event invariants a successful parse establishes. -/
def GoodEvent (e : Event) : Prop :=
  e.sfs ≠ [] ∧ (∀ s ∈ e.sfs, GoodSfs s) ∧ (∀ n ∈ e.nfs, GoodNfs n) ∧
    (∀ c ∈ e.comments, GoodCmt c) ∧ List.Chain' ChainR (numsOf e)

/-- The numeric value of a line's first token, when it has one and it is
numeric (what the segmentation loop's `current_index` tracking sees). -/
def lineTokNum (l : Str) : Option Nat :=
  match pySplit l with
  | t :: _ => if pyIsNumeric t then some (pyInt t) else none
  | [] => none

/-- The numeric first-token values of a line sequence. -/
def numsOfLines (ls : List Str) : List Nat := ls.filterMap lineTokNum

/-- A good parsed title: re-parsing its header line yields it back, and
it is newline-free. -/
def GoodTitle (t : Str) : Prop :=
  parseTitleLine (str "TITLE: " ++ t) = .ok t ∧ '\n' ∉ t

/-- The good-document invariant: good events, chained boundaries, good
title. -/
def GoodEdl (d : Edl) : Prop :=
  GoodTitle d.title ∧ (∀ e ∈ d.events, GoodEvent e) ∧ List.Chain' evBound d.events

/-- The lines a line sequence absorbs into the buffer without beginning
a new event, tracking the index: `NoFlush i ls j` says processing `ls`
with tracked index `i` and a non-empty buffer flushes nothing and ends
with index `j`. -/
inductive NoFlush : Nat → List Str → Nat → Prop
  | nil (i : Nat) : NoFlush i [] i
  | blank (i j : Nat) (ls : List Str) : NoFlush i ls j → NoFlush i ([] :: ls) j
  | tok (i j : Nat) (l : Str) (ls : List Str) (t : Str) (ts : List Str) :
      l ≠ [] → pySplit l = t :: ts →
      ¬(i ≠ 0 ∧ pyIsNumeric t = true ∧ pyInt t ≠ i) →
      NoFlush (if pyIsNumeric t then pyInt t else i) ls j → NoFlush i (l :: ls) j

/-- The invariant the segmentation loop of `Edl.from_file` maintains:
flushed events are good and boundary-chained; the buffer is newline-free
with chained numeric first tokens, the last of which is the tracked
index; an empty buffer means nothing was processed; and once an event
was flushed, the buffer opens with a numeric token differing from the
flushed event's final statement number. -/
def SegInv (st : SegState) : Prop :=
  (∀ e ∈ st.events, GoodEvent e) ∧
  List.Chain' evBound st.events ∧
  (∀ l ∈ st.buffer, '\n' ∉ l) ∧
  List.Chain' ChainR (numsOfLines st.buffer) ∧
  st.idx = (numsOfLines st.buffer).getLastD 0 ∧
  (st.buffer = [] → st.events = []) ∧
  (∀ e, st.events.getLast? = some e →
    lastNum e ≠ 0 ∧ numsOfLines st.buffer ≠ [] ∧
      (numsOfLines st.buffer).headD 0 ≠ lastNum e)

/-- The token list a rendered `Cut` line lexes to. -/
def cutToks (c : SfsCore) : List TokG :=
  [⟨c.numField, 2⟩, ⟨c.reel.name, 128 - c.reel.name.length + 2⟩,
   ⟨c.track.name, 3 - c.track.name.length + 2⟩, ⟨str "C", 7⟩,
   ⟨c.timecode_source.start.render, 1⟩, ⟨c.timecode_source.stop.render, 1⟩,
   ⟨c.timecode_record.start.render, 1⟩, ⟨c.timecode_record.stop.render, 0⟩]

/-- The token list a rendered `Dissolve` line lexes to. -/
def dissolveToks (c : SfsCore) (len : Nat) : List TokG :=
  [⟨c.numField, 2⟩, ⟨c.reel.name, 128 - c.reel.name.length + 2⟩,
   ⟨c.track.name, 3 - c.track.name.length + 2⟩, ⟨str "D", 2⟩,
   ⟨pyZfill 3 (natToStr len), 2⟩,
   ⟨c.timecode_source.start.render, 1⟩, ⟨c.timecode_source.stop.render, 1⟩,
   ⟨c.timecode_record.start.render, 1⟩, ⟨c.timecode_record.stop.render, 0⟩]

/-- The token list a rendered `Wipe` line lexes to. -/
def wipeToks (c : SfsCore) (len wid : Nat) : List TokG :=
  [⟨c.numField, 2⟩, ⟨c.reel.name, 128 - c.reel.name.length + 2⟩,
   ⟨c.track.name, 3 - c.track.name.length + 2⟩,
   ⟨'W' :: pyZfill 3 (natToStr wid), 2⟩, ⟨pyZfill 3 (natToStr len), 2⟩,
   ⟨c.timecode_source.start.render, 1⟩, ⟨c.timecode_source.stop.render, 1⟩,
   ⟨c.timecode_record.start.render, 1⟩, ⟨c.timecode_record.stop.render, 0⟩]

/-- The token list a rendered `KeyForeground` line lexes to. -/
def keyFgToks (c : SfsCore) (len : Nat) : List TokG :=
  [⟨c.numField, 2⟩, ⟨c.reel.name, 128 - c.reel.name.length + 2⟩,
   ⟨c.track.name, 3 - c.track.name.length + 2⟩, ⟨str "K", 2⟩,
   ⟨pyZfill 3 (natToStr len), 2⟩,
   ⟨c.timecode_source.start.render, 1⟩, ⟨c.timecode_source.stop.render, 1⟩,
   ⟨c.timecode_record.start.render, 1⟩, ⟨c.timecode_record.stop.render, 0⟩]

/-- The token list a rendered `KeyBackground` line lexes to. -/
def keyBgToks (c : SfsCore) (fade : Bool) : List TokG :=
  [⟨c.numField, 2⟩, ⟨c.reel.name, 128 - c.reel.name.length + 2⟩,
   ⟨c.track.name, 3 - c.track.name.length + 2⟩, ⟨str "K", 1⟩] ++
  (if fade then [⟨str "B", 2⟩, ⟨str "(F)", 2⟩] else [⟨str "B", 7⟩]) ++
  [⟨c.timecode_source.start.render, 1⟩, ⟨c.timecode_source.stop.render, 1⟩,
   ⟨c.timecode_record.start.render, 1⟩, ⟨c.timecode_record.stop.render, 0⟩]

/-- The zero-filled speed field of a rendered note line. -/
def speedTok (q : ℚ) : Str := pyZfill (if q < 0 then 6 else 5) (speedRound1Str q)

/-- The token list a rendered note line lexes to. -/
def nfsToks (n : Nfs) : List TokG :=
  [⟨str "M2", 5⟩,
   ⟨n.reel.name, 129 - n.reel.name.length + (2 + (6 - (speedTok n.speed).length))⟩,
   ⟨speedTok n.speed, 2⟩, ⟨n.tc_start.render, 0⟩]

/-- The buffer the segmentation loop accumulates while reading a
rendered event: its non-blank lines. -/
def bufOf (e : Event) : List Str := e.renderLines.filter (fun l => !l.isEmpty)

/-! ## Character lemmas -/

theorem toNat_ofNat_lt (n : Nat) (h : n < 0xd800) : (Char.ofNat n).toNat = n := by
  unfold Char.ofNat
  rw [dif_pos (Or.inl h)]
  simp [Char.ofNatAux, Char.toNat, UInt32.toNat, BitVec.toNat_ofNatLt]

theorem toNat_toLowerCh (c : Char) :
    (toLowerCh c).toNat = if 65 ≤ c.toNat ∧ c.toNat ≤ 90 then c.toNat + 32 else c.toNat := by
  unfold toLowerCh
  split
  · next h => exact toNat_ofNat_lt _ (by omega)
  · rfl

theorem toNat_toUpperCh (c : Char) :
    (toUpperCh c).toNat = if 97 ≤ c.toNat ∧ c.toNat ≤ 122 then c.toNat - 32 else c.toNat := by
  unfold toUpperCh
  split
  · next h => exact toNat_ofNat_lt _ (by omega)
  · rfl

/-- The output of ASCII `lower` is never an uppercase letter; in
particular never `F` or `S`. -/
theorem toLowerCh_ne_of_upper (c d : Char) (h65 : 65 ≤ d.toNat) (h90 : d.toNat ≤ 90) :
    toLowerCh c ≠ d := by
  intro h
  have := congrArg Char.toNat h
  rw [toNat_toLowerCh] at this
  split at this <;> omega

theorem toUpperCh_eq_self_of_lt (c : Char) (h : c.toNat < 97) : toUpperCh c = c := by
  unfold toUpperCh
  rw [if_neg (by omega)]

theorem toNat_lt_of_space (c : Char) (h : isPySpace c = true) : c.toNat < 97 := by
  simp only [isPySpace, Bool.or_eq_true, decide_eq_true_eq] at h
  rcases h with ((((h | h) | h) | h) | h) | h <;> subst h <;> decide

theorem not_space_of_toNat_ge (d : Char) (h65 : 33 ≤ d.toNat) : isPySpace d = false := by
  simp only [isPySpace, Bool.or_eq_false_iff, decide_eq_false_iff_not]
  refine ⟨⟨⟨⟨⟨?_, ?_⟩, ?_⟩, ?_⟩, ?_⟩, ?_⟩ <;> intro hc <;> subst hc <;> revert h65 <;> decide

theorem toUpperCh_of_space (c : Char) (h : isPySpace c = true) : toUpperCh c = c :=
  toUpperCh_eq_self_of_lt c (toNat_lt_of_space c h)

theorem isPySpace_toUpperCh (c : Char) : isPySpace (toUpperCh c) = isPySpace c := by
  by_cases h : isPySpace c = true
  · rw [toUpperCh_of_space c h]
  · simp only [Bool.not_eq_true] at h
    rw [h]
    unfold toUpperCh
    split
    · next hr =>
      have ht := toNat_ofNat_lt (c.toNat - 32) (by omega)
      exact not_space_of_toNat_ge _ (by omega)
    · rw [h]

/-! ## Strip, split and digit-string lemmas -/

theorem pyLStrip_eq_self (s : Str) (h : ∀ c ∈ s, isPySpace c = false) : pyLStrip s = s := by
  unfold pyLStrip
  cases s with
  | nil => rfl
  | cons c t => rw [List.dropWhile_cons_of_neg (by simp [h c (by simp)])]

theorem pyRStrip_eq_self (s : Str) (h : ∀ c ∈ s, isPySpace c = false) : pyRStrip s = s := by
  unfold pyRStrip
  rw [List.dropWhile_eq_self_iff.mpr, List.reverse_reverse]
  intro hne
  rw [Bool.not_eq_true]
  have := List.get_mem (List.reverse s) 0 hne
  rw [List.mem_reverse] at this
  exact h _ this

theorem pyStrip_eq_self (s : Str) (h : ∀ c ∈ s, isPySpace c = false) : pyStrip s = s := by
  unfold pyStrip
  rw [pyLStrip_eq_self s h, pyRStrip_eq_self s h]

theorem pyStrip_cons_space (c : Char) (s : Str) (h : isPySpace c = true) :
    pyStrip (c :: s) = pyStrip s := by
  unfold pyStrip pyLStrip
  rw [List.dropWhile_cons_of_pos h]

/-- `rstrip` leaves a string beginning with a non-space character
non-empty and keeps its head. -/
theorem pyRStrip_cons_nonspace (c : Char) (s : Str) (h : isPySpace c = false) :
    ∃ t, pyRStrip (c :: s) = c :: t := by
  unfold pyRStrip
  rcases hd : (c :: s).reverse.dropWhile isPySpace with _ | ⟨d, t⟩
  · exfalso
    have : ∀ x ∈ (c :: s).reverse, isPySpace x = true := by
      intro x hx
      have := List.dropWhile_eq_nil_iff.mp hd
      simpa using this x (by simpa using hx)
    have hc := this c (by simp)
    rw [h] at hc; exact Bool.false_ne_true hc
  · have hsfx : List.IsSuffix (d :: t) ((c :: s).reverse) := by
      rw [← hd]; exact List.dropWhile_suffix _
    have : List.IsPrefix ((d :: t).reverse) (c :: s) := by
      have := hsfx.reverse
      simpa using this
    rcases hrt : (d :: t).reverse with _ | ⟨e, u⟩
    · simp at hrt
    · rw [hrt] at this
      rcases this with ⟨w, hw⟩
      cases hw
      exact ⟨u, rfl⟩

theorem pyStrip_ne_nil_of_head (c : Char) (s : Str) (h : isPySpace c = false) :
    pyStrip (c :: s) ≠ [] := by
  unfold pyStrip
  rw [pyLStrip, List.dropWhile_cons_of_neg (by simp [h])]
  obtain ⟨t, ht⟩ := pyRStrip_cons_nonspace c s h
  simp [ht]

/-! ## Digit-string lemmas -/

theorem not_space_of_digit (c : Char) (h : isDigitCh c = true) : isPySpace c = false := by
  simp only [isDigitCh, Bool.and_eq_true, decide_eq_true_eq] at h
  exact not_space_of_toNat_ge c (by omega)

theorem digitCh_toNat (d : Nat) (h : d < 10) : (digitCh d).toNat = 48 + d :=
  toNat_ofNat_lt _ (by omega)

theorem isDigitCh_digitCh (d : Nat) (h : d < 10) : isDigitCh (digitCh d) = true := by
  simp only [isDigitCh, digitCh_toNat d h, Bool.and_eq_true, decide_eq_true_eq]
  omega

theorem pyInt_append_singleton (a : Str) (c : Char) :
    pyInt (a ++ [c]) = 10 * pyInt a + (c.toNat - 48) := by
  unfold pyInt
  rw [List.foldl_append]
  simp [Nat.mul_comm]

theorem pyInt_cons_zero (s : Str) : pyInt ('0' :: s) = pyInt s := by
  unfold pyInt
  simp [List.foldl_cons]

theorem pyInt_replicate_zero (k : Nat) (s : Str) :
    pyInt (List.replicate k '0' ++ s) = pyInt s := by
  induction k with
  | zero => simp
  | succ n ih => rw [List.replicate_succ, List.cons_append, pyInt_cons_zero, ih]

theorem natToStrF_spec (f : Nat) : ∀ n, n < f →
    natToStrF f n ≠ [] ∧ (∀ c ∈ natToStrF f n, isDigitCh c = true) ∧
      pyInt (natToStrF f n) = n := by
  induction f with
  | zero => intro n hn; omega
  | succ f ih =>
    intro n hn
    by_cases h10 : n < 10
    · refine ⟨by simp [natToStrF, h10], ?_, ?_⟩
      · intro c hc
        simp only [natToStrF, if_pos h10, List.mem_singleton] at hc
        subst hc
        exact isDigitCh_digitCh n h10
      · simp only [natToStrF, if_pos h10]
        show pyInt [digitCh n] = n
        unfold pyInt
        simp [digitCh_toNat n h10]
    · have hdiv : n / 10 < f := by omega
      obtain ⟨hne, hdig, hval⟩ := ih (n / 10) hdiv
      simp only [natToStrF, if_neg h10]
      refine ⟨by simp, ?_, ?_⟩
      · intro c hc
        rw [List.mem_append] at hc
        rcases hc with hc | hc
        · exact hdig c hc
        · rw [List.mem_singleton] at hc
          subst hc
          exact isDigitCh_digitCh _ (by omega)
      · rw [pyInt_append_singleton, hval, digitCh_toNat _ (by omega)]
        omega

theorem natToStr_ne_nil (n : Nat) : natToStr n ≠ [] :=
  (natToStrF_spec (n + 1) n (by omega)).1

theorem natToStr_digits (n : Nat) : ∀ c ∈ natToStr n, isDigitCh c = true :=
  (natToStrF_spec (n + 1) n (by omega)).2.1

theorem pyInt_natToStr (n : Nat) : pyInt (natToStr n) = n :=
  (natToStrF_spec (n + 1) n (by omega)).2.2

theorem natToStr_lt10 (n : Nat) (h : n < 10) : natToStr n = [digitCh n] := by
  simp [natToStr, natToStrF, h]

theorem natToStr_two_digit (n : Nat) (h10 : 10 ≤ n) (h99 : n ≤ 99) :
    natToStr n = [digitCh (n / 10), digitCh (n % 10)] := by
  have hn : n + 1 = (n - 1) + 1 + 1 := by omega
  rw [natToStr, hn]
  simp only [natToStrF, if_neg (by omega : ¬ n < 10)]
  rw [if_pos (show n / 10 < 10 by omega)]
  rfl

/-- The two-character zero-padded rendering of a value up to 99. -/
theorem zfill2_natToStr (n : Nat) (h : n ≤ 99) :
    ∃ a b, zfill 2 (natToStr n) = [a, b] ∧ isDigitCh a = true ∧ isDigitCh b = true ∧
      pyInt [a, b] = n := by
  by_cases h10 : n < 10
  · refine ⟨'0', digitCh n, ?_, by decide, isDigitCh_digitCh n h10, ?_⟩
    · rw [natToStr_lt10 n h10]; rfl
    · show pyInt ('0' :: [digitCh n]) = n
      rw [pyInt_cons_zero]
      unfold pyInt
      simp [digitCh_toNat n h10]
  · obtain h10' := Nat.le_of_not_lt h10
    rw [natToStr_two_digit n h10' h]
    refine ⟨digitCh (n / 10), digitCh (n % 10), rfl, isDigitCh_digitCh _ (by omega),
      isDigitCh_digitCh _ (by omega), ?_⟩
    unfold pyInt
    simp only [List.foldl_cons, List.foldl_nil]
    rw [digitCh_toNat _ (by omega), digitCh_toNat _ (by omega)]
    omega

theorem pyInt_two_digits (a b : Char) (ha : isDigitCh a = true) (hb : isDigitCh b = true) :
    pyInt [a, b] ≤ 99 := by
  simp only [isDigitCh, Bool.and_eq_true, decide_eq_true_eq] at ha hb
  unfold pyInt
  simp only [List.foldl_cons, List.foldl_nil]
  omega

/-! ## Timecode lemmas -/

theorem parseTc_render (t : Timecode) (hh : t.hh ≤ 99) (hm : t.mm ≤ 99) (hs : t.ss ≤ 99)
    (hf : t.ff ≤ 99) : parseTc t.render = some t := by
  obtain ⟨a1, a2, ea, da1, da2, va⟩ := zfill2_natToStr t.hh hh
  obtain ⟨b1, b2, eb, db1, db2, vb⟩ := zfill2_natToStr t.mm hm
  obtain ⟨c1, c2, ec, dc1, dc2, vc⟩ := zfill2_natToStr t.ss hs
  obtain ⟨d1, d2, ed, dd1, dd2, vd⟩ := zfill2_natToStr t.ff hf
  have hrender : t.render = [a1, a2, ':', b1, b2, ':', c1, c2, ':', d1, d2] := by
    unfold Timecode.render
    rw [ea, eb, ec, ed]
    rfl
  rw [hrender]
  simp [parseTc, da1, da2, db1, db2, dc1, dc2, dd1, dd2, va, vb, vc, vd]

theorem parseTc_fields_le (s : Str) (t : Timecode) (h : parseTc s = some t) :
    t.hh ≤ 99 ∧ t.mm ≤ 99 ∧ t.ss ≤ 99 ∧ t.ff ≤ 99 := by
  unfold parseTc at h
  split at h
  · next a1 a2 b1 b2 c1 c2 d1 d2 =>
    split at h
    · next hd =>
      simp only [Bool.and_eq_true] at hd
      obtain ⟨⟨⟨⟨⟨⟨⟨h1, h2⟩, h3⟩, h4⟩, h5⟩, h6⟩, h7⟩, h8⟩ := hd
      injection h with h
      subst h
      exact ⟨pyInt_two_digits _ _ h1 h2, pyInt_two_digits _ _ h3 h4,
        pyInt_two_digits _ _ h5 h6, pyInt_two_digits _ _ h7 h8⟩
    · exact absurd h (by simp)
  · exact absurd h (by simp)

theorem zfill_natToStr_nonspace (w x : Nat) : ∀ c ∈ zfill w (natToStr x), isPySpace c = false := by
  intro c hc
  unfold zfill at hc
  rw [List.mem_append] at hc
  rcases hc with hc | hc
  · rw [List.mem_replicate] at hc
    rw [hc.2]; decide
  · exact not_space_of_digit c (natToStr_digits _ c hc)

theorem tcRender_nonspace (t : Timecode) : ∀ c ∈ t.render, isPySpace c = false := by
  intro c hc
  unfold Timecode.render at hc
  simp only [List.append_assoc, List.mem_append, List.mem_singleton] at hc
  rcases hc with hc | hc | hc | hc | hc | hc | hc
  all_goals first
    | (subst hc; decide)
    | exact zfill_natToStr_nonspace _ _ c hc

theorem lexRaw_append (a b : Str) : lexRaw (a ++ b) = a.foldr lexStep (lexRaw b) := by
  unfold lexRaw
  exact List.foldr_append _ _ _ _

/-- Folding a non-empty all-non-space token onto a lexing merges it into
the head entry's token. -/
theorem foldr_token (t : Str) (ht : t ≠ []) (hns : ∀ c ∈ t, isPySpace c = false) :
    ∀ (u : Str) (g : Nat) (rest : List TokG),
      t.foldr lexStep (⟨u, g⟩ :: rest) = ⟨t ++ u, g⟩ :: rest := by
  induction t with
  | nil => exact absurd rfl ht
  | cons c t' ih =>
    intro u g rest
    rcases ht' : t' with _ | ⟨d, t''⟩
    · show lexStep c (⟨u, g⟩ :: rest) = ⟨c :: u, g⟩ :: rest
      unfold lexStep
      rw [if_neg (by simp [hns c (by simp)])]
      cases u <;> rfl
    · rw [← ht']
      have ht'ne : t' ≠ [] := by rw [ht']; simp
      show lexStep c (t'.foldr lexStep (⟨u, g⟩ :: rest)) = ⟨(c :: t') ++ u, g⟩ :: rest
      rw [ih ht'ne (fun x hx => hns x (by simp [hx])) u g rest]
      unfold lexStep
      rw [if_neg (by simp [hns c (by simp)])]
      have htune : t' ++ u ≠ [] := fun hh => ht'ne (List.append_eq_nil.mp hh).1
      rcases ht'' : t' ++ u with _ | ⟨e, v⟩
      · exact absurd ht'' htune
      · rw [List.cons_append, ht'']

theorem foldr_token_nil (t : Str) (ht : t ≠ []) (hns : ∀ c ∈ t, isPySpace c = false) :
    t.foldr lexStep [] = [⟨t, 0⟩] := by
  induction t with
  | nil => exact absurd rfl ht
  | cons c t' ih =>
    rcases ht' : t' with _ | ⟨d, t''⟩
    · show lexStep c [] = [⟨[c], 0⟩]
      unfold lexStep
      rw [if_neg (by simp [hns c (by simp)])]
    · rw [← ht']
      have ht'ne : t' ≠ [] := by rw [ht']; simp
      show lexStep c (t'.foldr lexStep []) = [⟨c :: t', 0⟩]
      rw [ih ht'ne (fun x hx => hns x (by simp [hx]))]
      unfold lexStep
      rw [if_neg (by simp [hns c (by simp)])]
      rw [ht']

theorem foldr_spaces_gap (k g : Nat) (rest : List TokG) :
    (spaces k).foldr lexStep (⟨[], g⟩ :: rest) = ⟨[], k + g⟩ :: rest := by
  induction k with
  | zero => simp [spaces]
  | succ n ih =>
    rw [spaces, List.replicate_succ]
    show lexStep ' ' ((spaces n).foldr lexStep (⟨[], g⟩ :: rest)) = ⟨[], n + 1 + g⟩ :: rest
    rw [ih]
    unfold lexStep
    rw [if_pos (by decide)]
    show (⟨[], n + g + 1⟩ : TokG) :: rest = ⟨[], n + 1 + g⟩ :: rest
    congr 2
    omega

theorem foldr_spaces_nil (k : Nat) (hk : 1 ≤ k) :
    (spaces k).foldr lexStep [] = [⟨[], k⟩] := by
  induction k with
  | zero => omega
  | succ n ih =>
    rw [spaces, List.replicate_succ]
    show lexStep ' ' ((spaces n).foldr lexStep []) = [⟨[], n + 1⟩]
    rcases n with _ | m
    · rfl
    · rw [ih (by omega)]
      unfold lexStep
      rw [if_pos (by decide)]

theorem foldr_spaces_cons (k : Nat) (hk : 1 ≤ k) (u : Str) (hu : u ≠ []) (g : Nat)
    (rest : List TokG) :
    (spaces k).foldr lexStep (⟨u, g⟩ :: rest) = ⟨[], k⟩ :: ⟨u, g⟩ :: rest := by
  induction k with
  | zero => omega
  | succ n ih =>
    rw [spaces, List.replicate_succ]
    show lexStep ' ' ((spaces n).foldr lexStep (⟨u, g⟩ :: rest)) = ⟨[], n + 1⟩ :: ⟨u, g⟩ :: rest
    rcases n with _ | m
    · show lexStep ' ' (⟨u, g⟩ :: rest) = ⟨[], 1⟩ :: ⟨u, g⟩ :: rest
      unfold lexStep
      rw [if_pos (by decide)]
      rcases u with _ | ⟨c, u'⟩
      · exact absurd rfl hu
      · rfl
    · rw [ih (by omega)]
      unfold lexStep
      rw [if_pos (by decide)]

/-- A well-formed token/gap list (non-empty space-free tokens, every gap
before a further token at least 1) lexes back to itself. -/
theorem lexRaw_tgJoin (L : List TokG)
    (htok : ∀ tg ∈ L, tg.tok ≠ [] ∧ ∀ c ∈ tg.tok, isPySpace c = false)
    (hgap : ∀ tg ∈ L.dropLast, 1 ≤ tg.gap) :
    lexRaw (tgJoin L) = L := by
  induction L with
  | nil => rfl
  | cons x rest ih =>
    obtain ⟨t, g⟩ := x
    obtain ⟨htne, htns⟩ := htok ⟨t, g⟩ (by simp)
    show lexRaw (t ++ spaces g ++ tgJoin rest) = ⟨t, g⟩ :: rest
    rw [List.append_assoc, lexRaw_append, lexRaw_append]
    rcases hrest : rest with _ | ⟨⟨yt, yg⟩, rest'⟩
    · rw [show lexRaw (tgJoin ([] : List TokG)) = [] from rfl]
      rcases g with _ | n
      · rw [show spaces 0 = ([] : Str) from rfl]
        show t.foldr lexStep [] = [⟨t, 0⟩]
        exact foldr_token_nil t htne htns
      · rw [foldr_spaces_nil (n + 1) (by omega), foldr_token t htne htns]
        simp
    · have hsub : lexRaw (tgJoin rest) = rest := by
        apply ih
        · intro tg htg; exact htok tg (by simp [htg])
        · intro tg htg
          apply hgap
          rw [List.dropLast_cons_of_ne_nil (by simp [hrest])]
          simp [htg]
      rw [hrest] at hsub
      rw [hsub]
      have hyne : yt ≠ [] := (htok ⟨yt, yg⟩ (by simp [hrest])).1
      have hg1 : 1 ≤ g := by
        apply hgap ⟨t, g⟩
        rw [hrest, List.dropLast_cons_of_ne_nil (by simp)]
        simp
      rw [foldr_spaces_cons g hg1 yt hyne yg rest', foldr_token t htne htns]
      simp

/-- The full lexing of a canonical line with a leading token. -/
theorem lexLine_tgJoin (L : List TokG)
    (htok : ∀ tg ∈ L, tg.tok ≠ [] ∧ ∀ c ∈ tg.tok, isPySpace c = false)
    (hgap : ∀ tg ∈ L.dropLast, 1 ≤ tg.gap) (hL : L ≠ []) :
    lexLine (tgJoin L) = (0, L) := by
  unfold lexLine
  rw [lexRaw_tgJoin L htok hgap]
  rcases L with _ | ⟨⟨t, g⟩, rest⟩
  · exact absurd rfl hL
  · have := (htok ⟨t, g⟩ (by simp)).1
    rcases t with _ | ⟨c, t'⟩
    · exact absurd rfl this
    · rfl

/-! ## Helper lemmas for the claims -/

theorem pyLower_ne_FCM (t : Str) : pyLower t ≠ str "FCM:" := by
  intro h
  rcases t with _ | ⟨a, t'⟩
  · exact absurd h (by decide)
  · have : toLowerCh a = 'F' := by
      have := congrArg (fun l => l.headD ' ') h
      simpa [pyLower] using this
    exact toLowerCh_ne_of_upper a 'F' (by decide) (by decide) this

theorem pyLower_ne_SPLIT (t : Str) : pyLower t ≠ str "SPLIT:" := by
  intro h
  rcases t with _ | ⟨a, t'⟩
  · exact absurd h (by decide)
  · have : toLowerCh a = 'S' := by
      have := congrArg (fun l => l.headD ' ') h
      simpa [pyLower] using this
    exact toLowerCh_ne_of_upper a 'S' (by decide) (by decide) this

/-! ## The claims -/

/-- Claim C2 (code bug in `Edl._is_begin_new_event`): the source lowers
the first token and compares it against the upper-case set
`{"FCM:", "SPLIT:"}`, so the branch meant to begin a new event on a
prefixed form statement can never fire: no string lowers to `FCM:` or to
`SPLIT:`, and on the claim's own example lines (`FCM:`, `fcm:`,
`Split:` leading tokens, non-empty buffer, tracked index set) the
function returns `False` instead of the claimed `True`. -/
theorem c2_is_begin_new_event_fcm_branch_dead :
    (∀ t : Str, pyLower t ≠ str "FCM:" ∧ pyLower t ≠ str "SPLIT:") ∧
    isBeginNewEvent (str "FCM: DROP FRAME") 5 = .ok false ∧
    isBeginNewEvent (str "fcm: PAL") 5 = .ok false ∧
    isBeginNewEvent (str "Split:    AUDIO DELAY=  00:00:00:05") 5 = .ok false :=
  ⟨fun t => ⟨pyLower_ne_FCM t, pyLower_ne_SPLIT t⟩, rfl, rfl, rfl⟩

/-- Claim C3, counterexample: in the document below the malformed line
`5x` (source line 3) sits in the final buffered event, which
`Edl.from_file` flushes outside its `try`; the error reaches the caller
with no `Line N:` annotation at all. -/
theorem c3_counterexample :
    Edl.fromText (str "TITLE: X\n001  TAPE  V  C  00:00:00:00 00:00:01:00 00:00:00:00 00:00:01:00\n5x") =
      .error (str "Unrecognized standard form statement") ∧
    pyStartsWith (str "Line") (str "Unrecognized standard form statement") = false :=
  ⟨rfl, rfl⟩

/-- Claim C3, amended: an error raised while the loop processes a line is
wrapped as `Line (n+2):` where `n` is that line's 0-based position among
the lines after the consumed header — for a flush failure that is the
line that begins the next event, not the malformed buffered line — while
an error from the final flush after the stream ends propagates with no
annotation. -/
theorem c3_amended :
    (∀ (st : SegState) (l : Str) (ls : List Str) (n : Nat) (e : Str),
      stepLine st l = .error e → l ≠ [] →
      segLoop (l :: ls) n st = .error (str "Line " ++ natToStr (n + 2) ++ str ": " ++ e)) ∧
    (∀ (title : Str) (fcm : Fcm) (body : List Str) (st : SegState) (e : Str),
      segLoop body 0 ⟨[], [], 0⟩ = .ok st → st.buffer ≠ [] →
      Event.fromLines st.buffer = .error e →
      Edl.finishBody title fcm body = .error e) := by
  constructor
  · intro st l ls n e hstep hne
    unfold segLoop
    rw [if_neg (by simp [hne]), hstep]
  · intro title fcm body st e hseg hbuf hev
    unfold Edl.finishBody
    rw [hseg]
    show (if st.buffer.isEmpty then _ else _) = _
    rw [if_neg (by simp [hbuf])]
    rw [hev]

/-- Claim C3, witness for the amended theorem: a concrete wrapped
mid-loop error (a whitespace-only line raising the subscript error) and
a concrete unwrapped final-flush error. -/
theorem c3_amended_witness :
    segLoop [str " "] 0 ⟨[], [str "*c"], 0⟩ = .error (str "Line 2: list index out of range") ∧
    Edl.finishBody (str "T") .pal [str "5x"] = .error (str "Unrecognized standard form statement") :=
  ⟨c3_amended.1 ⟨[], [str "*c"], 0⟩ (str " ") [] 0 (str "list index out of range") rfl
      (by decide),
    c3_amended.2 (str "T") .pal [str "5x"] ⟨[], [str "5x"], 0⟩
      (str "Unrecognized standard form statement") rfl (by decide) rfl⟩

/-- Claim C5, counterexample: the guard in `Event._identify_line` tests
`line[0].isnumeric()`, the first character, not the first token; the
line `1abc hello`, whose leading token `1abc` is not purely numeric,
still fails immediately with the standard-form error instead of
proceeding to the note-form and comment variants. -/
theorem c5_counterexample :
    identifyLine (str "1abc hello") = .error (str "Unrecognized standard form statement") ∧
    pyIsNumeric (str "1abc") = false :=
  ⟨rfl, rfl⟩

/-- Claim C5, amended: classification fails immediately with the
standard-form error exactly when the line's first character is a digit
and no standard-form pattern matches; when the first character is not a
digit, classification proceeds to the note-form and comment stages. -/
theorem c5_amended :
    (∀ (l : Str) (c : Char) (cs : Str), l = c :: cs → isDigitCh c = true →
      sfsParseLine l = none →
      identifyLine l = .error (str "Unrecognized standard form statement")) ∧
    (∀ (l : Str) (c : Char) (cs : Str), l = c :: cs → isDigitCh c = false →
      sfsParseLine l = none → identifyLine l = identifyTail l) := by
  constructor
  · intro l c cs hl hc hsfs
    unfold identifyLine
    rw [hsfs, hl]
    rw [if_pos (by simp [hc])]
  · intro l c cs hl hc hsfs
    unfold identifyLine
    rw [hsfs, hl]
    rw [if_neg (by simp [hc])]

/-- Claim C5, witness: the amended theorem at the counterexample line
and at a non-digit-leading line. -/
theorem c5_amended_witness :
    identifyLine (str "1abc hello") = .error (str "Unrecognized standard form statement") ∧
    identifyLine (str "xyz") = identifyTail (str "xyz") :=
  ⟨c5_amended.1 (str "1abc hello") '1' (str "abc hello") rfl (by decide) rfl,
    c5_amended.2 (str "xyz") 'x' (str "yz") rfl (by decide) rfl⟩

/-- Claim C6, counterexample: `BaseComment.validate` tests
`line.split()[0][0].isnumeric()` — the first character of the first
token — so `2nd PASS NOTES`, whose first token is not purely numeric but
begins with a digit, is rejected, not accepted. -/
theorem c6_counterexample :
    stdValidate (str "2nd PASS NOTES") = some false ∧
    pyIsNumeric (str "2nd") = false ∧ pyStrip (str "2nd PASS NOTES") ≠ [] ∧
    (str "2nd PASS NOTES").contains '\n' = false := by
  refine ⟨rfl, rfl, ?_, rfl⟩
  decide

/-- Claim C6, amended: `StandardComment.validate` returns `True` exactly
for the lines that are non-empty after stripping, contain no newline,
and whose first whitespace-delimited token does not begin with a digit
character (on a line with no tokens at all it raises instead of
returning). -/
theorem c6_amended (l : Str) :
    stdValidate l = some true ↔
      pyStrip l ≠ [] ∧ l.contains '\n' = false ∧
        ∃ c t rest, pySplit l = (c :: t) :: rest ∧ isDigitCh c = false := by
  unfold stdValidate baseValidate
  rcases hsp : pySplit l with _ | ⟨tok, rest⟩
  · simp
  · rcases tok with _ | ⟨c, t⟩
    · simp
    · constructor
      · intro h
        simp only [Option.some_inj] at h
        rw [Bool.and_eq_true, Bool.and_eq_true] at h
        obtain ⟨⟨h1, h2⟩, h3⟩ := h
        refine ⟨by simpa using h1, by simpa using h2, c, t, rest, rfl, by simpa using h3⟩
      · rintro ⟨h1, h2, c', t', rest', hsp', h3⟩
        injection hsp' with hc hrest
        injection hc with hcc
        subst hcc
        have h2' : '\n' ∉ l := by simpa using h2
        simp [h1, h2', h3]

/-- Claim C7: the two-line test document parses to title `TEST EDL`,
FCM defaulting to PAL with the event line not consumed as a header, and
exactly one Event holding exactly one Cut statement with reel
`TAPE001`, track `V`, source range 01:00:00:00–01:00:05:00, record
range 01:00:10:00–01:00:15:00. -/
theorem c7_concrete_scenario :
    Edl.fromText (str "TITLE: TEST EDL\n001  TAPE001   V     C        01:00:00:00 01:00:05:00 01:00:10:00 01:00:15:00") =
      .ok ⟨str "TEST EDL", .pal,
        [⟨[.cut ⟨.tape (str "TAPE001"), ⟨.video, 1⟩,
            ⟨⟨1, 0, 0, 0⟩, ⟨1, 0, 5, 0⟩⟩, ⟨⟨1, 0, 10, 0⟩, ⟨1, 0, 15, 0⟩⟩, some 1⟩],
          [], []⟩]⟩ :=
  rfl

/-- Claim C8: the header is exactly `TITLE: <title>` for a PAL document,
and gains the second line `FCM: NON-DROP FRAME` / `FCM: DROP FRAME`
(the literal enum tokens) otherwise. -/
theorem c8_header (e : Edl) :
    (e.fcm = .pal → e.header = str "TITLE: " ++ e.title) ∧
    (e.fcm = .nonDropFrame →
      e.header = str "TITLE: " ++ e.title ++ str "\nFCM: NON-DROP FRAME") ∧
    (e.fcm = .dropFrame →
      e.header = str "TITLE: " ++ e.title ++ str "\nFCM: DROP FRAME") := by
  refine ⟨fun h => ?_, fun h => ?_, fun h => ?_⟩
  all_goals unfold Edl.header
  all_goals rw [h]
  · simp
  all_goals rw [List.append_assoc]
  all_goals rfl

/-- Claim C8, witness: the header of a concrete PAL document and of a
concrete drop-frame document. -/
theorem c8_header_witness :
    Edl.header ⟨str "A", .pal, []⟩ = str "TITLE: A" ∧
    Edl.header ⟨str "A", .dropFrame, []⟩ = str "TITLE: A\nFCM: DROP FRAME" :=
  ⟨(c8_header ⟨str "A", .pal, []⟩).1 rfl, (c8_header ⟨str "A", .dropFrame, []⟩).2.2 rfl⟩

/-- Claim C10: a standard-form line numbered `0` sets the tracked index
to the parser's unset sentinel, so `_is_begin_new_event` refuses to
begin a new event on any following line (first conjunct), and the
concrete two-statement document with numbers `000` and `002` parses to a
single Event holding both statements (second conjunct). -/
theorem c10_zero_event_number_merges :
    (∀ l : Str, isBeginNewEvent l 0 = .ok false) ∧
    Edl.fromText (str "TITLE: X\n000  TAPE001  V  C  01:00:00:00 01:00:01:00 01:00:00:00 01:00:01:00\n002  TAPE002  V  C  01:00:00:00 01:00:01:00 01:00:02:00 01:00:03:00") =
      .ok ⟨str "X", .pal,
        [⟨[.cut ⟨.tape (str "TAPE001"), ⟨.video, 1⟩,
            ⟨⟨1, 0, 0, 0⟩, ⟨1, 0, 1, 0⟩⟩, ⟨⟨1, 0, 0, 0⟩, ⟨1, 0, 1, 0⟩⟩, some 0⟩,
          .cut ⟨.tape (str "TAPE002"), ⟨.video, 1⟩,
            ⟨⟨1, 0, 0, 0⟩, ⟨1, 0, 1, 0⟩⟩, ⟨⟨1, 0, 2, 0⟩, ⟨1, 0, 3, 0⟩⟩, some 2⟩],
          [], []⟩]⟩ :=
  ⟨fun _ => rfl, rfl⟩

/-! ## Helpers for C9 and C4 -/

theorem pyUpper_ne_of_space_mem (tok target : Str) (hc : ∃ c ∈ tok, isPySpace c = true)
    (htgt : ∀ c ∈ target, isPySpace c = false) : pyUpper tok ≠ target := by
  intro h
  obtain ⟨c, hmem, hsp⟩ := hc
  have hmem' : toUpperCh c ∈ pyUpper tok := List.mem_map_of_mem toUpperCh hmem
  rw [h] at hmem'
  have := htgt _ hmem'
  rw [isPySpace_toUpperCh] at this
  rw [hsp] at this
  exact absurd this (by decide)

theorem tapeValidate_true (tok : Str) (h1 : tok ≠ []) (h2 : ∀ c ∈ tok, isPySpace c = false) :
    tapeValidate tok = true := by
  unfold tapeValidate
  rw [pyStrip_eq_self tok h2, Bool.and_eq_true]
  constructor
  · simp [h1]
  · rw [List.all_eq_true]
    intro c hc
    simp [h2 c hc]

/-- Any non-empty whitespace-free token is accepted by
`SourceReel.from_string`. -/
theorem fromString_ok (tok : Str) (h1 : tok ≠ []) (h2 : ∀ c ∈ tok, isPySpace c = false) :
    ∃ src, SourceReel.fromString tok = .ok src := by
  unfold SourceReel.fromString
  by_cases hb : blackValidate tok = true
  · exact ⟨.black, by rw [if_pos hb]⟩
  · rw [if_neg hb]
    by_cases ha : auxValidate tok = true
    · exact ⟨.aux, by rw [if_pos ha]⟩
    · rw [if_neg ha, if_pos (tapeValidate_true tok h1 h2)]
      exact ⟨.tape tok, rfl⟩

theorem not_space_of_speedCh (c : Char) (h : isSpeedCh c = true) : isPySpace c = false := by
  unfold isSpeedCh at h
  rw [Bool.or_eq_true, Bool.or_eq_true, Bool.or_eq_true] at h
  rcases h with ((h | h) | h) | h
  · rw [of_decide_eq_true h]; decide
  · rw [of_decide_eq_true h]; decide
  · rw [of_decide_eq_true h]; decide
  · exact not_space_of_digit c h

theorem tcRender_ne_nil (t : Timecode) : t.render ≠ [] := by
  unfold Timecode.render
  intro h
  have := congrArg List.length h
  simp [List.length_append] at this

/-- Claim C9: `SourceReel.from_string` returns Black for any letter case
of `BL`, Aux for any letter case of `AX`, a Tape source carrying the
given name for every other non-empty whitespace-free token, and raises
for every token that is empty or contains whitespace. -/
theorem c9_source_reel_dispatch :
    (∀ tok : Str, pyUpper tok = str "BL" → SourceReel.fromString tok = .ok .black) ∧
    (∀ tok : Str, pyUpper tok = str "AX" → SourceReel.fromString tok = .ok .aux) ∧
    (∀ tok : Str, tok ≠ [] → (∀ c ∈ tok, isPySpace c = false) →
      pyUpper tok ≠ str "BL" → pyUpper tok ≠ str "AX" →
      SourceReel.fromString tok = .ok (.tape tok)) ∧
    (∀ tok : Str, (tok = [] ∨ ∃ c ∈ tok, isPySpace c = true) →
      SourceReel.fromString tok = .error (str "Reel name format is not recognized")) := by
  refine ⟨?_, ?_, ?_, ?_⟩
  · intro tok h
    unfold SourceReel.fromString
    rw [if_pos (by simp [blackValidate, h])]
  · intro tok h
    unfold SourceReel.fromString
    have hb : blackValidate tok = false := by
      simp only [blackValidate, h, decide_eq_false_iff_not]
      decide
    rw [if_neg (by simp [hb]), if_pos (by simp [auxValidate, h])]
  · intro tok hne hns hbl hax
    unfold SourceReel.fromString
    rw [if_neg (by simp [blackValidate, hbl]), if_neg (by simp [auxValidate, hax]),
      if_pos (tapeValidate_true tok hne hns)]
  · intro tok h
    rcases h with h | h
    · subst h; rfl
    · unfold SourceReel.fromString
      have hbl : blackValidate tok = false := by
        simp only [blackValidate, decide_eq_false_iff_not]
        exact pyUpper_ne_of_space_mem tok (str "BL") h (by decide)
      have hax : auxValidate tok = false := by
        simp only [auxValidate, decide_eq_false_iff_not]
        exact pyUpper_ne_of_space_mem tok (str "AX") h (by decide)
      have htp : tapeValidate tok = false := by
        unfold tapeValidate
        obtain ⟨c, hmem, hsp⟩ := h
        have : tok.all (fun c => !isPySpace c) = false := by
          rw [List.all_eq_false]
          exact ⟨c, hmem, by simp [hsp]⟩
        simp [this]
      rw [if_neg (by simp [hbl]), if_neg (by simp [hax]), if_neg (by simp [htp])]

/-- Claim C9, witness: the dispatch at concrete tokens `bL`, `ax`,
`TAPE001`, and a whitespace-containing token. -/
theorem c9_witness :
    SourceReel.fromString (str "bL") = .ok .black ∧
    SourceReel.fromString (str "ax") = .ok .aux ∧
    SourceReel.fromString (str "TAPE001") = .ok (.tape (str "TAPE001")) ∧
    SourceReel.fromString (str "TAPE 1") = .error (str "Reel name format is not recognized") :=
  ⟨c9_source_reel_dispatch.1 (str "bL") (by decide),
    c9_source_reel_dispatch.2.1 (str "ax") (by decide),
    c9_source_reel_dispatch.2.2.1 (str "TAPE001") (by decide) (by decide) (by decide) (by decide),
    c9_source_reel_dispatch.2.2.2 (str "TAPE 1") (Or.inr ⟨' ', by decide, rfl⟩)⟩

/-- Claim C4, counterexample: `PAT_NOTE` ends with `\s+` and no anchor,
so the well-formed note line `M2 TAPE001 47.5 01:00:00:00` with nothing
after its timecode does not match the M2 pattern and falls through to
`StandardComment` — it is classified as a comment. -/
theorem c4_counterexample :
    identifyLine (str "M2 TAPE001 47.5 01:00:00:00") =
      .ok (.comment (.standard (str "M2 TAPE001 47.5 01:00:00:00"))) :=
  rfl

/-- Token/gap well-formedness, packaged for membership case splits. -/
theorem tokg_cond (t : Str) (g : Nat) (h1 : t ≠ []) (h2 : ∀ c ∈ t, isPySpace c = false) :
    (⟨t, g⟩ : TokG).tok ≠ [] ∧ ∀ c ∈ (⟨t, g⟩ : TokG).tok, isPySpace c = false :=
  ⟨h1, h2⟩

/-- Claim C4, amended: a line of the keyword token `M2`, a
whitespace-free reel token, a signed decimal speed and one timecode,
whitespace-separated, classifies as a MotionMemory note-form statement
with that reel as source, the parsed speed and the parsed timecode —
provided at least one whitespace character follows the timecode (the
pattern's trailing `\s+`); with nothing after the timecode the line is
instead taken by `StandardComment` (see the counterexample). -/
theorem c4_amended (reel spd : Str) (t : Timecode) (q : ℚ) (g1 g2 g3 g4 : Nat)
    (hr1 : reel ≠ []) (hr2 : ∀ c ∈ reel, isPySpace c = false)
    (hs1 : spd ≠ []) (hs2 : ∀ c ∈ spd, isSpeedCh c = true)
    (hq : pyFloatQ spd = some q)
    (hhh : t.hh ≤ 99) (hmm : t.mm ≤ 99) (hss : t.ss ≤ 99) (hff : t.ff ≤ 99)
    (hg1 : 1 ≤ g1) (hg2 : 1 ≤ g2) (hg3 : 1 ≤ g3) (hg4 : 1 ≤ g4) :
    ∃ src, SourceReel.fromString reel = .ok src ∧
      identifyLine (tgJoin [⟨str "M2", g1⟩, ⟨reel, g2⟩, ⟨spd, g3⟩, ⟨t.render, g4⟩]) =
        .ok (.note ⟨src, q, t⟩) := by
  obtain ⟨src, hsrc⟩ := fromString_ok reel hr1 hr2
  refine ⟨src, hsrc, ?_⟩
  have hlex : lexLine (tgJoin [⟨str "M2", g1⟩, ⟨reel, g2⟩, ⟨spd, g3⟩, ⟨t.render, g4⟩]) =
      (0, [⟨str "M2", g1⟩, ⟨reel, g2⟩, ⟨spd, g3⟩, ⟨t.render, g4⟩]) := by
    apply lexLine_tgJoin
    · intro tg htg
      simp only [List.mem_cons, List.not_mem_nil, or_false] at htg
      rcases htg with h | h | h | h
      · rw [h]; exact tokg_cond _ _ (by decide) (by decide)
      · rw [h]; exact tokg_cond _ _ hr1 hr2
      · rw [h]; exact tokg_cond _ _ hs1 (fun c hc => not_space_of_speedCh c (hs2 c hc))
      · rw [h]; exact tokg_cond _ _ (tcRender_ne_nil t) (tcRender_nonspace t)
    · intro tg htg
      have hdl : ([⟨str "M2", g1⟩, ⟨reel, g2⟩, ⟨spd, g3⟩,
          ⟨t.render, g4⟩] : List TokG).dropLast = [⟨str "M2", g1⟩, ⟨reel, g2⟩, ⟨spd, g3⟩] := rfl
      rw [hdl, List.mem_cons, List.mem_cons, List.mem_singleton] at htg
      rcases htg with h | h | h
      · rw [h]; exact hg1
      · rw [h]; exact hg2
      · rw [h]; exact hg3
    · simp
  have htc : parseTc t.render = some t := parseTc_render t hhh hmm hss hff
  have htct : isTcTok t.render = true := by simp [isTcTok, htc]
  have hcut : cutPat (tgJoin [⟨str "M2", g1⟩, ⟨reel, g2⟩, ⟨spd, g3⟩, ⟨t.render, g4⟩]) = none := by
    simp [cutPat, hlex]
  have hdis : dissolvePat (tgJoin [⟨str "M2", g1⟩, ⟨reel, g2⟩, ⟨spd, g3⟩, ⟨t.render, g4⟩]) = none := by
    simp [dissolvePat, hlex]
  have hwip : wipePat (tgJoin [⟨str "M2", g1⟩, ⟨reel, g2⟩, ⟨spd, g3⟩, ⟨t.render, g4⟩]) = none := by
    simp [wipePat, hlex]
  have hkfg : keyFgPat (tgJoin [⟨str "M2", g1⟩, ⟨reel, g2⟩, ⟨spd, g3⟩, ⟨t.render, g4⟩]) = none := by
    simp [keyFgPat, hlex]
  have hm2dig : isDigits (str "M2") = false := by decide
  have hkbg : keyBgPat (tgJoin [⟨str "M2", g1⟩, ⟨reel, g2⟩, ⟨spd, g3⟩, ⟨t.render, g4⟩]) = none := by
    simp [keyBgPat, hlex, hm2dig]
  have hsfs : sfsParseLine (tgJoin [⟨str "M2", g1⟩, ⟨reel, g2⟩, ⟨spd, g3⟩, ⟨t.render, g4⟩]) = none := by
    simp [sfsParseLine, hcut, hdis, hwip, hkfg, hkbg]
  have hm2 : m2Pat (tgJoin [⟨str "M2", g1⟩, ⟨reel, g2⟩, ⟨spd, g3⟩, ⟨t.render, g4⟩]) =
      some (reel, spd, t.render) := by
    simp only [m2Pat, hlex]
    rw [if_pos]
    rw [Bool.and_eq_true, Bool.and_eq_true, Bool.and_eq_true, Bool.and_eq_true]
    refine ⟨⟨⟨⟨by decide, by simp [hs1]⟩, ?_⟩, htct⟩, ?_⟩
    · rw [List.all_eq_true]; exact hs2
    · simp [hg4]
  have hparse : m2Parse reel spd t.render = .ok ⟨src, q, t⟩ := by
    unfold m2Parse
    rw [hsrc, hq, htc]
  have hhead : tgJoin [⟨str "M2", g1⟩, ⟨reel, g2⟩, ⟨spd, g3⟩, ⟨t.render, g4⟩] =
      'M' :: ('2' :: (spaces g1 ++ tgJoin [⟨reel, g2⟩, ⟨spd, g3⟩, ⟨t.render, g4⟩])) := rfl
  have hcond : (!(tgJoin [⟨str "M2", g1⟩, ⟨reel, g2⟩, ⟨spd, g3⟩, ⟨t.render, g4⟩]).isEmpty &&
      isDigitCh ((tgJoin [⟨str "M2", g1⟩, ⟨reel, g2⟩, ⟨spd, g3⟩, ⟨t.render, g4⟩]).headD ' ')) ≠ true := by
    rw [hhead]
    simp only [List.isEmpty_cons, List.headD_cons, Bool.not_false, Bool.true_and]
    decide
  simp only [identifyLine, hsfs]
  rw [if_neg hcond]
  simp only [identifyTail, hm2]
  rw [hparse]

/-- Claim C4, witness: the amended theorem at the counterexample's own
line with a single trailing space added. -/
theorem c4_amended_witness :
    SourceReel.fromString (str "TAPE001") = .ok (.tape (str "TAPE001")) ∧
    identifyLine (str "M2 TAPE001 47.5 01:00:00:00 ") =
      .ok (.note ⟨.tape (str "TAPE001"), (95 : ℚ) / 2, ⟨1, 0, 0, 0⟩⟩) := by
  obtain ⟨src, h1, h2⟩ := c4_amended (str "TAPE001") (str "47.5") ⟨1, 0, 0, 0⟩ ((95 : ℚ) / 2)
    1 1 1 1 (by decide) (by decide) (by decide) (by decide)
    (by show pyFloatQ (str "47.5") = some ((95 : ℚ) / 2)
        show parseUnsignedDec (str "47.5") = some ((95 : ℚ) / 2)
        show (if ((str "5").all isDigitCh && (!(str "47").isEmpty || !(str "5").isEmpty)) = true
          then some ((pyInt (str "47") : ℚ) + (pyInt (str "5") : ℚ) / (10 : ℚ) ^ (str "5").length)
          else none) = some ((95 : ℚ) / 2)
        rw [if_pos (by decide)]
        have e1 : pyInt (str "47") = 47 := rfl
        have e2 : pyInt (str "5") = 5 := rfl
        rw [e1, e2]
        norm_num [str])
    (by decide) (by decide) (by decide) (by decide) (by decide) (by decide) (by decide) (by decide)
  have hsrcv : SourceReel.fromString (str "TAPE001") = .ok (.tape (str "TAPE001")) := rfl
  rw [hsrcv] at h1
  injection h1 with h1
  subst h1
  refine ⟨hsrcv, ?_⟩
  have hline : tgJoin [⟨str "M2", 1⟩, ⟨str "TAPE001", 1⟩, ⟨str "47.5", 1⟩,
      ⟨(⟨1, 0, 0, 0⟩ : Timecode).render, 1⟩] = str "M2 TAPE001 47.5 01:00:00:00 " := rfl
  rw [← hline]
  exact h2

/-! ## Parse-side goodness extraction -/

theorem fromString_good (tok : Str) (r : SourceReel)
    (h : SourceReel.fromString tok = .ok r) : GoodReel r := by
  unfold SourceReel.fromString at h
  split_ifs at h with h1 h2 h3
  · injection h with h
    subst h
    exact ⟨by decide, by decide, rfl⟩
  · injection h with h
    subst h
    exact ⟨by decide, by decide, rfl⟩
  · injection h with h
    subst h
    unfold tapeValidate at h3
    rw [Bool.and_eq_true, List.all_eq_true] at h3
    obtain ⟨hst, hns⟩ := h3
    have hns' : ∀ c ∈ tok, isPySpace c = false := fun c hc => by
      have := hns c hc
      simpa using this
    have hne : tok ≠ [] := by
      intro hh
      subst hh
      exact absurd hst (by decide)
    refine ⟨hne, hns', ?_⟩
    show SourceReel.fromString tok = .ok (.tape tok)
    unfold SourceReel.fromString
    rw [if_neg h1, if_neg h2, if_pos (tapeValidate_true tok hne hns')]

theorem trackOfName_good (tok : Str) (tr : Track) (hpat : isTrackTok tok = true)
    (h : Track.ofName tok = some tr) : GoodTrack tr := by
  unfold isTrackTok at hpat
  rcases tok with _ | ⟨c, rest⟩
  · exact absurd hpat (by decide)
  · rw [Bool.or_eq_true, Bool.and_eq_true, Bool.and_eq_true] at hpat
    simp only [Track.ofName] at h
    rcases hpat with ⟨hA, _⟩ | ⟨hrest, hBV⟩
    · rw [of_decide_eq_true hA] at h
      simp only [if_neg (show ¬ (('A' : Char) = 'V') by decide), if_pos rfl] at h
      intro hv
      split_ifs at h <;> (injection h with h; rw [← h] at hv; exact absurd hv (by simp))
    · rw [Bool.or_eq_true] at hBV
      rcases hBV with hB | hV
      · rw [of_decide_eq_true hB] at h
        simp only [if_neg (show ¬ (('B' : Char) = 'V') by decide),
          if_neg (show ¬ (('B' : Char) = 'A') by decide)] at h
        exact absurd h (by simp)
      · rw [of_decide_eq_true hV] at h
        simp only [if_pos rfl] at h
        replace h : (if rest = [] then some (⟨TrackType.video, 1⟩ : Track)
            else if rest.all isDigitCh = true then some ⟨TrackType.video, pyInt rest⟩
            else none) = some tr := h
        rw [if_pos (by simpa using hrest)] at h
        injection h with h
        subst h
        intro _
        rfl

theorem mkRange_good (a b : Timecode) (r : TimecodeRange)
    (ha : GoodTc a) (hb : GoodTc b) (h : mkRange a b = some r) : GoodRange r := by
  unfold mkRange at h
  split_ifs at h with ho
  injection h with h
  subst h
  exact ⟨ha, hb, ho⟩

theorem parseTc_goodTc (s : Str) (t : Timecode) (h : parseTc s = some t) : GoodTc t := by
  obtain ⟨h1, h2, h3, h4⟩ := parseTc_fields_le s t h
  exact ⟨h1, h2, h3, h4⟩

/-- What a successful `mkSfsCore` guarantees. -/
theorem mkSfsCore_good (g : SfsGroups) (core : SfsCore) (hpat : isTrackTok g.track_type = true)
    (h : mkSfsCore g = .ok core) :
    GoodCore core ∧ core.event_number = some (pyInt g.event_number) := by
  unfold mkSfsCore at h
  rcases htr : Track.ofName g.track_type with _ | tr <;> simp only [htr] at h
  · exact absurd h (by simp)
  rcases hsi : parseTc g.tc_src_in with _ | tsi <;> simp only [hsi] at h
  · exact absurd h (by simp)
  rcases hso : parseTc g.tc_src_out with _ | tso <;> simp only [hso] at h
  · exact absurd h (by simp)
  rcases hsr : mkRange tsi tso with _ | rsrc <;> simp only [hsr] at h
  · exact absurd h (by simp)
  rcases hri : parseTc g.tc_rec_in with _ | tri <;> simp only [hri] at h
  · exact absurd h (by simp)
  rcases hro : parseTc g.tc_rec_out with _ | tro <;> simp only [hro] at h
  · exact absurd h (by simp)
  rcases hrr : mkRange tri tro with _ | rrec <;> simp only [hrr] at h
  · exact absurd h (by simp)
  rcases hfs : SourceReel.fromString g.reel_name with e | src <;> simp only [hfs] at h
  · exact absurd h (by simp)
  injection h with h
  subst h
  exact ⟨⟨fromString_good _ _ hfs, trackOfName_good _ _ hpat htr,
    mkRange_good _ _ _ (parseTc_goodTc _ _ hsi) (parseTc_goodTc _ _ hso) hsr,
    mkRange_good _ _ _ (parseTc_goodTc _ _ hri) (parseTc_goodTc _ _ hro) hrr,
    pyInt g.event_number, rfl⟩, rfl⟩

/-! ## Classification inversion (claim C1, parse side) -/

theorem pyIsNumeric_eq_isDigits (s : Str) : pyIsNumeric s = isDigits s := rfl

theorem cutPat_inv (l : Str) (g : SfsGroups) (h : cutPat l = some g) :
    (∃ rest, pySplit l = g.event_number :: rest) ∧
      isDigits g.event_number = true ∧ isTrackTok g.track_type = true := by
  unfold cutPat at h
  split at h
  · next n gn r gr k gk e ge t1 g1 t2 g2 t3 g3 t4 g4 heq =>
    split_ifs at h with hc
    injection h with h
    subst h
    simp only [Bool.and_eq_true] at hc
    have hsplit : pySplit l = n :: [r, k, e, t1, t2, t3, t4] := by
      unfold pySplit
      rw [heq]
      rfl
    exact ⟨⟨_, hsplit⟩, hc.1.1.1.1.1.1, hc.1.1.1.1.1.2⟩
  · exact absurd h (by simp)

theorem dissolvePat_inv (l : Str) (g : SfsGroups) (d : Str) (h : dissolvePat l = some (g, d)) :
    (∃ rest, pySplit l = g.event_number :: rest) ∧
      isDigits g.event_number = true ∧ isTrackTok g.track_type = true := by
  unfold dissolvePat at h
  split at h
  · next n gn r gr k gk e ge dd gd t1 g1 t2 g2 t3 g3 t4 g4 heq =>
    split_ifs at h with hc
    injection h with h
    injection h with h hd
    subst h
    simp only [Bool.and_eq_true] at hc
    have hsplit : pySplit l = n :: [r, k, e, dd, t1, t2, t3, t4] := by
      unfold pySplit
      rw [heq]
      rfl
    exact ⟨⟨_, hsplit⟩, hc.1.1.1.1.1.1.1, hc.1.1.1.1.1.1.2⟩
  · exact absurd h (by simp)

theorem wipePat_inv (l : Str) (g : SfsGroups) (wid d : Str)
    (h : wipePat l = some (g, wid, d)) :
    (∃ rest, pySplit l = g.event_number :: rest) ∧
      isDigits g.event_number = true ∧ isTrackTok g.track_type = true := by
  unfold wipePat at h
  split at h
  · next n gn r gr k gk e ge dd gd t1 g1 t2 g2 t3 g3 t4 g4 heq =>
    split at h
    · next w wrest =>
      split_ifs at h with hc
      injection h with h
      injection h with h hrest
      subst h
      simp only [Bool.and_eq_true] at hc
      have hsplit : pySplit l = n :: [r, k, w :: wrest, dd, t1, t2, t3, t4] := by
        unfold pySplit
        rw [heq]
        rfl
      exact ⟨⟨_, hsplit⟩, hc.1.1.1.1.1.1.1.1, hc.1.1.1.1.1.1.1.2⟩
    · exact absurd h (by simp)
  · exact absurd h (by simp)

theorem keyFgPat_inv (l : Str) (g : SfsGroups) (d : Str) (h : keyFgPat l = some (g, d)) :
    (∃ rest, pySplit l = g.event_number :: rest) ∧
      isDigits g.event_number = true ∧ isTrackTok g.track_type = true := by
  unfold keyFgPat at h
  split at h
  · next n gn r gr k gk e ge dd gd t1 g1 t2 g2 t3 g3 t4 g4 heq =>
    split_ifs at h with hc
    injection h with h
    injection h with h hd
    subst h
    simp only [Bool.and_eq_true] at hc
    have hsplit : pySplit l = n :: [r, k, e, dd, t1, t2, t3, t4] := by
      unfold pySplit
      rw [heq]
      rfl
    exact ⟨⟨_, hsplit⟩, hc.1.1.1.1.1.1.1, hc.1.1.1.1.1.1.2⟩
  · exact absurd h (by simp)

theorem keyBgPat_inv (l : Str) (g : SfsGroups) (fade : Bool)
    (h : keyBgPat l = some (g, fade)) :
    (∃ rest, pySplit l = g.event_number :: rest) ∧
      isDigits g.event_number = true ∧ isTrackTok g.track_type = true := by
  unfold keyBgPat at h
  split at h
  · next n gn r gr k gk rest heq =>
    split_ifs at h with hc
    · rcases hkb : kbEvType rest with _ | ⟨gapB, rest'⟩ <;> simp only [hkb] at h
      · exact absurd h (by simp)
      rcases hkf : kbFade gapB rest' with _ | ⟨fd, t1, t2, t3, t4⟩ <;> simp only [hkf] at h
      · exact absurd h (by simp)
      injection h with h
      injection h with h hfd
      subst h
      simp only [Bool.and_eq_true] at hc
      have hsplit : pySplit l = n :: (⟨r, gr⟩ :: ⟨k, gk⟩ :: rest).map TokG.tok := by
        unfold pySplit
        rw [heq]
        rfl
      exact ⟨⟨_, hsplit⟩, hc.1, hc.2⟩
  · exact absurd h (by simp)

/-- A successfully classified standard-form line yields a good statement
whose event number is the line's (numeric) first token. -/
theorem sfsParseLine_ok_inv (l : Str) (s : Sfs) (h : sfsParseLine l = some (.ok s)) :
    GoodSfs s ∧ lineTokNum l = some (numOf s) := by
  have key : ∀ (gc : SfsGroups) (core : SfsCore),
      (∃ r, pySplit l = gc.event_number :: r) → isDigits gc.event_number = true →
      isTrackTok gc.track_type = true → mkSfsCore gc = .ok core →
      GoodCore core ∧ lineTokNum l = some (core.event_number.getD 1) := by
    intro gc core hex hdig htrk hmk
    obtain ⟨r, hsplit⟩ := hex
    obtain ⟨hgood, hnum⟩ := mkSfsCore_good gc core htrk hmk
    refine ⟨hgood, ?_⟩
    unfold lineTokNum
    rw [hsplit]
    show (if pyIsNumeric gc.event_number = true then some (pyInt gc.event_number) else none) =
      some (core.event_number.getD 1)
    rw [if_pos (by rw [pyIsNumeric_eq_isDigits]; exact hdig)]
    rw [hnum]
    rfl
  unfold sfsParseLine at h
  rcases hcut : cutPat l with _ | gc <;> simp only [hcut] at h
  · rcases hdis : dissolvePat l with _ | ⟨gc, d⟩ <;> simp only [hdis] at h
    · rcases hwip : wipePat l with _ | ⟨gc, wid, d⟩ <;> simp only [hwip] at h
      · rcases hkfg : keyFgPat l with _ | ⟨gc, d⟩ <;> simp only [hkfg] at h
        · rcases hkbg : keyBgPat l with _ | ⟨gc, fd⟩ <;> simp only [hkbg] at h
          · exact absurd h (by simp)
          · injection h with h
            rcases hmk : mkSfsCore gc with e | core <;> simp only [hmk] at h
            · exact absurd h (by simp)
            · injection h with h
              subst h
              obtain ⟨hex, hdig, htrk⟩ := keyBgPat_inv l gc fd hkbg
              exact key gc core hex hdig htrk hmk
        · injection h with h
          rcases hmk : mkSfsCore gc with e | core <;> simp only [hmk] at h
          · exact absurd h (by simp)
          · injection h with h
            subst h
            obtain ⟨hex, hdig, htrk⟩ := keyFgPat_inv l gc d hkfg
            exact key gc core hex hdig htrk hmk
      · injection h with h
        rcases hmk : mkSfsCore gc with e | core <;> simp only [hmk] at h
        · exact absurd h (by simp)
        · injection h with h
          subst h
          obtain ⟨hex, hdig, htrk⟩ := wipePat_inv l gc wid d hwip
          exact key gc core hex hdig htrk hmk
    · injection h with h
      rcases hmk : mkSfsCore gc with e | core <;> simp only [hmk] at h
      · exact absurd h (by simp)
      · injection h with h
        subst h
        obtain ⟨hex, hdig, htrk⟩ := dissolvePat_inv l gc d hdis
        exact key gc core hex hdig htrk hmk
  · injection h with h
    rcases hmk : mkSfsCore gc with e | core <;> simp only [hmk] at h
    · exact absurd h (by simp)
    · injection h with h
      subst h
      obtain ⟨hex, hdig, htrk⟩ := cutPat_inv l gc hcut
      exact key gc core hex hdig htrk hmk

/-- A token whose upper-casing is `M2` is not numeric. -/
theorem pyUpper_M2_not_numeric (t : Str) (h : pyUpper t = str "M2") :
    pyIsNumeric t = false := by
  rcases t with _ | ⟨c, _ | ⟨d, rest⟩⟩
  · simp [pyUpper, str] at h
  · replace h : [toUpperCh c] = 'M' :: '2' :: ([] : Str) := h
    simp at h
  · replace h : toUpperCh c :: toUpperCh d :: List.map toUpperCh rest =
      'M' :: '2' :: ([] : Str) := h
    injection h with h1 h
    injection h with h2 h3
    have hrest : rest = [] := List.map_eq_nil_iff.mp h3
    cases hn : pyIsNumeric (c :: d :: rest)
    · rfl
    · exfalso
      unfold pyIsNumeric at hn
      rw [Bool.and_eq_true, List.all_eq_true] at hn
      have hc : isDigitCh c = true := hn.2 c (by simp)
      have hb := hc
      simp only [isDigitCh, Bool.and_eq_true, decide_eq_true_eq] at hb
      rw [toUpperCh_eq_self_of_lt c (by omega)] at h1
      subst h1
      exact absurd hc (by decide)

theorem m2Pat_inv (l r sp t1 : Str) (h : m2Pat l = some (r, sp, t1)) :
    ∃ m rest, pySplit l = m :: rest ∧ pyUpper m = str "M2" := by
  unfold m2Pat at h
  split at h
  · next m gm rr gr spp gsp tt1 g4 rest heq =>
    split_ifs at h with hc
    simp only [Bool.and_eq_true] at hc
    have hsplit : pySplit l = m :: rr :: spp :: tt1 :: rest.map TokG.tok := by
      unfold pySplit
      rw [heq]
      rfl
    exact ⟨m, _, hsplit, of_decide_eq_true hc.1.1.1.1⟩
  · exact absurd h (by simp)

theorem m2Parse_inv (r sp t1 : Str) (n : Nfs) (h : m2Parse r sp t1 = .ok n) :
    GoodNfs n := by
  unfold m2Parse at h
  rcases hfs : SourceReel.fromString r with e | reel <;> simp only [hfs] at h
  · exact absurd h (by simp)
  rcases hq : pyFloatQ sp with _ | q <;> simp only [hq] at h
  · exact absurd h (by simp)
  rcases ht : parseTc t1 with _ | tc <;> simp only [ht] at h
  · exact absurd h (by simp)
  injection h with h
  subst h
  exact ⟨fromString_good r reel hfs, parseTc_goodTc t1 tc ht⟩

theorem pyIsNumeric_false_of_head (c : Char) (t : Str) (h : isDigitCh c = false) :
    pyIsNumeric (c :: t) = false := by
  unfold pyIsNumeric
  simp [h]

theorem baseValidate_true_inv (l : Str) (h : baseValidate l = some true) :
    (∃ c t rest, pySplit l = (c :: t) :: rest ∧ isDigitCh c = false) ∧
      (pyStrip l).isEmpty = false ∧ l.contains '\n' = false := by
  unfold baseValidate at h
  split at h
  · next c t rest heq =>
    injection h with h
    simp only [Bool.and_eq_true, Bool.not_eq_true'] at h
    exact ⟨⟨c, t, rest, heq, h.2⟩, h.1.1, h.1.2⟩
  · exact absurd h (by simp)

theorem fieldValidate_true_base (l : Str) (h : fieldValidate l = some true) :
    baseValidate l = some true ∧ fieldPatMatch l = true := by
  unfold fieldValidate at h
  rcases hb : baseValidate l with _ | b
  · rw [hb] at h
    exact absurd h (by simp)
  · rw [hb] at h
    simp only [Option.map_some'] at h
    injection h with h
    rw [Bool.and_eq_true] at h
    exact ⟨by rw [h.1], h.2⟩

theorem lineTokNum_none_of_base (l : Str) (h : baseValidate l = some true) :
    lineTokNum l = none := by
  obtain ⟨⟨c, t, rest, hsplit, hdig⟩, _, _⟩ := baseValidate_true_inv l h
  unfold lineTokNum
  rw [hsplit]
  show (if pyIsNumeric (c :: t) = true then some (pyInt (c :: t)) else none) = none
  rw [if_neg (by rw [pyIsNumeric_false_of_head c t hdig]; simp)]

theorem splitFirstColon_some_of_mem (s : Str) (h : ':' ∈ s) :
    ∃ p, splitFirstColon s = some p := by
  induction s with
  | nil => simp at h
  | cons c r ih =>
    unfold splitFirstColon
    by_cases hc : c = ':'
    · rw [if_pos hc]
      exact ⟨([], r), rfl⟩
    · rw [if_neg hc]
      have hr : ':' ∈ r := by
        rcases List.mem_cons.mp h with h1 | h1
        · exact absurd h1.symm hc
        · exact h1
      obtain ⟨p, hp⟩ := ih hr
      rw [hp]
      exact ⟨(c :: p.1, p.2), rfl⟩

theorem splitFirstColon_subset (s a b : Str) (h : splitFirstColon s = some (a, b)) :
    (∀ c ∈ a, c ∈ s) ∧ ∀ c ∈ b, c ∈ s := by
  induction s generalizing a b with
  | nil => exact absurd h (by simp [splitFirstColon])
  | cons c r ih =>
    unfold splitFirstColon at h
    split_ifs at h with hc
    · injection h with h
      injection h with h1 h2
      subst h1
      subst h2
      subst hc
      exact ⟨by simp, fun x hx => by simp [hx]⟩
    · rcases hs : splitFirstColon r with _ | ⟨a', b'⟩
      · rw [hs] at h
        exact absurd h (by simp)
      · rw [hs] at h
        simp only [Option.map_some'] at h
        injection h with h
        injection h with h1 h2
        subst h2
        obtain ⟨ha', hb'⟩ := ih a' b' hs
        constructor
        · intro x hx
          rw [← h1] at hx
          rcases List.mem_cons.mp hx with h2 | h2
          · simp [h2]
          · simp [ha' x h2]
        · intro x hx
          simp [hb' x hx]

theorem mem_pyStrip (s : Str) (c : Char) (h : c ∈ pyStrip s) : c ∈ s := by
  unfold pyStrip pyRStrip pyLStrip at h
  rw [List.mem_reverse] at h
  have h2 := (List.dropWhile_suffix (l := (s.dropWhile isPySpace).reverse)
    (p := isPySpace)).sublist.subset h
  rw [List.mem_reverse] at h2
  exact (List.dropWhile_suffix (l := s) (p := isPySpace)).sublist.subset h2

theorem pyStrip_ne_nil_of_mem (s : Str) (c : Char) (hc : c ∈ s)
    (hns : isPySpace c = false) : pyStrip s ≠ [] := by
  induction s with
  | nil => simp at hc
  | cons a r ih =>
    by_cases ha : isPySpace a = true
    · rw [pyStrip_cons_space a r ha]
      refine ih ?_
      rcases List.mem_cons.mp hc with h1 | h1
      · rw [h1] at hns
        rw [hns] at ha
        exact absurd ha (by simp)
      · exact h1
    · exact pyStrip_ne_nil_of_head a r (by simpa using ha)

theorem all_space_of_pyStrip_nil (l : Str) (h : (pyStrip l).isEmpty = true) :
    ∀ c ∈ l, isPySpace c = true := by
  intro c hc
  cases hns : isPySpace c
  · exact absurd (by simpa using h) (pyStrip_ne_nil_of_mem l c hc hns)
  · rfl

theorem lexRaw_all_space (s : Str) (h : ∀ c ∈ s, isPySpace c = true) :
    lexRaw s = [] ∨ ∃ k, lexRaw s = [⟨[], k⟩] := by
  induction s with
  | nil => exact Or.inl rfl
  | cons c r ih =>
    right
    have hstep : lexRaw (c :: r) = lexStep c (lexRaw r) := rfl
    rcases ih (fun x hx => h x (by simp [hx])) with hr | ⟨k, hr⟩
    · rw [hstep, hr]
      unfold lexStep
      rw [if_pos (h c (by simp))]
      exact ⟨1, rfl⟩
    · rw [hstep, hr]
      unfold lexStep
      rw [if_pos (h c (by simp))]
      exact ⟨k + 1, rfl⟩

theorem lineTokNum_none_of_blank (l : Str) (h : (pyStrip l).isEmpty = true) :
    lineTokNum l = none := by
  have hall := all_space_of_pyStrip_nil l h
  unfold lineTokNum pySplit lexLine
  rcases lexRaw_all_space l hall with hr | ⟨k, hr⟩ <;> rw [hr] <;> rfl

theorem fieldFromString_inv (l : Str) (cm : Cmt) (hnl : '\n' ∉ l)
    (h : fieldFromString l = .ok cm) : GoodCmt cm := by
  unfold fieldFromString at h
  rcases hs : splitFirstColon (l.drop 1) with _ | ⟨a, b⟩ <;> simp only [hs] at h
  · exact absurd h (by simp)
  · injection h with h
    subst h
    obtain ⟨ha, hb⟩ := splitFirstColon_subset (l.drop 1) a b hs
    constructor
    · intro hmem
      exact hnl (List.drop_subset 1 l (ha '\n' (mem_pyStrip a '\n' hmem)))
    · intro hmem
      exact hnl (List.drop_subset 1 l (hb '\n' (mem_pyStrip b '\n' hmem)))

/-- What a successful line classification guarantees, per outcome kind. -/
theorem identifyLine_inv (l : Str) (p : Parsed) (hnl : '\n' ∉ l)
    (h : identifyLine l = .ok p) :
    match p with
    | .sfs s => GoodSfs s ∧ lineTokNum l = some (numOf s)
    | .note n => GoodNfs n ∧ lineTokNum l = none
    | .comment c => GoodCmt c ∧ lineTokNum l = none := by
  unfold identifyLine at h
  rcases hs : sfsParseLine l with _ | res <;> simp only [hs] at h
  · split_ifs at h with hg
    unfold identifyTail at h
    rcases hm : m2Pat l with _ | ⟨r, sp, t1⟩ <;> simp only [hm] at h
    · rcases hf : fieldValidate l with _ | b
      · simp only [hf] at h
        exact absurd h (by simp)
      rcases b with _ | _
      · simp only [hf] at h
        rcases hstd : stdValidate l with _ | b2
        · simp only [hstd] at h
          exact absurd h (by simp)
        rcases b2 with _ | _
        · simp only [hstd] at h
          exact absurd h (by simp)
        · simp only [hstd] at h
          injection h with h
          subst h
          refine ⟨⟨?_, hstd⟩, lineTokNum_none_of_base l hstd⟩
          unfold identifyLine
          simp only [hs]
          rw [if_neg hg]
          unfold identifyTail
          simp only [hm, hf, hstd]
      · simp only [hf] at h
        rcases hff : fieldFromString l with e | cm <;> simp only [hff] at h
        · exact absurd h (by simp)
        · injection h with h
          subst h
          exact ⟨fieldFromString_inv l cm hnl hff,
            lineTokNum_none_of_base l (fieldValidate_true_base l hf).1⟩
    · rcases hp : m2Parse r sp t1 with e | n <;> simp only [hp] at h
      · exact absurd h (by simp)
      · injection h with h
        subst h
        obtain ⟨m, rest, hsplit, hM2⟩ := m2Pat_inv l r sp t1 hm
        refine ⟨m2Parse_inv r sp t1 n hp, ?_⟩
        unfold lineTokNum
        rw [hsplit]
        show (if pyIsNumeric m = true then some (pyInt m) else none) = none
        rw [if_neg (by rw [pyUpper_M2_not_numeric m hM2]; simp)]
  · rcases res with e | s
    · replace h : (Except.error e : Except Str Parsed) = .ok p := h
      exact absurd h (by simp)
    · replace h : (Except.ok (Parsed.sfs s) : Except Str Parsed) = .ok p := h
      injection h with h
      subst h
      exact sfsParseLine_ok_inv l s hs

/-- What a successful classification of a line block guarantees: good
components, and the standard statements' numbers are exactly the numeric
first tokens of the block's lines, in order. -/
theorem classifyLines_inv (ls : List Str) (a : List Sfs) (b : List Nfs) (c : List Cmt)
    (hnl : ∀ l ∈ ls, '\n' ∉ l) (h : classifyLines ls = .ok (a, b, c)) :
    (∀ s ∈ a, GoodSfs s) ∧ (∀ n ∈ b, GoodNfs n) ∧ (∀ cm ∈ c, GoodCmt cm) ∧
      a.map numOf = numsOfLines ls := by
  induction ls generalizing a b c with
  | nil =>
    replace h : (Except.ok (([] : List Sfs), ([] : List Nfs), ([] : List Cmt)) :
        Except Str _) = .ok (a, b, c) := h
    injection h with h
    injection h with h1 h
    injection h with h2 h3
    subst h1
    subst h2
    subst h3
    exact ⟨by simp, by simp, by simp, rfl⟩
  | cons l ls ih =>
    rw [show classifyLines (l :: ls) = (if (pyStrip l).isEmpty then classifyLines ls else
      match identifyLine l with
      | .error e => .error e
      | .ok p =>
        match classifyLines ls with
        | .error e => .error e
        | .ok (a, b, c) =>
          match p with
          | .sfs s => .ok (s :: a, b, c)
          | .note n => .ok (a, n :: b, c)
          | .comment cm => .ok (a, b, cm :: c)) from rfl] at h
    split_ifs at h with hblank
    · obtain ⟨h1, h2, h3, h4⟩ := ih a b c (fun x hx => hnl x (by simp [hx])) h
      refine ⟨h1, h2, h3, ?_⟩
      rw [h4]
      unfold numsOfLines
      rw [List.filterMap_cons_none (lineTokNum_none_of_blank l hblank)]
    · rcases hid : identifyLine l with e | p <;> simp only [hid] at h
      · exact absurd h (by simp)
      rcases hrec : classifyLines ls with e | ⟨a', b', c'⟩ <;> simp only [hrec] at h
      · exact absurd h (by simp)
      have hi := identifyLine_inv l p (hnl l (by simp)) hid
      obtain ⟨h1, h2, h3, h4⟩ := ih a' b' c' (fun x hx => hnl x (by simp [hx])) hrec
      rcases p with s | n | cm
      · replace h : (Except.ok (s :: a', b', c') : Except Str _) = .ok (a, b, c) := h
        injection h with h
        injection h with ha h
        injection h with hb hc
        subst ha
        subst hb
        subst hc
        obtain ⟨hgood, hnum⟩ := hi
        refine ⟨?_, h2, h3, ?_⟩
        · intro x hx
          rcases List.mem_cons.mp hx with hx | hx
          · rw [hx]; exact hgood
          · exact h1 x hx
        · unfold numsOfLines
          rw [List.map_cons, List.filterMap_cons_some hnum, h4]
          rfl
      · replace h : (Except.ok (a', n :: b', c') : Except Str _) = .ok (a, b, c) := h
        injection h with h
        injection h with ha h
        injection h with hb hc
        subst ha
        subst hb
        subst hc
        obtain ⟨hgood, hnum⟩ := hi
        refine ⟨h1, ?_, h3, ?_⟩
        · intro x hx
          rcases List.mem_cons.mp hx with hx | hx
          · rw [hx]; exact hgood
          · exact h2 x hx
        · unfold numsOfLines
          rw [List.filterMap_cons_none hnum, h4]
          rfl
      · replace h : (Except.ok (a', b', cm :: c') : Except Str _) = .ok (a, b, c) := h
        injection h with h
        injection h with ha h
        injection h with hb hc
        subst ha
        subst hb
        subst hc
        obtain ⟨hgood, hnum⟩ := hi
        refine ⟨h1, h2, ?_, ?_⟩
        · intro x hx
          rcases List.mem_cons.mp hx with hx | hx
          · rw [hx]; exact hgood
          · exact h3 x hx
        · unfold numsOfLines
          rw [List.filterMap_cons_none hnum, h4]
          rfl

theorem mkEvent_inv (a : List Sfs) (b : List Nfs) (c : List Cmt) (e : Event)
    (h : mkEvent a b c = .ok e) : e = ⟨a, b, c⟩ ∧ a ≠ [] := by
  unfold mkEvent at h
  split_ifs at h with h1 h2
  injection h with h
  subst h
  refine ⟨rfl, ?_⟩
  intro hnil
  rw [hnil] at h1
  exact h1 (by simp)

/-- What a successful `Event.from_string` on newline-free lines
guarantees: good components, a non-empty statement list, and statement
numbers matching the lines' numeric first tokens. -/
theorem eventFromLines_inv (ls : List Str) (e : Event)
    (hnl : ∀ l ∈ ls, '\n' ∉ l) (h : Event.fromLines ls = .ok e) :
    (e.sfs ≠ [] ∧ (∀ s ∈ e.sfs, GoodSfs s) ∧ (∀ n ∈ e.nfs, GoodNfs n) ∧
      (∀ cm ∈ e.comments, GoodCmt cm)) ∧ numsOf e = numsOfLines ls := by
  unfold Event.fromLines at h
  rcases hcl : classifyLines ls with er | ⟨a, b, c⟩ <;> simp only [hcl] at h
  · exact absurd h (by simp)
  · obtain ⟨h1, h2, h3, h4⟩ := classifyLines_inv ls a b c hnl hcl
    obtain ⟨he, hne⟩ := mkEvent_inv a b c e h
    subst he
    exact ⟨⟨hne, h1, h2, h3⟩, h4⟩

theorem lineTokNum_eq (l t : Str) (ts : List Str) (hsp : pySplit l = t :: ts) :
    lineTokNum l = if pyIsNumeric t then some (pyInt t) else none := by
  unfold lineTokNum
  rw [hsp]

theorem headD_append_left (xs ys : List Nat) (d : Nat) (h : xs ≠ []) :
    (xs ++ ys).headD d = xs.headD d := by
  cases xs with
  | nil => exact absurd rfl h
  | cons a l => rfl

theorem isBeginNewEvent_ok_false_inv (l : Str) (i : Nat) (t : Str) (ts : List Str)
    (hsp : pySplit l = t :: ts) (h : isBeginNewEvent l i = .ok false) :
    i = 0 ∨ ¬(pyIsNumeric t = true ∧ pyInt t ≠ i) := by
  by_cases hi : i = 0
  · exact Or.inl hi
  · right
    unfold isBeginNewEvent at h
    rw [if_neg hi, hsp] at h
    replace h : (if (decide (pyLower t = str "FCM:") || decide (pyLower t = str "SPLIT:"))
          = true then (Except.ok true : Except Str Bool)
        else if (pyIsNumeric t && decide (pyInt t ≠ i)) = true then Except.ok true
        else Except.ok false) = Except.ok false := h
    rw [if_neg (by simp [pyLower_ne_FCM t, pyLower_ne_SPLIT t])] at h
    split_ifs at h with hc
    · exact absurd h (by simp)
    · intro hand
      apply hc
      simp [hand.1, hand.2]

theorem isBeginNewEvent_ok_true_inv (l : Str) (i : Nat) (t : Str) (ts : List Str)
    (hsp : pySplit l = t :: ts) (h : isBeginNewEvent l i = .ok true) :
    i ≠ 0 ∧ pyIsNumeric t = true ∧ pyInt t ≠ i := by
  by_cases hi : i = 0
  · unfold isBeginNewEvent at h
    rw [if_pos hi] at h
    exact absurd h (by simp)
  · refine ⟨hi, ?_⟩
    unfold isBeginNewEvent at h
    rw [if_neg hi, hsp] at h
    replace h : (if (decide (pyLower t = str "FCM:") || decide (pyLower t = str "SPLIT:"))
          = true then (Except.ok true : Except Str Bool)
        else if (pyIsNumeric t && decide (pyInt t ≠ i)) = true then Except.ok true
        else Except.ok false) = Except.ok true := h
    rw [if_neg (by simp [pyLower_ne_FCM t, pyLower_ne_SPLIT t])] at h
    split_ifs at h with hc
    · rw [Bool.and_eq_true, decide_eq_true_eq] at hc
      exact hc
    · exact absurd h (by simp)

/-- One segmentation step preserves the loop invariant. -/
theorem stepLine_inv (st : SegState) (l : Str) (st' : SegState) (hnl : '\n' ∉ l)
    (h : stepLine st l = .ok st') (hinv : SegInv st) : SegInv st' := by
  obtain ⟨evs, buf, i⟩ := st
  obtain ⟨hg, hch, hbnl, hbch, hidx, hemp, hbr⟩ := hinv
  dsimp only at hg hch hbnl hbch hidx hemp hbr
  unfold stepLine at h
  rcases buf with _ | ⟨b0, brest⟩
  · have hevs : evs = [] := hemp rfl
    have hi0 : i = 0 := hidx
    subst hevs
    subst hi0
    replace h : (match pySplit l with
      | [] => (Except.error (str "list index out of range") : Except Str SegState)
      | t :: _ => .ok ⟨[], [] ++ [l], if pyIsNumeric t then pyInt t else 0⟩) = .ok st' := h
    rcases hsp : pySplit l with _ | ⟨t, ts⟩ <;> simp only [hsp] at h
    · exact absurd h (by simp)
    · injection h with h
      subst h
      have hltn := lineTokNum_eq l t ts hsp
      have hnums : numsOfLines ([] ++ [l]) =
          if pyIsNumeric t then [pyInt t] else [] := by
        cases hnum : pyIsNumeric t <;> simp [numsOfLines, hltn, hnum]
      refine ⟨by simp, by simp, ?_, ?_, ?_, ?_, ?_⟩
      · intro x hx
        simp at hx
        rw [hx]
        exact hnl
      · rw [hnums]
        split_ifs <;> simp
      · rw [hnums]
        by_cases hnum : pyIsNumeric t = true
        · simp [hnum]
        · simp [hnum]
      · intro habs
        exact absurd habs (by simp)
      · intro e he
        simp at he
  · rw [if_neg (by simp : ¬((b0 :: brest).isEmpty = true))] at h
    rcases hbne : isBeginNewEvent l i with er | bflag <;> simp only [hbne] at h
    · exact absurd h (by simp)
    rcases bflag with _ | _
    · -- no flush: the line is appended
      rcases hsp : pySplit l with _ | ⟨t, ts⟩ <;> simp only [hsp] at h
      · exact absurd h (by simp)
      injection h with h
      subst h
      have hcond := isBeginNewEvent_ok_false_inv l i t ts hsp hbne
      have hltn := lineTokNum_eq l t ts hsp
      have hnums : numsOfLines ((b0 :: brest) ++ [l]) =
          numsOfLines (b0 :: brest) ++ (if pyIsNumeric t then [pyInt t] else []) := by
        unfold numsOfLines
        rw [List.filterMap_append]
        congr 1
        cases hnum : pyIsNumeric t <;> simp [hltn, hnum]
      refine ⟨hg, hch, ?_, ?_, ?_, ?_, ?_⟩
      · intro x hx
        rcases List.mem_append.mp hx with hx | hx
        · exact hbnl x hx
        · simp at hx
          rw [hx]
          exact hnl
      · rw [hnums]
        by_cases hnum : pyIsNumeric t = true
        · rw [if_pos hnum, List.chain'_append]
          refine ⟨hbch, by simp, ?_⟩
          intro x hx y hy
          simp at hy
          subst hy
          have hx' : (numsOfLines (b0 :: brest)).getLastD 0 = x := by
            rw [List.getLastD_eq_getLast?, hx]
            rfl
          rcases hcond with h0 | hnc
          · left
            omega
          · right
            have hti : pyInt t = i := by
              by_contra hne
              exact hnc ⟨hnum, hne⟩
            omega
        · rw [if_neg hnum, List.append_nil]
          exact hbch
      · rw [hnums]
        by_cases hnum : pyIsNumeric t = true
        · rw [if_pos hnum, if_pos hnum]
          rw [List.getLastD_concat]
        · rw [if_neg hnum, if_neg hnum, List.append_nil]
          exact hidx
      · intro habs
        exact absurd habs (by simp)
      · intro e he
        obtain ⟨h1, h2, h3⟩ := hbr e he
        refine ⟨h1, ?_, ?_⟩
        · rw [hnums]
          intro habs
          exact h2 (List.append_eq_nil.mp habs).1
        · rw [hnums, headD_append_left _ _ _ h2]
          exact h3
    · -- flush: the buffered event is emitted, the line opens a new buffer
      rcases hev : Event.fromLines (b0 :: brest) with er | ev <;> simp only [hev] at h
      · exact absurd h (by simp)
      rcases hsp : pySplit l with _ | ⟨t, ts⟩ <;> simp only [hsp] at h
      · exact absurd h (by simp)
      injection h with h
      subst h
      obtain ⟨hne0, hnum, hdiff⟩ := isBeginNewEvent_ok_true_inv l i t ts hsp hbne
      obtain ⟨⟨hsne, hgs, hgn, hgc⟩, hnums_ev⟩ := eventFromLines_inv (b0 :: brest) ev hbnl hev
      have hgev : GoodEvent ev := ⟨hsne, hgs, hgn, hgc, by
        show List.Chain' ChainR (numsOf ev)
        rw [hnums_ev]
        exact hbch⟩
      have hlast : lastNum ev = i := by
        unfold lastNum
        rw [hnums_ev]
        exact hidx.symm
      have hfirst : firstNum ev = (numsOfLines (b0 :: brest)).headD 0 := by
        unfold firstNum
        rw [hnums_ev]
      have hltn := lineTokNum_eq l t ts hsp
      have hnums : numsOfLines ([] ++ [l]) = [pyInt t] := by
        simp [numsOfLines, hltn, hnum]
      refine ⟨?_, ?_, ?_, ?_, ?_, ?_, ?_⟩
      · intro x hx
        rcases List.mem_append.mp hx with hx | hx
        · exact hg x hx
        · simp at hx
          rw [hx]
          exact hgev
      · rw [List.chain'_append]
        refine ⟨hch, by simp, ?_⟩
        intro x hx y hy
        simp at hy
        subst hy
        obtain ⟨h1, h2, h3⟩ := hbr x hx
        refine ⟨h1, ?_⟩
        rw [hfirst]
        exact h3
      · intro x hx
        simp at hx
        rw [hx]
        exact hnl
      · rw [hnums]
        simp
      · rw [hnums, if_pos hnum]
        rfl
      · intro habs
        exact absurd habs (by simp)
      · intro e he
        rw [List.getLast?_concat] at he
        injection he with he
        subst he
        refine ⟨by rw [hlast]; exact hne0, by rw [hnums]; simp, ?_⟩
        rw [hnums, hlast]
        simpa using hdiff

theorem segLoop_inv (ls : List Str) : ∀ (n : Nat) (st st' : SegState),
    (∀ l ∈ ls, '\n' ∉ l) → segLoop ls n st = .ok st' → SegInv st → SegInv st' := by
  induction ls with
  | nil =>
    intro n st st' _ h hi
    replace h : (Except.ok st : Except Str SegState) = .ok st' := h
    injection h with h
    rw [← h]
    exact hi
  | cons l ls ih =>
    intro n st st' hnl h hi
    simp only [segLoop] at h
    split_ifs at h with hle
    · exact ih (n + 1) st st' (fun x hx => hnl x (by simp [hx])) h hi
    · rcases hst : stepLine st l with er | st₁ <;> simp only [hst] at h
      · exact absurd h (by simp)
      · exact ih (n + 1) st₁ st' (fun x hx => hnl x (by simp [hx])) h
          (stepLine_inv st l st₁ (hnl l (by simp)) hst hi)

theorem segInv_init : SegInv ⟨[], [], 0⟩ := by
  refine ⟨by simp, by simp, by simp, by simp [numsOfLines], rfl, fun _ => rfl, ?_⟩
  intro e he
  simp at he

/-- What a successful `Edl.from_file` body pass guarantees. -/
theorem finishBody_inv (title : Str) (fcm : Fcm) (body : List Str) (D : Edl)
    (hnl : ∀ l ∈ body, '\n' ∉ l) (h : Edl.finishBody title fcm body = .ok D) :
    D.title = title ∧ D.fcm = fcm ∧ (∀ e ∈ D.events, GoodEvent e) ∧
      List.Chain' evBound D.events := by
  unfold Edl.finishBody at h
  rcases hsl : segLoop body 0 ⟨[], [], 0⟩ with er | st <;> simp only [hsl] at h
  · exact absurd h (by simp)
  have hinv := segLoop_inv body 0 ⟨[], [], 0⟩ st hnl hsl segInv_init
  obtain ⟨sevs, sbuf, sidx⟩ := st
  obtain ⟨hg, hch, hbnl, hbch, hidx, hemp, hbr⟩ := hinv
  dsimp only at hg hch hbnl hbch hidx hemp hbr
  split_ifs at h with hbe
  · injection h with h
    subst h
    exact ⟨rfl, rfl, hg, hch⟩
  · rcases hev : Event.fromLines sbuf with er | ev <;> simp only [hev] at h
    · exact absurd h (by simp)
    injection h with h
    subst h
    obtain ⟨⟨hsne, hgs, hgn, hgc⟩, hnums_ev⟩ := eventFromLines_inv sbuf ev hbnl hev
    have hgev : GoodEvent ev := ⟨hsne, hgs, hgn, hgc, by
      show List.Chain' ChainR (numsOf ev)
      rw [hnums_ev]
      exact hbch⟩
    refine ⟨rfl, rfl, ?_, ?_⟩
    · intro x hx
      rcases List.mem_append.mp hx with hx | hx
      · exact hg x hx
      · simp at hx
        rw [hx]
        exact hgev
    · rw [List.chain'_append]
      refine ⟨hch, by simp, ?_⟩
      intro x hx y hy
      simp at hy
      subst hy
      obtain ⟨h1, _, h3⟩ := hbr x hx
      refine ⟨h1, ?_⟩
      unfold firstNum
      rw [hnums_ev]
      exact h3

/-! ## `splitNl` and `pyStrip` facts -/

theorem splitNl_no_newline (s : Str) : ∀ l ∈ splitNl s, '\n' ∉ l := by
  induction s with
  | nil =>
    intro l hl
    replace hl : l ∈ [([] : Str)] := hl
    simp at hl
    rw [hl]
    simp
  | cons c cs ih =>
    intro l hl
    unfold splitNl at hl
    split_ifs at hl with hc
    · rcases List.mem_cons.mp hl with h1 | h1
      · rw [h1]
        simp
      · exact ih l h1
    · rcases hsc : splitNl cs with _ | ⟨g, gs⟩ <;> simp only [hsc] at hl
      · simp at hl
        rw [hl]
        simp
        intro habs
        exact hc habs.symm
      · rcases List.mem_cons.mp hl with h1 | h1
        · rw [h1]
          simp
          constructor
          · intro habs
            exact hc habs.symm
          · exact ih g (by rw [hsc]; simp)
        · exact ih l (by rw [hsc]; simp [h1])

theorem splitNl_ne_nil (s : Str) : splitNl s ≠ [] := by
  induction s with
  | nil => simp [splitNl]
  | cons c cs ih =>
    unfold splitNl
    split_ifs with hc
    · simp
    · rcases hsc : splitNl cs with _ | ⟨g, gs⟩ <;> simp

theorem splitNl_cons_nl (cs : Str) : splitNl ('\n' :: cs) = [] :: splitNl cs := by
  conv_lhs => rw [splitNl]
  rw [if_pos rfl]

theorem splitNl_cons_other (c : Char) (cs : Str) (hc : ¬(c = '\n')) :
    splitNl (c :: cs) =
      match splitNl cs with
      | g :: gs => (c :: g) :: gs
      | [] => [[c]] := by
  conv_lhs => rw [splitNl]
  rw [if_neg hc]

theorem splitNl_append_newline (x y : Str) :
    splitNl (x ++ '\n' :: y) = splitNl x ++ splitNl y := by
  induction x with
  | nil =>
    show splitNl ('\n' :: y) = splitNl [] ++ splitNl y
    rw [splitNl_cons_nl]
    rfl
  | cons c x' ih =>
    show splitNl (c :: (x' ++ '\n' :: y)) = splitNl (c :: x') ++ splitNl y
    by_cases hc : c = '\n'
    · subst hc
      rw [splitNl_cons_nl, splitNl_cons_nl, ih]
      rfl
    · rw [splitNl_cons_other c _ hc, splitNl_cons_other c x' hc, ih]
      rcases hsx : splitNl x' with _ | ⟨g, gs⟩
      · exact absurd hsx (splitNl_ne_nil x')
      · rfl

theorem splitNl_of_no_newline (l : Str) (h : '\n' ∉ l) : splitNl l = [l] := by
  induction l with
  | nil => rfl
  | cons c cs ih =>
    unfold splitNl
    rw [if_neg (by intro habs; exact h (by rw [habs]; simp))]
    rw [ih (fun habs => h (by simp [habs]))]

theorem pyLStrip_head (s : Str) : ∀ c t, pyLStrip s = c :: t → isPySpace c = false := by
  induction s with
  | nil =>
    intro c t h
    simp [pyLStrip] at h
  | cons a r ih =>
    intro c t h
    unfold pyLStrip at h
    by_cases ha : isPySpace a = true
    · rw [List.dropWhile_cons_of_pos ha] at h
      exact ih c t h
    · rw [List.dropWhile_cons_of_neg ha] at h
      injection h with h1 h2
      rw [← h1]
      simpa using ha

theorem pyRStrip_idem (s : Str) : pyRStrip (pyRStrip s) = pyRStrip s := by
  unfold pyRStrip
  rw [List.reverse_reverse]
  congr 1
  rcases hd : List.dropWhile isPySpace s.reverse with _ | ⟨a, t⟩
  · rfl
  · have ha : isPySpace a = false := pyLStrip_head s.reverse a t hd
    rw [List.dropWhile_cons_of_neg (by simp [ha])]

theorem pyStrip_idem (s : Str) : pyStrip (pyStrip s) = pyStrip s := by
  rcases hL : pyLStrip s with _ | ⟨c, t⟩
  · have h1 : pyStrip s = [] := by
      unfold pyStrip
      rw [hL]
      rfl
    rw [h1]
    rfl
  · have hc : isPySpace c = false := pyLStrip_head s c t hL
    obtain ⟨u, hu⟩ := pyRStrip_cons_nonspace c t hc
    have h1 : pyStrip s = c :: u := by
      unfold pyStrip
      rw [hL]
      exact hu
    rw [h1]
    show pyRStrip (pyLStrip (c :: u)) = c :: u
    unfold pyLStrip
    rw [List.dropWhile_cons_of_neg (by simp [hc])]
    have h2 : pyRStrip (pyRStrip (c :: t)) = pyRStrip (c :: t) := pyRStrip_idem _
    rw [hu] at h2
    exact h2

theorem parseTitleLine_roundtrip (t : Str) (hne : t ≠ []) (hstrip : pyStrip t = t) :
    parseTitleLine (str "TITLE: " ++ t) = .ok t := by
  unfold parseTitleLine
  have hdrop : pyStrip ((str "TITLE: " ++ t).drop 6) = t := by
    show pyStrip (' ' :: t) = t
    rw [pyStrip_cons_space _ _ (by decide)]
    exact hstrip
  have hpre : pyStartsWith (str "title:") (pyLower (str "TITLE: " ++ t)) = true := by
    rfl
  rw [if_pos hpre]
  show (if (pyStrip ((str "TITLE: " ++ t).drop 6)).isEmpty = true then
      (Except.error (str "Title is empty") : Except Str Str)
    else .ok (pyStrip ((str "TITLE: " ++ t).drop 6))) = .ok t
  rw [hdrop]
  rw [if_neg (by simp [hne])]

theorem parseTitleLine_inv (line t : Str) (hnl : '\n' ∉ line)
    (h : parseTitleLine line = .ok t) : GoodTitle t := by
  unfold parseTitleLine at h
  replace h : (if pyStartsWith (str "title:") (pyLower line) = true then
      (if (pyStrip (line.drop 6)).isEmpty = true then
        (Except.error (str "Title is empty") : Except Str Str)
      else .ok (pyStrip (line.drop 6)))
    else .error (str "Title was expected, but not found")) = .ok t := h
  split_ifs at h with h1 h2
  · injection h with h
    subst h
    constructor
    · apply parseTitleLine_roundtrip
      · intro habs
        exact h2 (by rw [habs]; rfl)
      · exact pyStrip_idem _
    · intro habs
      exact hnl (List.drop_subset 6 line (mem_pyStrip _ _ habs))

/-- Any successfully parsed document satisfies the good-document
invariant. -/
theorem fromLines_goodEdl (lines : List Str) (D : Edl)
    (hnl : ∀ l ∈ lines, '\n' ∉ l) (h : Edl.fromLines lines = .ok D) : GoodEdl D := by
  unfold Edl.fromLines at h
  rcases lines with _ | ⟨t0, rest⟩
  · replace h : (Except.error (str "Title was expected, but not found") :
        Except Str Edl) = .ok D := h
    exact absurd h (by simp)
  · rcases hti : parseTitleLine t0 with er | title <;> simp only [hti] at h
    · exact absurd h (by simp)
    have hgt := parseTitleLine_inv t0 title (hnl t0 (by simp)) hti
    rcases rest with _ | ⟨l1, rs⟩
    · replace h : (Except.ok (⟨title, .pal, []⟩ : Edl) : Except Str Edl) = .ok D := h
      injection h with h
      subst h
      exact ⟨hgt, by simp, by simp⟩
    · replace h : (if pyStartsWith (str "FCM:") (pyUpper l1) = true then
          (match parseFcmLine l1 with
          | Except.error e => (Except.error e : Except Str Edl)
          | Except.ok f => Edl.finishBody title f rs)
        else Edl.finishBody title Fcm.pal (l1 :: rs)) = .ok D := h
      split_ifs at h with hfcm
      · rcases hf : parseFcmLine l1 with er | f <;> simp only [hf] at h
        · exact absurd h (by simp)
        obtain ⟨h1, h2, h3, h4⟩ := finishBody_inv title f rs D
          (fun x hx => hnl x (by simp [hx])) h
        refine ⟨?_, h3, h4⟩
        rw [h1]
        exact hgt
      · obtain ⟨h1, h2, h3, h4⟩ := finishBody_inv title .pal (l1 :: rs) D
          (fun x hx => hnl x (by simp [hx])) h
        refine ⟨?_, h3, h4⟩
        rw [h1]
        exact hgt

/-- `Edl.from_file` on any text yields a good document. -/
theorem fromText_goodEdl (s : Str) (D : Edl) (h : Edl.fromText s = .ok D) : GoodEdl D :=
  fromLines_goodEdl (splitNl s) D (splitNl_no_newline s) h

/-! ## Rendered lines as token/gap lists (claim C1, render side) -/

/-- `spaces` distributes over addition. -/
theorem spaces_add (a b : Nat) : spaces (a + b) = spaces a ++ spaces b :=
  List.replicate_add a b ' '

theorem str_two_spaces : (str "  " : Str) = spaces 2 := rfl

theorem one_space_spaces : ([' '] : Str) = spaces 1 := rfl

theorem spaces_zero : spaces 0 = ([] : Str) := rfl

theorem render_cut_tg (c : SfsCore) :
    Sfs.render (.cut c) = tgJoin (cutToks c) := by
  show c.numField ++ str "  " ++ ljust 128 c.reel.name ++ str "  " ++ ljust 3 c.track.name ++
      str "  C       " ++ c.tcFields = tgJoin (cutToks c)
  simp only [cutToks, tgJoin, SfsCore.tcFields, ljust]
  rw [spaces_add (128 - c.reel.name.length) 2, spaces_add (3 - c.track.name.length) 2]
  rw [show (str "  C       " : Str) = spaces 2 ++ (str "C" ++ spaces 7) from rfl]
  rw [str_two_spaces, one_space_spaces, spaces_zero]
  simp [List.append_assoc]

theorem render_dissolve_tg (c : SfsCore) (len : Nat) :
    Sfs.render (.dissolve c len) = tgJoin (dissolveToks c len) := by
  show c.numField ++ str "  " ++ ljust 128 c.reel.name ++ str "  " ++ ljust 3 c.track.name ++
      str "  D  " ++ pyZfill 3 (natToStr len) ++ str "  " ++ c.tcFields =
    tgJoin (dissolveToks c len)
  simp only [dissolveToks, tgJoin, SfsCore.tcFields, ljust]
  rw [spaces_add (128 - c.reel.name.length) 2, spaces_add (3 - c.track.name.length) 2]
  rw [show (str "  D  " : Str) = spaces 2 ++ (str "D" ++ spaces 2) from rfl]
  rw [str_two_spaces, one_space_spaces, spaces_zero]
  simp [List.append_assoc]

theorem render_wipe_tg (c : SfsCore) (len wid : Nat) :
    Sfs.render (.wipe c len wid) = tgJoin (wipeToks c len wid) := by
  show c.numField ++ str "  " ++ ljust 128 c.reel.name ++ str "  " ++ ljust 3 c.track.name ++
      str "  W" ++ pyZfill 3 (natToStr wid) ++ str "  " ++ pyZfill 3 (natToStr len) ++
      str "  " ++ c.tcFields = tgJoin (wipeToks c len wid)
  simp only [wipeToks, tgJoin, SfsCore.tcFields, ljust]
  rw [spaces_add (128 - c.reel.name.length) 2, spaces_add (3 - c.track.name.length) 2]
  rw [show (str "  W" : Str) = spaces 2 ++ ['W'] from rfl]
  rw [str_two_spaces, one_space_spaces, spaces_zero]
  simp [List.append_assoc]

theorem render_keyFg_tg (c : SfsCore) (len : Nat) :
    Sfs.render (.keyFg c len) = tgJoin (keyFgToks c len) := by
  show c.numField ++ str "  " ++ ljust 128 c.reel.name ++ str "  " ++ ljust 3 c.track.name ++
      str "  K  " ++ pyZfill 3 (natToStr len) ++ str "  " ++ c.tcFields =
    tgJoin (keyFgToks c len)
  simp only [keyFgToks, tgJoin, SfsCore.tcFields, ljust]
  rw [spaces_add (128 - c.reel.name.length) 2, spaces_add (3 - c.track.name.length) 2]
  rw [show (str "  K  " : Str) = spaces 2 ++ (str "K" ++ spaces 2) from rfl]
  rw [str_two_spaces, one_space_spaces, spaces_zero]
  simp [List.append_assoc]

theorem render_keyBg_tg (c : SfsCore) (fade : Bool) :
    Sfs.render (.keyBg c fade) = tgJoin (keyBgToks c fade) := by
  rcases fade with _ | _
  · show c.numField ++ str "  " ++ ljust 128 c.reel.name ++ str "  " ++ ljust 3 c.track.name ++
        str "  K B  " ++ str "   " ++ str "  " ++ c.tcFields = tgJoin (keyBgToks c false)
    simp only [keyBgToks, tgJoin, SfsCore.tcFields, ljust, if_neg (Bool.false_ne_true),
      List.cons_append, List.nil_append]
    rw [spaces_add (128 - c.reel.name.length) 2, spaces_add (3 - c.track.name.length) 2]
    rw [show (str "  K B  " : Str) = spaces 2 ++ (str "K" ++ (spaces 1 ++ (str "B" ++ spaces 2)))
      from rfl]
    rw [show spaces 7 = spaces 2 ++ (spaces 3 ++ spaces 2) from rfl]
    rw [show (str "   " : Str) = spaces 3 from rfl]
    rw [str_two_spaces, one_space_spaces, spaces_zero]
    simp [List.append_assoc]
  · show c.numField ++ str "  " ++ ljust 128 c.reel.name ++ str "  " ++ ljust 3 c.track.name ++
        str "  K B  " ++ str "(F)" ++ str "  " ++ c.tcFields = tgJoin (keyBgToks c true)
    simp only [keyBgToks, tgJoin, SfsCore.tcFields, ljust, if_pos, List.cons_append,
      List.nil_append]
    rw [spaces_add (128 - c.reel.name.length) 2, spaces_add (3 - c.track.name.length) 2]
    rw [show (str "  K B  " : Str) = spaces 2 ++ (str "K" ++ (spaces 1 ++ (str "B" ++ spaces 2)))
      from rfl]
    rw [str_two_spaces, one_space_spaces, spaces_zero]
    simp [List.append_assoc]

theorem render_nfs_tg (n : Nfs) :
    Nfs.render n = tgJoin (nfsToks n) := by
  show str "M2     " ++ ljust 129 n.reel.name ++ str "  " ++ pyRjust 6 (speedTok n.speed) ++
      str "  " ++ n.tc_start.render = tgJoin (nfsToks n)
  simp only [nfsToks, tgJoin, ljust, pyRjust]
  rw [spaces_add (129 - n.reel.name.length) (2 + (6 - (speedTok n.speed).length)),
    spaces_add 2 (6 - (speedTok n.speed).length)]
  rw [show (str "M2     " : Str) = str "M2" ++ spaces 5 from rfl]
  rw [str_two_spaces, spaces_zero]
  simp [List.append_assoc]

theorem pyZfill_digits (w : Nat) (s : Str) (hne : s ≠ []) (hd : ∀ c ∈ s, isDigitCh c = true) :
    pyZfill w s = List.replicate (w - s.length) '0' ++ s := by
  rcases s with _ | ⟨c, rest⟩
  · exact absurd rfl hne
  · have hc := hd c (by simp)
    show (if (decide (c = '-') || decide (c = '+')) = true then
        c :: (List.replicate (w - (c :: rest).length) '0' ++ rest)
      else List.replicate (w - (c :: rest).length) '0' ++ c :: rest) =
      List.replicate (w - (c :: rest).length) '0' ++ c :: rest
    rw [if_neg (by
      simp only [Bool.or_eq_true, decide_eq_true_eq]
      rintro (rfl | rfl) <;> exact absurd hc (by decide))]

theorem zfill3_digits (n : Nat) : ∀ c ∈ pyZfill 3 (natToStr n), isDigitCh c = true := by
  intro c hc
  rw [pyZfill_digits 3 (natToStr n) (natToStr_ne_nil n) (natToStr_digits n)] at hc
  rcases List.mem_append.mp hc with h | h
  · rw [List.eq_of_mem_replicate h]
    decide
  · exact natToStr_digits n c h

theorem zfill3_ne_nil (n : Nat) : pyZfill 3 (natToStr n) ≠ [] := by
  rw [pyZfill_digits 3 (natToStr n) (natToStr_ne_nil n) (natToStr_digits n)]
  intro h
  exact natToStr_ne_nil n (List.append_eq_nil.mp h).2

theorem zfill3_nonspace (n : Nat) : ∀ c ∈ pyZfill 3 (natToStr n), isPySpace c = false :=
  fun c hc => not_space_of_digit c (zfill3_digits n c hc)

theorem zfill3_isDigits (n : Nat) : isDigits (pyZfill 3 (natToStr n)) = true := by
  unfold isDigits
  rw [Bool.and_eq_true, List.all_eq_true]
  constructor
  · simp [zfill3_ne_nil n]
  · intro c hc
    simp [zfill3_digits n c hc]

theorem pyInt_zfill3 (n : Nat) : pyInt (pyZfill 3 (natToStr n)) = n := by
  rw [pyZfill_digits 3 (natToStr n) (natToStr_ne_nil n) (natToStr_digits n),
    pyInt_replicate_zero, pyInt_natToStr]

theorem numField_eq_zfill3 (c : SfsCore) :
    c.numField = pyZfill 3 (natToStr (c.event_number.getD 1)) := rfl

theorem numField_head_digit (c : SfsCore) :
    ∃ x xs, c.numField = x :: xs ∧ isDigitCh x = true := by
  rcases hnf : c.numField with _ | ⟨x, xs⟩
  · rw [numField_eq_zfill3] at hnf
    exact absurd hnf (zfill3_ne_nil _)
  · refine ⟨x, xs, rfl, ?_⟩
    have := zfill3_digits (c.event_number.getD 1) x
    rw [← numField_eq_zfill3] at this
    exact this (by rw [hnf]; simp)

/-- A track's rendered name is non-empty. -/
theorem trackName_ne_nil (t : Track) : t.name ≠ [] := by
  rcases t with ⟨ty, i⟩
  unfold Track.name
  split_ifs <;> rcases ty <;> simp [TrackType.value, str]

theorem trackName_nonspace (t : Track) : ∀ c ∈ t.name, isPySpace c = false := by
  rcases t with ⟨ty, i⟩
  intro c hc
  unfold Track.name at hc
  split_ifs at hc with hgt
  · rcases List.mem_append.mp hc with h | h
    · rcases ty <;> simp [TrackType.value, str] at h <;> rw [h] <;> decide
    · exact not_space_of_digit c (natToStr_digits i c h)
  · rcases ty <;> simp [TrackType.value, str] at hc <;> rw [hc] <;> decide

theorem isTrackTok_name (t : Track) (h : GoodTrack t) : isTrackTok t.name = true := by
  rcases t with ⟨ty, i⟩
  rcases ty
  · have hi : i = 1 := h rfl
    subst hi
    decide
  · unfold Track.name
    split_ifs with hgt
    · show isTrackTok ('A' :: natToStr i) = true
      unfold isTrackTok
      rw [Bool.or_eq_true, Bool.and_eq_true]
      left
      constructor
      · decide
      · rw [List.all_eq_true]
        intro c hc
        simp [natToStr_digits i c hc]
    · show isTrackTok (str "A") = true
      decide

theorem ofName_name (t : Track) (h : GoodTrack t) :
    Track.ofName t.name = some (normTrack t) := by
  rcases t with ⟨ty, i⟩
  rcases ty
  · have hi : i = 1 := h rfl
    subst hi
    rfl
  · unfold Track.name
    split_ifs with hgt
    · show Track.ofName ('A' :: natToStr i) = some (normTrack ⟨.audio, i⟩)
      have hgt' : i > 1 := hgt
      have hmax : max 1 i = i := by
        omega
      show (if natToStr i = [] then some (⟨TrackType.audio, 1⟩ : Track)
        else if (natToStr i).all isDigitCh = true then some ⟨TrackType.audio, pyInt (natToStr i)⟩
        else none) = some (normTrack ⟨.audio, i⟩)
      rw [if_neg (natToStr_ne_nil i)]
      rw [if_pos (by rw [List.all_eq_true]; intro c hc; simp [natToStr_digits i c hc])]
      rw [pyInt_natToStr]
      show some (⟨TrackType.audio, i⟩ : Track) = some ⟨TrackType.audio, max 1 i⟩
      rw [hmax]
    · show Track.ofName (str "A") = some (normTrack ⟨.audio, i⟩)
      show some (⟨TrackType.audio, 1⟩ : Track) = some ⟨TrackType.audio, max 1 i⟩
      have hgt' : ¬(i > 1) := hgt
      have hmax : max 1 i = 1 := by
        omega
      rw [hmax]

theorem pyZfill_nonspace (w : Nat) (s : Str) (h : ∀ c ∈ s, isPySpace c = false) :
    ∀ c ∈ pyZfill w s, isPySpace c = false := by
  intro c hc
  rcases s with _ | ⟨x, xs⟩
  · replace hc : c ∈ List.replicate w '0' := hc
    rw [List.eq_of_mem_replicate hc]
    decide
  · replace hc : c ∈ (if (decide (x = '-') || decide (x = '+')) = true then
        x :: (List.replicate (w - (x :: xs).length) '0' ++ xs)
      else List.replicate (w - (x :: xs).length) '0' ++ x :: xs) := hc
    split_ifs at hc
    · rcases List.mem_cons.mp hc with h1 | h1
      · rw [h1]
        exact h x (by simp)
      · rcases List.mem_append.mp h1 with h2 | h2
        · rw [List.eq_of_mem_replicate h2]
          decide
        · exact h c (by simp [h2])
    · rcases List.mem_append.mp hc with h2 | h2
      · rw [List.eq_of_mem_replicate h2]
        decide
      · exact h c h2

theorem pyZfill_ne_nil (w : Nat) (s : Str) (h : s ≠ []) : pyZfill w s ≠ [] := by
  rcases s with _ | ⟨x, xs⟩
  · exact absurd rfl h
  · show (if (decide (x = '-') || decide (x = '+')) = true then
        x :: (List.replicate (w - (x :: xs).length) '0' ++ xs)
      else List.replicate (w - (x :: xs).length) '0' ++ x :: xs) ≠ []
    split_ifs <;> simp

theorem speedRound1Str_nonspace (q : ℚ) : ∀ c ∈ speedRound1Str q, isPySpace c = false := by
  intro c hc
  unfold speedRound1Str at hc
  rcases List.mem_append.mp hc with h | h
  · rcases List.mem_append.mp h with h' | h'
    · rcases List.mem_append.mp h' with h'' | h''
      · split_ifs at h''
        · simp at h''
          rw [h'']
          decide
        · simp at h''
      · exact not_space_of_digit c (natToStr_digits _ c h'')
    · simp at h'
      rw [h']
      decide
  · simp at h
    rw [h]
    exact not_space_of_digit _ (isDigitCh_digitCh _ (Nat.mod_lt _ (by omega)))

theorem speedRound1Str_ne_nil (q : ℚ) : speedRound1Str q ≠ [] := by
  unfold speedRound1Str
  intro h
  rw [List.append_eq_nil, List.append_eq_nil] at h
  exact absurd h.2 (by simp)

theorem speedTok_nonspace (q : ℚ) : ∀ c ∈ speedTok q, isPySpace c = false :=
  pyZfill_nonspace _ _ (speedRound1Str_nonspace q)

theorem speedTok_ne_nil (q : ℚ) : speedTok q ≠ [] :=
  pyZfill_ne_nil _ _ (speedRound1Str_ne_nil q)

theorem numField_ne_nil (c : SfsCore) : c.numField ≠ [] := by
  rw [numField_eq_zfill3]
  exact zfill3_ne_nil _

theorem numField_nonspace (c : SfsCore) : ∀ x ∈ c.numField, isPySpace x = false := by
  rw [numField_eq_zfill3]
  exact zfill3_nonspace _

theorem numField_isDigits (c : SfsCore) : isDigits c.numField = true := by
  rw [numField_eq_zfill3]
  exact zfill3_isDigits _

theorem pyInt_numField (c : SfsCore) : pyInt c.numField = c.event_number.getD 1 := by
  rw [numField_eq_zfill3]
  exact pyInt_zfill3 _

theorem wTok_nonspace (n : Nat) : ∀ x ∈ 'W' :: pyZfill 3 (natToStr n), isPySpace x = false := by
  intro x hx
  rcases List.mem_cons.mp hx with h1 | h1
  · rw [h1]
    decide
  · exact zfill3_nonspace n x h1

theorem lex_render_cut (c : SfsCore) (h : GoodCore c) :
    lexLine (Sfs.render (.cut c)) = (0, cutToks c) := by
  obtain ⟨⟨hrne, hrns, _⟩, htrk, hr1, hr2, _⟩ := h
  rw [render_cut_tg]
  apply lexLine_tgJoin
  · intro tg htg
    simp only [cutToks, List.mem_cons, List.not_mem_nil, or_false] at htg
    rcases htg with rfl | rfl | rfl | rfl | rfl | rfl | rfl | rfl
    · exact ⟨numField_ne_nil c, numField_nonspace c⟩
    · exact ⟨hrne, hrns⟩
    · exact ⟨trackName_ne_nil _, trackName_nonspace _⟩
    · exact ⟨by decide, by decide⟩
    · exact ⟨tcRender_ne_nil _, tcRender_nonspace _⟩
    · exact ⟨tcRender_ne_nil _, tcRender_nonspace _⟩
    · exact ⟨tcRender_ne_nil _, tcRender_nonspace _⟩
    · exact ⟨tcRender_ne_nil _, tcRender_nonspace _⟩
  · intro tg htg
    simp only [cutToks, List.dropLast, List.mem_cons, List.not_mem_nil, or_false] at htg
    rcases htg with rfl | rfl | rfl | rfl | rfl | rfl | rfl <;> dsimp only <;> omega
  · simp [cutToks]

theorem lex_render_dissolve (c : SfsCore) (len : Nat) (h : GoodCore c) :
    lexLine (Sfs.render (.dissolve c len)) = (0, dissolveToks c len) := by
  obtain ⟨⟨hrne, hrns, _⟩, htrk, hr1, hr2, _⟩ := h
  rw [render_dissolve_tg]
  apply lexLine_tgJoin
  · intro tg htg
    simp only [dissolveToks, List.mem_cons, List.not_mem_nil, or_false] at htg
    rcases htg with rfl | rfl | rfl | rfl | rfl | rfl | rfl | rfl | rfl
    · exact ⟨numField_ne_nil c, numField_nonspace c⟩
    · exact ⟨hrne, hrns⟩
    · exact ⟨trackName_ne_nil _, trackName_nonspace _⟩
    · exact ⟨by decide, by decide⟩
    · exact ⟨zfill3_ne_nil _, zfill3_nonspace _⟩
    · exact ⟨tcRender_ne_nil _, tcRender_nonspace _⟩
    · exact ⟨tcRender_ne_nil _, tcRender_nonspace _⟩
    · exact ⟨tcRender_ne_nil _, tcRender_nonspace _⟩
    · exact ⟨tcRender_ne_nil _, tcRender_nonspace _⟩
  · intro tg htg
    simp only [dissolveToks, List.dropLast, List.mem_cons, List.not_mem_nil, or_false] at htg
    rcases htg with rfl | rfl | rfl | rfl | rfl | rfl | rfl | rfl <;> dsimp only <;> omega
  · simp [dissolveToks]

theorem lex_render_wipe (c : SfsCore) (len wid : Nat) (h : GoodCore c) :
    lexLine (Sfs.render (.wipe c len wid)) = (0, wipeToks c len wid) := by
  obtain ⟨⟨hrne, hrns, _⟩, htrk, hr1, hr2, _⟩ := h
  rw [render_wipe_tg]
  apply lexLine_tgJoin
  · intro tg htg
    simp only [wipeToks, List.mem_cons, List.not_mem_nil, or_false] at htg
    rcases htg with rfl | rfl | rfl | rfl | rfl | rfl | rfl | rfl | rfl
    · exact ⟨numField_ne_nil c, numField_nonspace c⟩
    · exact ⟨hrne, hrns⟩
    · exact ⟨trackName_ne_nil _, trackName_nonspace _⟩
    · exact ⟨by simp, wTok_nonspace wid⟩
    · exact ⟨zfill3_ne_nil _, zfill3_nonspace _⟩
    · exact ⟨tcRender_ne_nil _, tcRender_nonspace _⟩
    · exact ⟨tcRender_ne_nil _, tcRender_nonspace _⟩
    · exact ⟨tcRender_ne_nil _, tcRender_nonspace _⟩
    · exact ⟨tcRender_ne_nil _, tcRender_nonspace _⟩
  · intro tg htg
    simp only [wipeToks, List.dropLast, List.mem_cons, List.not_mem_nil, or_false] at htg
    rcases htg with rfl | rfl | rfl | rfl | rfl | rfl | rfl | rfl <;> dsimp only <;> omega
  · simp [wipeToks]

theorem lex_render_keyFg (c : SfsCore) (len : Nat) (h : GoodCore c) :
    lexLine (Sfs.render (.keyFg c len)) = (0, keyFgToks c len) := by
  obtain ⟨⟨hrne, hrns, _⟩, htrk, hr1, hr2, _⟩ := h
  rw [render_keyFg_tg]
  apply lexLine_tgJoin
  · intro tg htg
    simp only [keyFgToks, List.mem_cons, List.not_mem_nil, or_false] at htg
    rcases htg with rfl | rfl | rfl | rfl | rfl | rfl | rfl | rfl | rfl
    · exact ⟨numField_ne_nil c, numField_nonspace c⟩
    · exact ⟨hrne, hrns⟩
    · exact ⟨trackName_ne_nil _, trackName_nonspace _⟩
    · exact ⟨by decide, by decide⟩
    · exact ⟨zfill3_ne_nil _, zfill3_nonspace _⟩
    · exact ⟨tcRender_ne_nil _, tcRender_nonspace _⟩
    · exact ⟨tcRender_ne_nil _, tcRender_nonspace _⟩
    · exact ⟨tcRender_ne_nil _, tcRender_nonspace _⟩
    · exact ⟨tcRender_ne_nil _, tcRender_nonspace _⟩
  · intro tg htg
    simp only [keyFgToks, List.dropLast, List.mem_cons, List.not_mem_nil, or_false] at htg
    rcases htg with rfl | rfl | rfl | rfl | rfl | rfl | rfl | rfl <;> dsimp only <;> omega
  · simp [keyFgToks]

theorem lex_render_keyBg (c : SfsCore) (fade : Bool) (h : GoodCore c) :
    lexLine (Sfs.render (.keyBg c fade)) = (0, keyBgToks c fade) := by
  obtain ⟨⟨hrne, hrns, _⟩, htrk, hr1, hr2, _⟩ := h
  rw [render_keyBg_tg]
  apply lexLine_tgJoin
  · intro tg htg
    rcases fade with _ | _ <;>
      simp only [keyBgToks, if_pos, if_neg (Bool.false_ne_true), List.cons_append,
        List.nil_append, List.mem_cons, List.not_mem_nil, or_false] at htg
    · rcases htg with rfl | rfl | rfl | rfl | rfl | rfl | rfl | rfl | rfl
      · exact ⟨numField_ne_nil c, numField_nonspace c⟩
      · exact ⟨hrne, hrns⟩
      · exact ⟨trackName_ne_nil _, trackName_nonspace _⟩
      · exact ⟨by decide, by decide⟩
      · exact ⟨by decide, by decide⟩
      · exact ⟨tcRender_ne_nil _, tcRender_nonspace _⟩
      · exact ⟨tcRender_ne_nil _, tcRender_nonspace _⟩
      · exact ⟨tcRender_ne_nil _, tcRender_nonspace _⟩
      · exact ⟨tcRender_ne_nil _, tcRender_nonspace _⟩
    · rcases htg with rfl | rfl | rfl | rfl | rfl | rfl | rfl | rfl | rfl | rfl
      · exact ⟨numField_ne_nil c, numField_nonspace c⟩
      · exact ⟨hrne, hrns⟩
      · exact ⟨trackName_ne_nil _, trackName_nonspace _⟩
      · exact ⟨by decide, by decide⟩
      · exact ⟨by decide, by decide⟩
      · exact ⟨by decide, by decide⟩
      · exact ⟨tcRender_ne_nil _, tcRender_nonspace _⟩
      · exact ⟨tcRender_ne_nil _, tcRender_nonspace _⟩
      · exact ⟨tcRender_ne_nil _, tcRender_nonspace _⟩
      · exact ⟨tcRender_ne_nil _, tcRender_nonspace _⟩
  · intro tg htg
    rcases fade with _ | _ <;>
      simp only [keyBgToks, if_pos, if_neg (Bool.false_ne_true), List.cons_append,
        List.nil_append, List.dropLast, List.mem_cons, List.not_mem_nil, or_false] at htg
    · rcases htg with rfl | rfl | rfl | rfl | rfl | rfl | rfl | rfl <;> dsimp only <;> omega
    · rcases htg with rfl | rfl | rfl | rfl | rfl | rfl | rfl | rfl | rfl <;>
        dsimp only <;> omega
  · rcases fade with _ | _ <;> simp [keyBgToks]

theorem lex_render_nfs (n : Nfs) (h : GoodNfs n) :
    lexLine (Nfs.render n) = (0, nfsToks n) := by
  obtain ⟨⟨hrne, hrns, _⟩, hgt⟩ := h
  rw [render_nfs_tg]
  apply lexLine_tgJoin
  · intro tg htg
    simp only [nfsToks, List.mem_cons, List.not_mem_nil, or_false] at htg
    rcases htg with rfl | rfl | rfl | rfl
    · exact ⟨by decide, by decide⟩
    · exact ⟨hrne, hrns⟩
    · exact ⟨speedTok_ne_nil _, speedTok_nonspace _⟩
    · exact ⟨tcRender_ne_nil _, tcRender_nonspace _⟩
  · intro tg htg
    simp only [nfsToks, List.dropLast, List.mem_cons, List.not_mem_nil, or_false] at htg
    rcases htg with rfl | rfl | rfl <;> dsimp only <;> omega
  · simp [nfsToks]

theorem isTcTok_render (t : Timecode) (h : GoodTc t) : isTcTok t.render = true := by
  unfold isTcTok
  rw [parseTc_render t h.1 h.2.1 h.2.2.1 h.2.2.2]
  rfl

theorem cutPat_render (c : SfsCore) (h : GoodCore c) :
    cutPat (Sfs.render (.cut c)) = some ⟨c.numField, c.reel.name, c.track.name,
      c.timecode_source.start.render, c.timecode_source.stop.render,
      c.timecode_record.start.render, c.timecode_record.stop.render⟩ := by
  have hred : cutPat (Sfs.render (.cut c)) =
      (if (isDigits c.numField && isTrackTok c.track.name &&
          decide (pyUpper (str "C") = str "C") &&
          isTcTok c.timecode_source.start.render && isTcTok c.timecode_source.stop.render &&
          isTcTok c.timecode_record.start.render && isTcTok c.timecode_record.stop.render)
        = true then
        some ⟨c.numField, c.reel.name, c.track.name, c.timecode_source.start.render,
          c.timecode_source.stop.render, c.timecode_record.start.render,
          c.timecode_record.stop.render⟩
      else none) := by
    unfold cutPat
    rw [lex_render_cut c h]
    rfl
  rw [hred]
  obtain ⟨hreel, htrk, hr1, hr2, hev⟩ := h
  rw [if_pos (by
    rw [numField_isDigits, isTrackTok_name _ htrk, isTcTok_render _ hr1.1,
      isTcTok_render _ hr1.2.1, isTcTok_render _ hr2.1, isTcTok_render _ hr2.2.1]
    rfl)]

theorem mkRange_self (r : TimecodeRange) (h : r.start.frames ≤ r.stop.frames) :
    mkRange r.start r.stop = some r := by
  unfold mkRange
  rw [if_pos h]

theorem mkSfsCore_render (c : SfsCore) (h : GoodCore c) :
    mkSfsCore ⟨c.numField, c.reel.name, c.track.name, c.timecode_source.start.render,
      c.timecode_source.stop.render, c.timecode_record.start.render,
      c.timecode_record.stop.render⟩ = .ok (roundCore c) := by
  obtain ⟨⟨hrne, hrns, hrfs⟩, htrk, ⟨hgt1, hgt2, hle1⟩, ⟨hgt3, hgt4, hle2⟩, hev⟩ := h
  unfold mkSfsCore
  dsimp only
  simp only [ofName_name c.track htrk,
    parseTc_render c.timecode_source.start hgt1.1 hgt1.2.1 hgt1.2.2.1 hgt1.2.2.2,
    parseTc_render c.timecode_source.stop hgt2.1 hgt2.2.1 hgt2.2.2.1 hgt2.2.2.2,
    parseTc_render c.timecode_record.start hgt3.1 hgt3.2.1 hgt3.2.2.1 hgt3.2.2.2,
    parseTc_render c.timecode_record.stop hgt4.1 hgt4.2.1 hgt4.2.2.1 hgt4.2.2.2,
    mkRange_self c.timecode_source hle1, mkRange_self c.timecode_record hle2, hrfs,
    pyInt_numField]
  rfl

theorem sfsParseLine_render_cut (c : SfsCore) (h : GoodCore c) :
    sfsParseLine (Sfs.render (.cut c)) = some (.ok (Sfs.cut (roundCore c))) := by
  unfold sfsParseLine
  simp only [cutPat_render c h, mkSfsCore_render c h]

theorem dissolvePat_render (c : SfsCore) (len : Nat) (h : GoodCore c) :
    dissolvePat (Sfs.render (.dissolve c len)) = some (⟨c.numField, c.reel.name, c.track.name,
      c.timecode_source.start.render, c.timecode_source.stop.render,
      c.timecode_record.start.render, c.timecode_record.stop.render⟩,
      pyZfill 3 (natToStr len)) := by
  have hred : dissolvePat (Sfs.render (.dissolve c len)) =
      (if (isDigits c.numField && isTrackTok c.track.name &&
          decide (pyUpper (str "D") = str "D") && isDigits (pyZfill 3 (natToStr len)) &&
          isTcTok c.timecode_source.start.render && isTcTok c.timecode_source.stop.render &&
          isTcTok c.timecode_record.start.render && isTcTok c.timecode_record.stop.render)
        = true then
        some (⟨c.numField, c.reel.name, c.track.name, c.timecode_source.start.render,
          c.timecode_source.stop.render, c.timecode_record.start.render,
          c.timecode_record.stop.render⟩, pyZfill 3 (natToStr len))
      else none) := by
    unfold dissolvePat
    rw [lex_render_dissolve c len h]
    rfl
  rw [hred]
  obtain ⟨hreel, htrk, hr1, hr2, hev⟩ := h
  rw [if_pos (by
    rw [numField_isDigits, isTrackTok_name _ htrk, zfill3_isDigits, isTcTok_render _ hr1.1,
      isTcTok_render _ hr1.2.1, isTcTok_render _ hr2.1, isTcTok_render _ hr2.2.1]
    rfl)]

theorem cutPat_render_dissolve (c : SfsCore) (len : Nat) (h : GoodCore c) :
    cutPat (Sfs.render (.dissolve c len)) = none := by
  unfold cutPat
  rw [lex_render_dissolve c len h]
  rfl

theorem sfsParseLine_render_dissolve (c : SfsCore) (len : Nat) (h : GoodCore c) :
    sfsParseLine (Sfs.render (.dissolve c len)) =
      some (.ok (Sfs.dissolve (roundCore c) len)) := by
  unfold sfsParseLine
  simp only [cutPat_render_dissolve c len h, dissolvePat_render c len h,
    mkSfsCore_render c h, pyInt_zfill3]

theorem wTok_not_D (n : Nat) : pyUpper ('W' :: pyZfill 3 (natToStr n)) ≠ str "D" := by
  intro h
  replace h : toUpperCh 'W' :: pyUpper (pyZfill 3 (natToStr n)) = 'D' :: ([] : Str) := h
  injection h with h1 h2
  exact absurd h1 (by decide)

theorem cutPat_render_wipe (c : SfsCore) (len wid : Nat) (h : GoodCore c) :
    cutPat (Sfs.render (.wipe c len wid)) = none := by
  unfold cutPat
  rw [lex_render_wipe c len wid h]
  rfl

theorem dissolvePat_render_wipe (c : SfsCore) (len wid : Nat) (h : GoodCore c) :
    dissolvePat (Sfs.render (.wipe c len wid)) = none := by
  have hred : dissolvePat (Sfs.render (.wipe c len wid)) =
      (if (isDigits c.numField && isTrackTok c.track.name &&
          decide (pyUpper ('W' :: pyZfill 3 (natToStr wid)) = str "D") &&
          isDigits (pyZfill 3 (natToStr len)) &&
          isTcTok c.timecode_source.start.render && isTcTok c.timecode_source.stop.render &&
          isTcTok c.timecode_record.start.render && isTcTok c.timecode_record.stop.render)
        = true then
        some (⟨c.numField, c.reel.name, c.track.name, c.timecode_source.start.render,
          c.timecode_source.stop.render, c.timecode_record.start.render,
          c.timecode_record.stop.render⟩, pyZfill 3 (natToStr len))
      else none) := by
    unfold dissolvePat
    rw [lex_render_wipe c len wid h]
    rfl
  rw [hred]
  rw [if_neg (by
    intro hcc
    simp only [Bool.and_eq_true] at hcc
    exact absurd (of_decide_eq_true hcc.1.1.1.1.1.2) (wTok_not_D wid))]

theorem wipePat_render (c : SfsCore) (len wid : Nat) (h : GoodCore c) :
    wipePat (Sfs.render (.wipe c len wid)) = some (⟨c.numField, c.reel.name, c.track.name,
      c.timecode_source.start.render, c.timecode_source.stop.render,
      c.timecode_record.start.render, c.timecode_record.stop.render⟩,
      pyZfill 3 (natToStr wid), pyZfill 3 (natToStr len)) := by
  have hred : wipePat (Sfs.render (.wipe c len wid)) =
      (if (isDigits c.numField && isTrackTok c.track.name &&
          decide (toUpperCh 'W' = 'W') && isDigits (pyZfill 3 (natToStr wid)) &&
          isDigits (pyZfill 3 (natToStr len)) &&
          isTcTok c.timecode_source.start.render && isTcTok c.timecode_source.stop.render &&
          isTcTok c.timecode_record.start.render && isTcTok c.timecode_record.stop.render)
        = true then
        some (⟨c.numField, c.reel.name, c.track.name, c.timecode_source.start.render,
          c.timecode_source.stop.render, c.timecode_record.start.render,
          c.timecode_record.stop.render⟩, pyZfill 3 (natToStr wid), pyZfill 3 (natToStr len))
      else none) := by
    unfold wipePat
    rw [lex_render_wipe c len wid h]
    rfl
  rw [hred]
  obtain ⟨hreel, htrk, hr1, hr2, hev⟩ := h
  rw [if_pos (by
    rw [numField_isDigits, isTrackTok_name _ htrk, zfill3_isDigits wid, zfill3_isDigits len,
      isTcTok_render _ hr1.1, isTcTok_render _ hr1.2.1, isTcTok_render _ hr2.1,
      isTcTok_render _ hr2.2.1]
    rfl)]

theorem sfsParseLine_render_wipe (c : SfsCore) (len wid : Nat) (h : GoodCore c) :
    sfsParseLine (Sfs.render (.wipe c len wid)) =
      some (.ok (Sfs.wipe (roundCore c) len wid)) := by
  unfold sfsParseLine
  simp only [cutPat_render_wipe c len wid h, dissolvePat_render_wipe c len wid h,
    wipePat_render c len wid h, mkSfsCore_render c h, pyInt_zfill3]

theorem cutPat_render_keyFg (c : SfsCore) (len : Nat) (h : GoodCore c) :
    cutPat (Sfs.render (.keyFg c len)) = none := by
  unfold cutPat
  rw [lex_render_keyFg c len h]
  rfl

theorem dissolvePat_render_keyFg (c : SfsCore) (len : Nat) (h : GoodCore c) :
    dissolvePat (Sfs.render (.keyFg c len)) = none := by
  have hred : dissolvePat (Sfs.render (.keyFg c len)) =
      (if (isDigits c.numField && isTrackTok c.track.name &&
          decide (pyUpper (str "K") = str "D") && isDigits (pyZfill 3 (natToStr len)) &&
          isTcTok c.timecode_source.start.render && isTcTok c.timecode_source.stop.render &&
          isTcTok c.timecode_record.start.render && isTcTok c.timecode_record.stop.render)
        = true then
        some (⟨c.numField, c.reel.name, c.track.name, c.timecode_source.start.render,
          c.timecode_source.stop.render, c.timecode_record.start.render,
          c.timecode_record.stop.render⟩, pyZfill 3 (natToStr len))
      else none) := by
    unfold dissolvePat
    rw [lex_render_keyFg c len h]
    rfl
  rw [hred]
  rw [if_neg (by
    intro hcc
    simp only [Bool.and_eq_true] at hcc
    exact absurd hcc.1.1.1.1.1.2 (by decide))]

theorem wipePat_render_keyFg (c : SfsCore) (len : Nat) (h : GoodCore c) :
    wipePat (Sfs.render (.keyFg c len)) = none := by
  have hred : wipePat (Sfs.render (.keyFg c len)) =
      (if (isDigits c.numField && isTrackTok c.track.name &&
          decide (toUpperCh 'K' = 'W') && isDigits ([] : Str) &&
          isDigits (pyZfill 3 (natToStr len)) &&
          isTcTok c.timecode_source.start.render && isTcTok c.timecode_source.stop.render &&
          isTcTok c.timecode_record.start.render && isTcTok c.timecode_record.stop.render)
        = true then
        some (⟨c.numField, c.reel.name, c.track.name, c.timecode_source.start.render,
          c.timecode_source.stop.render, c.timecode_record.start.render,
          c.timecode_record.stop.render⟩, ([] : Str), pyZfill 3 (natToStr len))
      else none) := by
    unfold wipePat
    rw [lex_render_keyFg c len h]
    rfl
  rw [hred]
  rw [if_neg (by
    intro hcc
    simp only [Bool.and_eq_true] at hcc
    exact absurd hcc.1.1.1.1.1.1.2 (by decide))]

theorem keyFgPat_render (c : SfsCore) (len : Nat) (h : GoodCore c) :
    keyFgPat (Sfs.render (.keyFg c len)) = some (⟨c.numField, c.reel.name, c.track.name,
      c.timecode_source.start.render, c.timecode_source.stop.render,
      c.timecode_record.start.render, c.timecode_record.stop.render⟩,
      pyZfill 3 (natToStr len)) := by
  have hred : keyFgPat (Sfs.render (.keyFg c len)) =
      (if (isDigits c.numField && isTrackTok c.track.name &&
          decide (pyUpper (str "K") = str "K") && isDigits (pyZfill 3 (natToStr len)) &&
          isTcTok c.timecode_source.start.render && isTcTok c.timecode_source.stop.render &&
          isTcTok c.timecode_record.start.render && isTcTok c.timecode_record.stop.render)
        = true then
        some (⟨c.numField, c.reel.name, c.track.name, c.timecode_source.start.render,
          c.timecode_source.stop.render, c.timecode_record.start.render,
          c.timecode_record.stop.render⟩, pyZfill 3 (natToStr len))
      else none) := by
    unfold keyFgPat
    rw [lex_render_keyFg c len h]
    rfl
  rw [hred]
  obtain ⟨hreel, htrk, hr1, hr2, hev⟩ := h
  rw [if_pos (by
    rw [numField_isDigits, isTrackTok_name _ htrk, zfill3_isDigits len,
      isTcTok_render _ hr1.1, isTcTok_render _ hr1.2.1, isTcTok_render _ hr2.1,
      isTcTok_render _ hr2.2.1]
    rfl)]

theorem sfsParseLine_render_keyFg (c : SfsCore) (len : Nat) (h : GoodCore c) :
    sfsParseLine (Sfs.render (.keyFg c len)) =
      some (.ok (Sfs.keyFg (roundCore c) len)) := by
  unfold sfsParseLine
  simp only [cutPat_render_keyFg c len h, dissolvePat_render_keyFg c len h,
    wipePat_render_keyFg c len h, keyFgPat_render c len h, mkSfsCore_render c h,
    pyInt_zfill3]

theorem cutPat_render_keyBg (c : SfsCore) (fade : Bool) (h : GoodCore c) :
    cutPat (Sfs.render (.keyBg c fade)) = none := by
  unfold cutPat
  rw [lex_render_keyBg c fade h]
  rcases fade with _ | _ <;> rfl

theorem dissolvePat_render_keyBg (c : SfsCore) (fade : Bool) (h : GoodCore c) :
    dissolvePat (Sfs.render (.keyBg c fade)) = none := by
  rcases fade with _ | _
  · have hred : dissolvePat (Sfs.render (.keyBg c false)) =
        (if (isDigits c.numField && isTrackTok c.track.name &&
            decide (pyUpper (str "K") = str "D") && isDigits (str "B") &&
            isTcTok c.timecode_source.start.render && isTcTok c.timecode_source.stop.render &&
            isTcTok c.timecode_record.start.render && isTcTok c.timecode_record.stop.render)
          = true then
          some (⟨c.numField, c.reel.name, c.track.name, c.timecode_source.start.render,
            c.timecode_source.stop.render, c.timecode_record.start.render,
            c.timecode_record.stop.render⟩, str "B")
        else none) := by
      unfold dissolvePat
      rw [lex_render_keyBg c false h]
      rfl
    rw [hred]
    rw [if_neg (by
      intro hcc
      simp only [Bool.and_eq_true] at hcc
      exact absurd hcc.1.1.1.1.1.2 (by decide))]
  · unfold dissolvePat
    rw [lex_render_keyBg c true h]
    rfl

theorem wipePat_render_keyBg (c : SfsCore) (fade : Bool) (h : GoodCore c) :
    wipePat (Sfs.render (.keyBg c fade)) = none := by
  rcases fade with _ | _
  · have hred : wipePat (Sfs.render (.keyBg c false)) =
        (if (isDigits c.numField && isTrackTok c.track.name &&
            decide (toUpperCh 'K' = 'W') && isDigits ([] : Str) && isDigits (str "B") &&
            isTcTok c.timecode_source.start.render && isTcTok c.timecode_source.stop.render &&
            isTcTok c.timecode_record.start.render && isTcTok c.timecode_record.stop.render)
          = true then
          some (⟨c.numField, c.reel.name, c.track.name, c.timecode_source.start.render,
            c.timecode_source.stop.render, c.timecode_record.start.render,
            c.timecode_record.stop.render⟩, ([] : Str), str "B")
        else none) := by
      unfold wipePat
      rw [lex_render_keyBg c false h]
      rfl
    rw [hred]
    rw [if_neg (by
      intro hcc
      simp only [Bool.and_eq_true] at hcc
      exact absurd hcc.1.1.1.1.1.1.2 (by decide))]
  · unfold wipePat
    rw [lex_render_keyBg c true h]
    rfl

theorem keyFgPat_render_keyBg (c : SfsCore) (fade : Bool) (h : GoodCore c) :
    keyFgPat (Sfs.render (.keyBg c fade)) = none := by
  rcases fade with _ | _
  · have hred : keyFgPat (Sfs.render (.keyBg c false)) =
        (if (isDigits c.numField && isTrackTok c.track.name &&
            decide (pyUpper (str "K") = str "K") && isDigits (str "B") &&
            isTcTok c.timecode_source.start.render && isTcTok c.timecode_source.stop.render &&
            isTcTok c.timecode_record.start.render && isTcTok c.timecode_record.stop.render)
          = true then
          some (⟨c.numField, c.reel.name, c.track.name, c.timecode_source.start.render,
            c.timecode_source.stop.render, c.timecode_record.start.render,
            c.timecode_record.stop.render⟩, str "B")
        else none) := by
      unfold keyFgPat
      rw [lex_render_keyBg c false h]
      rfl
    rw [hred]
    rw [if_neg (by
      intro hcc
      simp only [Bool.and_eq_true] at hcc
      exact absurd hcc.1.1.1.1.2 (by decide))]
  · unfold keyFgPat
    rw [lex_render_keyBg c true h]
    rfl

theorem keyBgPat_render (c : SfsCore) (fade : Bool) (h : GoodCore c) :
    keyBgPat (Sfs.render (.keyBg c fade)) = some (⟨c.numField, c.reel.name, c.track.name,
      c.timecode_source.start.render, c.timecode_source.stop.render,
      c.timecode_record.start.render, c.timecode_record.stop.render⟩, fade) := by
  obtain ⟨hreel, htrk, hr1, hr2, hev⟩ := h
  have hfade : ∀ g4 : Nat, kbFade 7 [⟨c.timecode_source.start.render, 1⟩,
      ⟨c.timecode_source.stop.render, 1⟩, ⟨c.timecode_record.start.render, 1⟩,
      ⟨c.timecode_record.stop.render, g4⟩] =
      some (false, c.timecode_source.start.render, c.timecode_source.stop.render,
        c.timecode_record.start.render, c.timecode_record.stop.render) := by
    intro g4
    show (if (decide (7 ≥ 2) && isTcTok c.timecode_source.start.render &&
        isTcTok c.timecode_source.stop.render && isTcTok c.timecode_record.start.render &&
        isTcTok c.timecode_record.stop.render) = true then
        some (false, c.timecode_source.start.render, c.timecode_source.stop.render,
          c.timecode_record.start.render, c.timecode_record.stop.render)
      else none) = some (false, c.timecode_source.start.render, c.timecode_source.stop.render,
        c.timecode_record.start.render, c.timecode_record.stop.render)
    rw [if_pos (by
      rw [isTcTok_render _ hr1.1, isTcTok_render _ hr1.2.1, isTcTok_render _ hr2.1,
        isTcTok_render _ hr2.2.1]
      rfl)]
  have hfadeT : ∀ g4 : Nat, kbFade 2 [⟨str "(F)", 2⟩, ⟨c.timecode_source.start.render, 1⟩,
      ⟨c.timecode_source.stop.render, 1⟩, ⟨c.timecode_record.start.render, 1⟩,
      ⟨c.timecode_record.stop.render, g4⟩] =
      some (true, c.timecode_source.start.render, c.timecode_source.stop.render,
        c.timecode_record.start.render, c.timecode_record.stop.render) := by
    intro g4
    show (if (decide (pyUpper (str "(F)") = str "(F)") &&
        isTcTok c.timecode_source.start.render &&
        isTcTok c.timecode_source.stop.render && isTcTok c.timecode_record.start.render &&
        isTcTok c.timecode_record.stop.render) = true then
        some (true, c.timecode_source.start.render, c.timecode_source.stop.render,
          c.timecode_record.start.render, c.timecode_record.stop.render)
      else none) = some (true, c.timecode_source.start.render, c.timecode_source.stop.render,
        c.timecode_record.start.render, c.timecode_record.stop.render)
    rw [if_pos (by
      rw [isTcTok_render _ hr1.1, isTcTok_render _ hr1.2.1, isTcTok_render _ hr2.1,
        isTcTok_render _ hr2.2.1]
      rfl)]
  rcases fade with _ | _
  · have hred : keyBgPat (Sfs.render (.keyBg c false)) =
        (if (isDigits c.numField && isTrackTok c.track.name) = true then
          (match kbFade 7 [⟨c.timecode_source.start.render, 1⟩,
              ⟨c.timecode_source.stop.render, 1⟩, ⟨c.timecode_record.start.render, 1⟩,
              ⟨c.timecode_record.stop.render, 0⟩] with
          | some (fd, t1, t2, t3, t4) =>
            some (⟨c.numField, c.reel.name, c.track.name, t1, t2, t3, t4⟩, fd)
          | none => none)
        else none) := by
      unfold keyBgPat
      rw [lex_render_keyBg c false ⟨hreel, htrk, hr1, hr2, hev⟩]
      rfl
    rw [hred]
    rw [if_pos (by rw [numField_isDigits, isTrackTok_name _ htrk]; rfl)]
    simp only [hfade 0]
  · have hred : keyBgPat (Sfs.render (.keyBg c true)) =
        (if (isDigits c.numField && isTrackTok c.track.name) = true then
          (match kbFade 2 [⟨str "(F)", 2⟩, ⟨c.timecode_source.start.render, 1⟩,
              ⟨c.timecode_source.stop.render, 1⟩, ⟨c.timecode_record.start.render, 1⟩,
              ⟨c.timecode_record.stop.render, 0⟩] with
          | some (fd, t1, t2, t3, t4) =>
            some (⟨c.numField, c.reel.name, c.track.name, t1, t2, t3, t4⟩, fd)
          | none => none)
        else none) := by
      unfold keyBgPat
      rw [lex_render_keyBg c true ⟨hreel, htrk, hr1, hr2, hev⟩]
      rfl
    rw [hred]
    rw [if_pos (by rw [numField_isDigits, isTrackTok_name _ htrk]; rfl)]
    simp only [hfadeT 0]

theorem sfsParseLine_render_keyBg (c : SfsCore) (fade : Bool) (h : GoodCore c) :
    sfsParseLine (Sfs.render (.keyBg c fade)) =
      some (.ok (Sfs.keyBg (roundCore c) fade)) := by
  unfold sfsParseLine
  simp only [cutPat_render_keyBg c fade h, dissolvePat_render_keyBg c fade h,
    wipePat_render_keyBg c fade h, keyFgPat_render_keyBg c fade h,
    keyBgPat_render c fade h, mkSfsCore_render c h]

theorem contains_false_of_not_mem (l : Str) (c : Char) (h : c ∉ l) : l.contains c = false := by
  simp
  exact h

theorem not_mem_of_contains_false (l : Str) (c : Char) (h : l.contains c = false) : c ∉ l := by
  simp at h
  exact h

theorem tgJoin_no_newline (L : List TokG)
    (h : ∀ tg ∈ L, ∀ c ∈ tg.tok, isPySpace c = false) : '\n' ∉ tgJoin L := by
  induction L with
  | nil => simp [tgJoin]
  | cons x rest ih =>
    obtain ⟨t, g⟩ := x
    show '\n' ∉ t ++ spaces g ++ tgJoin rest
    intro hmem
    rcases List.mem_append.mp hmem with h1 | h1
    · rcases List.mem_append.mp h1 with h2 | h2
      · exact absurd (h ⟨t, g⟩ (by simp) '\n' h2) (by decide)
      · exact absurd (List.eq_of_mem_replicate h2) (by decide)
    · exact ih (fun tg htg => h tg (by simp [htg])) h1

theorem mem_tgJoin_head (t : Str) (g : Nat) (rest : List TokG) (x : Char) (hx : x ∈ t) :
    x ∈ tgJoin (⟨t, g⟩ :: rest) := by
  show x ∈ t ++ spaces g ++ tgJoin rest
  exact List.mem_append_left _ (List.mem_append_left _ hx)

theorem ne_nil_of_pySplit_cons (l t : Str) (ts : List Str) (h : pySplit l = t :: ts) :
    l ≠ [] := by
  intro habs
  rw [habs] at h
  exact absurd h (by simp [pySplit, lexLine, lexRaw])

theorem render_sfs_no_nl (s : Sfs) (h : GoodSfs s) : '\n' ∉ Sfs.render s := by
  obtain ⟨⟨hrne, hrns, _⟩, htrk, hr1, hr2, hev⟩ := h
  rcases s with c | ⟨c, len⟩ | ⟨c, len, wid⟩ | ⟨c, len⟩ | ⟨c, fade⟩
  · rw [render_cut_tg]
    apply tgJoin_no_newline
    intro tg htg
    simp only [cutToks, List.mem_cons, List.not_mem_nil, or_false] at htg
    rcases htg with rfl | rfl | rfl | rfl | rfl | rfl | rfl | rfl
    · exact numField_nonspace c
    · exact hrns
    · exact trackName_nonspace _
    · exact by decide
    · exact tcRender_nonspace _
    · exact tcRender_nonspace _
    · exact tcRender_nonspace _
    · exact tcRender_nonspace _
  · rw [render_dissolve_tg]
    apply tgJoin_no_newline
    intro tg htg
    simp only [dissolveToks, List.mem_cons, List.not_mem_nil, or_false] at htg
    rcases htg with rfl | rfl | rfl | rfl | rfl | rfl | rfl | rfl | rfl
    · exact numField_nonspace c
    · exact hrns
    · exact trackName_nonspace _
    · exact by decide
    · exact zfill3_nonspace _
    · exact tcRender_nonspace _
    · exact tcRender_nonspace _
    · exact tcRender_nonspace _
    · exact tcRender_nonspace _
  · rw [render_wipe_tg]
    apply tgJoin_no_newline
    intro tg htg
    simp only [wipeToks, List.mem_cons, List.not_mem_nil, or_false] at htg
    rcases htg with rfl | rfl | rfl | rfl | rfl | rfl | rfl | rfl | rfl
    · exact numField_nonspace c
    · exact hrns
    · exact trackName_nonspace _
    · exact wTok_nonspace wid
    · exact zfill3_nonspace _
    · exact tcRender_nonspace _
    · exact tcRender_nonspace _
    · exact tcRender_nonspace _
    · exact tcRender_nonspace _
  · rw [render_keyFg_tg]
    apply tgJoin_no_newline
    intro tg htg
    simp only [keyFgToks, List.mem_cons, List.not_mem_nil, or_false] at htg
    rcases htg with rfl | rfl | rfl | rfl | rfl | rfl | rfl | rfl | rfl
    · exact numField_nonspace c
    · exact hrns
    · exact trackName_nonspace _
    · exact by decide
    · exact zfill3_nonspace _
    · exact tcRender_nonspace _
    · exact tcRender_nonspace _
    · exact tcRender_nonspace _
    · exact tcRender_nonspace _
  · rw [render_keyBg_tg]
    apply tgJoin_no_newline
    intro tg htg
    rcases fade with _ | _ <;>
      simp only [keyBgToks, if_pos, if_neg (Bool.false_ne_true), List.cons_append,
        List.nil_append, List.mem_cons, List.not_mem_nil, or_false] at htg
    · rcases htg with rfl | rfl | rfl | rfl | rfl | rfl | rfl | rfl | rfl
      · exact numField_nonspace c
      · exact hrns
      · exact trackName_nonspace _
      · exact by decide
      · exact by decide
      · exact tcRender_nonspace _
      · exact tcRender_nonspace _
      · exact tcRender_nonspace _
      · exact tcRender_nonspace _
    · rcases htg with rfl | rfl | rfl | rfl | rfl | rfl | rfl | rfl | rfl | rfl
      · exact numField_nonspace c
      · exact hrns
      · exact trackName_nonspace _
      · exact by decide
      · exact by decide
      · exact by decide
      · exact tcRender_nonspace _
      · exact tcRender_nonspace _
      · exact tcRender_nonspace _
      · exact tcRender_nonspace _

theorem render_nfs_no_nl (n : Nfs) (h : GoodNfs n) : '\n' ∉ Nfs.render n := by
  obtain ⟨⟨hrne, hrns, _⟩, hgt⟩ := h
  rw [render_nfs_tg]
  apply tgJoin_no_newline
  intro tg htg
  simp only [nfsToks, List.mem_cons, List.not_mem_nil, or_false] at htg
  rcases htg with rfl | rfl | rfl | rfl
  · exact by decide
  · exact hrns
  · exact speedTok_nonspace _
  · exact tcRender_nonspace _

theorem isEmpty_false_of_ne_nil (l : Str) (h : l ≠ []) : l.isEmpty = false := by
  cases l with
  | nil => exact absurd rfl h
  | cons a t => rfl

/-- Everything the segmentation and classification loops need to know
about a rendered standard-form line. -/
theorem render_sfs_facts (s : Sfs) (h : GoodSfs s) :
    identifyLine (Sfs.render s) = .ok (.sfs (roundSfs s)) ∧
    lineTokNum (Sfs.render s) = some (numOf s) ∧
    (pyStrip (Sfs.render s)).isEmpty = false ∧
    Sfs.render s ≠ [] ∧ '\n' ∉ Sfs.render s ∧
    (∃ ts, pySplit (Sfs.render s) = s.core.numField :: ts) := by
  have hsplit : ∃ ts, pySplit (Sfs.render s) = s.core.numField :: ts := by
    rcases s with c | ⟨c, len⟩ | ⟨c, len, wid⟩ | ⟨c, len⟩ | ⟨c, fade⟩
    · exact ⟨_, by unfold pySplit; rw [lex_render_cut c h]; rfl⟩
    · exact ⟨_, by unfold pySplit; rw [lex_render_dissolve c len h]; rfl⟩
    · exact ⟨_, by unfold pySplit; rw [lex_render_wipe c len wid h]; rfl⟩
    · exact ⟨_, by unfold pySplit; rw [lex_render_keyFg c len h]; rfl⟩
    · rcases fade with _ | _
      · exact ⟨_, by unfold pySplit; rw [lex_render_keyBg c false h]; rfl⟩
      · exact ⟨_, by unfold pySplit; rw [lex_render_keyBg c true h]; rfl⟩
  have hid : identifyLine (Sfs.render s) = .ok (.sfs (roundSfs s)) := by
    rcases s with c | ⟨c, len⟩ | ⟨c, len, wid⟩ | ⟨c, len⟩ | ⟨c, fade⟩
    · unfold identifyLine
      simp only [sfsParseLine_render_cut c h]
      rfl
    · unfold identifyLine
      simp only [sfsParseLine_render_dissolve c len h]
      rfl
    · unfold identifyLine
      simp only [sfsParseLine_render_wipe c len wid h]
      rfl
    · unfold identifyLine
      simp only [sfsParseLine_render_keyFg c len h]
      rfl
    · unfold identifyLine
      simp only [sfsParseLine_render_keyBg c fade h]
      rfl
  have hmem : ∃ x, x ∈ Sfs.render s ∧ isPySpace x = false := by
    obtain ⟨x, xs, hnf, hxd⟩ := numField_head_digit s.core
    refine ⟨x, ?_, not_space_of_digit x hxd⟩
    have hxin : x ∈ s.core.numField := by
      rw [hnf]
      simp
    rcases s with c | ⟨c, len⟩ | ⟨c, len, wid⟩ | ⟨c, len⟩ | ⟨c, fade⟩
    · rw [render_cut_tg]
      exact mem_tgJoin_head _ _ _ x hxin
    · rw [render_dissolve_tg]
      exact mem_tgJoin_head _ _ _ x hxin
    · rw [render_wipe_tg]
      exact mem_tgJoin_head _ _ _ x hxin
    · rw [render_keyFg_tg]
      exact mem_tgJoin_head _ _ _ x hxin
    · rw [render_keyBg_tg]
      exact mem_tgJoin_head _ _ _ x hxin
  obtain ⟨ts, hs⟩ := hsplit
  obtain ⟨x, hx1, hx2⟩ := hmem
  refine ⟨hid, ?_, ?_, ne_nil_of_pySplit_cons _ _ _ hs, render_sfs_no_nl s h, ⟨ts, hs⟩⟩
  · rw [lineTokNum_eq _ _ _ hs]
    rw [if_pos (by rw [pyIsNumeric_eq_isDigits, numField_isDigits])]
    rw [pyInt_numField]
    rfl
  · exact isEmpty_false_of_ne_nil _ (pyStrip_ne_nil_of_mem _ x hx1 hx2)

theorem baseValidate_spec (l : Str) (c : Char) (t : Str) (rest : List Str)
    (hsp : pySplit l = (c :: t) :: rest) (h1 : (pyStrip l).isEmpty = false)
    (h2 : l.contains '\n' = false) (h3 : isDigitCh c = false) :
    baseValidate l = some true := by
  unfold baseValidate
  rw [hsp]
  show some (!(pyStrip l).isEmpty && !l.contains '\n' && !isDigitCh c) = some true
  rw [h1, h2, h3]
  rfl

theorem sfsParseLine_render_nfs (n : Nfs) (h : GoodNfs n) :
    sfsParseLine (Nfs.render n) = none := by
  have hcut : cutPat (Nfs.render n) = none := by
    unfold cutPat
    rw [lex_render_nfs n h]
    rfl
  have hdis : dissolvePat (Nfs.render n) = none := by
    unfold dissolvePat
    rw [lex_render_nfs n h]
    rfl
  have hwip : wipePat (Nfs.render n) = none := by
    unfold wipePat
    rw [lex_render_nfs n h]
    rfl
  have hkfg : keyFgPat (Nfs.render n) = none := by
    unfold keyFgPat
    rw [lex_render_nfs n h]
    rfl
  have hkbg : keyBgPat (Nfs.render n) = none := by
    have hred : keyBgPat (Nfs.render n) =
        (if (isDigits (str "M2") && isTrackTok (speedTok n.speed)) = true then
          (match kbEvType [⟨n.tc_start.render, 0⟩] with
          | some (gapB, rest') =>
            match kbFade gapB rest' with
            | some (fd, t1, t2, t3, t4) =>
              some (⟨str "M2", n.reel.name, speedTok n.speed, t1, t2, t3, t4⟩, fd)
            | none => none
          | none => none)
        else none) := by
      unfold keyBgPat
      rw [lex_render_nfs n h]
      rfl
    rw [hred]
    rw [if_neg (by
      intro hcc
      rw [Bool.and_eq_true] at hcc
      exact absurd hcc.1 (by decide))]
  unfold sfsParseLine
  simp only [hcut, hdis, hwip, hkfg, hkbg]

theorem m2Pat_render_nfs (n : Nfs) (h : GoodNfs n) : m2Pat (Nfs.render n) = none := by
  have hred : m2Pat (Nfs.render n) =
      (if (decide (pyUpper (str "M2") = str "M2") && !(speedTok n.speed).isEmpty &&
          (speedTok n.speed).all isSpeedCh && isTcTok n.tc_start.render &&
          (decide ((0 : Nat) ≥ 1) || !(List.isEmpty ([] : List TokG)))) = true then
        some (n.reel.name, speedTok n.speed, n.tc_start.render)
      else none) := by
    unfold m2Pat
    rw [lex_render_nfs n h]
    rfl
  rw [hred]
  rw [if_neg (by
    intro hcc
    rw [Bool.and_eq_true] at hcc
    exact absurd hcc.2 (by decide))]

/-- Everything the loops need to know about a rendered note line: it
re-reads as a standard comment holding the line verbatim. -/
theorem render_nfs_facts (n : Nfs) (h : GoodNfs n) :
    identifyLine (Nfs.render n) = .ok (.comment (.standard (Nfs.render n))) ∧
    lineTokNum (Nfs.render n) = none ∧
    (pyStrip (Nfs.render n)).isEmpty = false ∧
    Nfs.render n ≠ [] ∧ '\n' ∉ Nfs.render n ∧
    (∃ t ts, pySplit (Nfs.render n) = t :: ts ∧ pyIsNumeric t = false) := by
  have hsp : pySplit (Nfs.render n) =
      ('M' :: ['2']) :: [n.reel.name, speedTok n.speed, n.tc_start.render] := by
    unfold pySplit
    rw [lex_render_nfs n h]
    rfl
  have hnl := render_nfs_no_nl n h
  have hstrip : (pyStrip (Nfs.render n)).isEmpty = false := by
    refine isEmpty_false_of_ne_nil _ (pyStrip_ne_nil_of_mem _ 'M' ?_ (by decide))
    rw [render_nfs_tg]
    exact mem_tgJoin_head _ _ _ 'M' (by decide)
  have hbase : baseValidate (Nfs.render n) = some true :=
    baseValidate_spec _ 'M' ['2'] _ hsp hstrip (contains_false_of_not_mem _ _ hnl) (by decide)
  have hfp : fieldPatMatch (Nfs.render n) = false := rfl
  have hfv : fieldValidate (Nfs.render n) = some false := by
    unfold fieldValidate
    rw [hbase]
    show some (true && fieldPatMatch (Nfs.render n)) = some false
    rw [hfp]
    rfl
  have hguard : ¬((!(Nfs.render n).isEmpty && isDigitCh ((Nfs.render n).headD ' ')) = true) := by
    rw [show isDigitCh ((Nfs.render n).headD ' ') = false from rfl]
    simp
  have hid : identifyLine (Nfs.render n) = .ok (.comment (.standard (Nfs.render n))) := by
    unfold identifyLine
    simp only [sfsParseLine_render_nfs n h]
    rw [if_neg hguard]
    unfold identifyTail
    simp only [m2Pat_render_nfs n h, hfv]
    have hstd : stdValidate (Nfs.render n) = some true := hbase
    simp only [hstd]
  refine ⟨hid, ?_, hstrip, ne_nil_of_pySplit_cons _ _ _ hsp, hnl,
    ⟨'M' :: ['2'], _, hsp, by decide⟩⟩
  rw [lineTokNum_eq _ _ _ hsp]
  rw [if_neg (by decide)]

/-- No standard-form pattern matches a line whose first token is not a
digit run. -/
theorem sfsParseLine_none_of_first (l t : Str) (g : Nat) (r : List TokG)
    (hlex : lexLine l = (0, ⟨t, g⟩ :: r)) (hd : isDigits t = false) :
    sfsParseLine l = none := by
  have hcut : cutPat l = none := by
    unfold cutPat
    rw [hlex]
    rcases r with _|⟨⟨t1,g1⟩,_|⟨⟨t2,g2⟩,_|⟨⟨t3,g3⟩,_|⟨⟨t4,g4⟩,_|⟨⟨t5,g5⟩,_|⟨⟨t6,g6⟩,
      _|⟨⟨t7,g7⟩,_|⟨⟨t8,g8⟩,r⟩⟩⟩⟩⟩⟩⟩⟩ <;> simp [hd]
  have hdis : dissolvePat l = none := by
    unfold dissolvePat
    rw [hlex]
    rcases r with _|⟨⟨t1,g1⟩,_|⟨⟨t2,g2⟩,_|⟨⟨t3,g3⟩,_|⟨⟨t4,g4⟩,_|⟨⟨t5,g5⟩,_|⟨⟨t6,g6⟩,
      _|⟨⟨t7,g7⟩,_|⟨⟨t8,g8⟩,_|⟨⟨t9,g9⟩,r⟩⟩⟩⟩⟩⟩⟩⟩⟩ <;> simp [hd]
  have hwip : wipePat l = none := by
    unfold wipePat
    rw [hlex]
    rcases r with _|⟨⟨t1,g1⟩,_|⟨⟨t2,g2⟩,_|⟨⟨t3,g3⟩,_|⟨⟨t4,g4⟩,_|⟨⟨t5,g5⟩,_|⟨⟨t6,g6⟩,
      _|⟨⟨t7,g7⟩,_|⟨⟨t8,g8⟩,_|⟨⟨t9,g9⟩,r⟩⟩⟩⟩⟩⟩⟩⟩⟩ <;> simp [hd]
    rcases t3 with _ | ⟨w, ws⟩ <;> rfl
  have hkfg : keyFgPat l = none := by
    unfold keyFgPat
    rw [hlex]
    rcases r with _|⟨⟨t1,g1⟩,_|⟨⟨t2,g2⟩,_|⟨⟨t3,g3⟩,_|⟨⟨t4,g4⟩,_|⟨⟨t5,g5⟩,_|⟨⟨t6,g6⟩,
      _|⟨⟨t7,g7⟩,_|⟨⟨t8,g8⟩,_|⟨⟨t9,g9⟩,r⟩⟩⟩⟩⟩⟩⟩⟩⟩ <;> simp [hd]
  have hkbg : keyBgPat l = none := by
    unfold keyBgPat
    rw [hlex]
    rcases r with _|⟨⟨t1,g1⟩,_|⟨⟨t2,g2⟩,r⟩⟩ <;> simp [hd]
  unfold sfsParseLine
  simp only [hcut, hdis, hwip, hkfg, hkbg]

/-- The note-form pattern does not match a line whose first token does
not upper-case to `M2`. -/
theorem m2Pat_none_of_first (l t : Str) (g : Nat) (r : List TokG)
    (hlex : lexLine l = (0, ⟨t, g⟩ :: r)) (hm : ¬(pyUpper t = str "M2")) :
    m2Pat l = none := by
  unfold m2Pat
  rw [hlex]
  rcases r with _|⟨⟨t1,g1⟩,_|⟨⟨t2,g2⟩,_|⟨⟨t3,g3⟩,r⟩⟩⟩ <;> simp [hm]

/-- The lexing of a field-comment line: the leading `*` is its own
token. -/
theorem lexLine_star (rest : Str) :
    ∃ k r', lexLine ('*' :: ' ' :: rest) = (0, ⟨['*'], k⟩ :: r') := by
  rcases hr : lexRaw rest with _ | ⟨⟨tk, gk⟩, rr⟩
  · refine ⟨1, [], ?_⟩
    unfold lexLine
    rw [show lexRaw ('*' :: ' ' :: rest) = lexStep '*' (lexStep ' ' (lexRaw rest)) from rfl, hr]
    rfl
  · rcases tk with _ | ⟨c0, tk'⟩
    · refine ⟨gk + 1, rr, ?_⟩
      unfold lexLine
      rw [show lexRaw ('*' :: ' ' :: rest) = lexStep '*' (lexStep ' ' (lexRaw rest)) from rfl, hr]
      rfl
    · refine ⟨1, ⟨c0 :: tk', gk⟩ :: rr, ?_⟩
      unfold lexLine
      rw [show lexRaw ('*' :: ' ' :: rest) = lexStep '*' (lexStep ' ' (lexRaw rest)) from rfl, hr]
      rfl

/-- Everything the loops need to know about a rendered comment line: it
re-reads as the re-classified comment. -/
theorem render_cmt_facts (c : Cmt) (h : GoodCmt c) :
    identifyLine (Cmt.render c) = .ok (.comment (reclassifyCmt c)) ∧
    lineTokNum (Cmt.render c) = none ∧
    (pyStrip (Cmt.render c)).isEmpty = false ∧
    Cmt.render c ≠ [] ∧ '\n' ∉ Cmt.render c ∧
    (∃ t ts, pySplit (Cmt.render c) = t :: ts ∧ pyIsNumeric t = false) := by
  rcases c with ⟨f, v⟩ | x
  · -- field comment
    obtain ⟨hf, hv⟩ := h
    obtain ⟨k, r', hlex0⟩ := lexLine_star ((f ++ str ": ") ++ v)
    have hlex : lexLine (Cmt.render (.field f v)) = (0, ⟨['*'], k⟩ :: r') := hlex0
    have hsp : pySplit (Cmt.render (.field f v)) = ('*' :: []) :: r'.map TokG.tok := by
      unfold pySplit
      rw [hlex]
      rfl
    have hnl : '\n' ∉ Cmt.render (.field f v) := by
      intro hmem
      replace hmem : '\n' ∈ ((str "* " ++ f) ++ str ": ") ++ v := hmem
      rcases List.mem_append.mp hmem with h1 | h1
      · rcases List.mem_append.mp h1 with h2 | h2
        · rcases List.mem_append.mp h2 with h3 | h3
          · exact absurd h3 (by decide)
          · exact hf h3
        · exact absurd h2 (by decide)
      · exact hv h1
    have hstrip : (pyStrip (Cmt.render (.field f v))).isEmpty = false := by
      refine isEmpty_false_of_ne_nil _ (pyStrip_ne_nil_of_mem _ '*' ?_ (by decide))
      show '*' ∈ ((str "* " ++ f) ++ str ": ") ++ v
      exact List.mem_append_left _ (List.mem_append_left _ (List.mem_append_left _ (by decide)))
    have hbase : baseValidate (Cmt.render (.field f v)) = some true :=
      baseValidate_spec _ '*' [] _ hsp hstrip (contains_false_of_not_mem _ _ hnl) (by decide)
    have hsfs : sfsParseLine (Cmt.render (.field f v)) = none :=
      sfsParseLine_none_of_first _ _ _ _ hlex (by decide)
    have hm2 : m2Pat (Cmt.render (.field f v)) = none :=
      m2Pat_none_of_first _ _ _ _ hlex (by decide)
    have hguard : ¬((!(Cmt.render (.field f v)).isEmpty &&
        isDigitCh ((Cmt.render (.field f v)).headD ' ')) = true) := by
      rw [show isDigitCh ((Cmt.render (.field f v)).headD ' ') = false from rfl]
      simp
    have hcol : ∃ p, splitFirstColon ((Cmt.render (.field f v)).drop 1) = some p := by
      apply splitFirstColon_some_of_mem
      show ':' ∈ ' ' :: ((f ++ str ": ") ++ v)
      refine List.mem_cons.mpr (Or.inr ?_)
      exact List.mem_append_left _ (List.mem_append_right _ (by decide))
    have hex : ∃ c', identifyTail (Cmt.render (.field f v)) = .ok (.comment c') := by
      unfold identifyTail
      simp only [hm2]
      cases hfp : fieldPatMatch (Cmt.render (.field f v))
      · have hfv : fieldValidate (Cmt.render (.field f v)) = some false := by
          unfold fieldValidate
          rw [hbase]
          show some (true && fieldPatMatch (Cmt.render (.field f v))) = some false
          rw [hfp]
          rfl
        simp only [hfv]
        have hstd : stdValidate (Cmt.render (.field f v)) = some true := hbase
        simp only [hstd]
        exact ⟨.standard (Cmt.render (.field f v)), rfl⟩
      · have hfv : fieldValidate (Cmt.render (.field f v)) = some true := by
          unfold fieldValidate
          rw [hbase]
          show some (true && fieldPatMatch (Cmt.render (.field f v))) = some true
          rw [hfp]
          rfl
        simp only [hfv]
        obtain ⟨⟨a, b⟩, hp⟩ := hcol
        have hff : fieldFromString (Cmt.render (.field f v)) =
            .ok (.field (pyStrip a) (pyStrip b)) := by
          unfold fieldFromString
          rw [hp]
        simp only [hff]
        exact ⟨.field (pyStrip a) (pyStrip b), rfl⟩
    obtain ⟨c', hc'⟩ := hex
    have hid : identifyLine (Cmt.render (.field f v)) = .ok (.comment c') := by
      unfold identifyLine
      simp only [hsfs]
      rw [if_neg hguard]
      exact hc'
    have hrc : reclassifyCmt (.field f v) = c' := by
      unfold reclassifyCmt
      simp only [hid]
    refine ⟨by rw [hrc]; exact hid, ?_, hstrip, ne_nil_of_pySplit_cons _ _ _ hsp, hnl,
      ⟨'*' :: [], _, hsp, by decide⟩⟩
    rw [lineTokNum_eq _ _ _ hsp]
    rw [if_neg (by decide)]
  · -- standard comment
    obtain ⟨hid0, hstd⟩ := h
    have hbase : baseValidate x = some true := hstd
    obtain ⟨⟨ch, t, rest, hsp, hdig⟩, hstrip, hcont⟩ := baseValidate_true_inv x hbase
    have hid : identifyLine (Cmt.render (.standard x)) = .ok (.comment (.standard x)) := hid0
    have hrc : reclassifyCmt (.standard x) = .standard x := by
      unfold reclassifyCmt
      simp only [Cmt.render, hid0]
    refine ⟨by rw [hrc]; exact hid, ?_, hstrip, ne_nil_of_pySplit_cons _ _ _ hsp, ?_,
      ⟨ch :: t, rest, hsp, pyIsNumeric_false_of_head ch t hdig⟩⟩
    · exact lineTokNum_none_of_base x hbase
    · exact not_mem_of_contains_false x '\n' hcont

theorem classify_cmts (cs : List Cmt) (h : ∀ c ∈ cs, GoodCmt c) :
    classifyLines (cs.map Cmt.render) = .ok ([], [], cs.map reclassifyCmt) := by
  induction cs with
  | nil => rfl
  | cons c cs ih =>
    obtain ⟨hid, hltn, hstrip, hne, hnl, hts⟩ := render_cmt_facts c (h c (by simp))
    rw [List.map_cons]
    simp only [classifyLines]
    rw [if_neg (by rw [hstrip]; simp)]
    simp only [hid, ih (fun x hx => h x (by simp [hx]))]
    rfl

theorem classify_nfs_append (ns : List Nfs) (rest : List Str) (b : List Nfs) (cl : List Cmt)
    (h : ∀ n ∈ ns, GoodNfs n) (hrest : classifyLines rest = .ok ([], b, cl)) :
    classifyLines (ns.map Nfs.render ++ rest) =
      .ok ([], b, ns.map (fun n => Cmt.standard (Nfs.render n)) ++ cl) := by
  induction ns with
  | nil =>
    simp only [List.map_nil, List.nil_append]
    exact hrest
  | cons n ns ih =>
    obtain ⟨hid, hltn, hstrip, hne, hnl, hts⟩ := render_nfs_facts n (h n (by simp))
    rw [List.map_cons, List.cons_append]
    simp only [classifyLines]
    rw [if_neg (by rw [hstrip]; simp)]
    simp only [hid, ih (fun x hx => h x (by simp [hx]))]
    rfl

theorem classify_sfs_append (ss : List Sfs) (rest : List Str) (b : List Nfs) (cl : List Cmt)
    (h : ∀ s ∈ ss, GoodSfs s) (hrest : classifyLines rest = .ok ([], b, cl)) :
    classifyLines (ss.map Sfs.render ++ rest) = .ok (ss.map roundSfs, b, cl) := by
  induction ss with
  | nil =>
    simp only [List.map_nil, List.nil_append]
    exact hrest
  | cons s ss ih =>
    obtain ⟨hid, hltn, hstrip, hne, hnl, hts⟩ := render_sfs_facts s (h s (by simp))
    rw [List.map_cons, List.cons_append]
    simp only [classifyLines]
    rw [if_neg (by rw [hstrip]; simp)]
    simp only [hid, ih (fun x hx => h x (by simp [hx]))]
    rfl

theorem classify_renderLines (e : Event) (h : GoodEvent e) :
    classifyLines e.renderLines = .ok (e.sfs.map roundSfs, [],
      e.nfs.map (fun n => Cmt.standard (Nfs.render n)) ++ e.comments.map reclassifyCmt) := by
  obtain ⟨hne, hgs, hgn, hgc, hchain⟩ := h
  have hC : classifyLines (if e.comments.isEmpty then [[]] else e.comments.map Cmt.render) =
      .ok ([], [], e.comments.map reclassifyCmt) := by
    rcases hcs : e.comments with _ | ⟨c0, cs⟩
    · rfl
    · rw [if_neg (by simp)]
      rw [← hcs]
      exact classify_cmts e.comments (by rw [hcs]; intro x hx; exact hgc x (by rw [hcs]; exact hx))
  have hB : classifyLines ((if e.nfs.isEmpty then [[]] else e.nfs.map Nfs.render) ++
      (if e.comments.isEmpty then [[]] else e.comments.map Cmt.render)) =
      .ok ([], [], e.nfs.map (fun n => Cmt.standard (Nfs.render n)) ++
        e.comments.map reclassifyCmt) := by
    rcases hns : e.nfs with _ | ⟨n0, ns⟩
    · show classifyLines ([] ::
        (if e.comments.isEmpty then [[]] else e.comments.map Cmt.render)) = _
      simp only [classifyLines]
      rw [if_pos (by rfl)]
      rw [hC]
      rfl
    · rw [if_neg (by simp)]
      rw [← hns]
      exact classify_nfs_append e.nfs _ _ _
        (by rw [hns]; intro x hx; exact hgn x (by rw [hns]; exact hx)) hC
  unfold Event.renderLines
  rw [List.append_assoc]
  exact classify_sfs_append e.sfs _ _ _ hgs hB

theorem map_fcm_replicate (ss : List Sfs) :
    ss.map Sfs.fcm = List.replicate ss.length Fcm.nonDropFrame := by
  induction ss with
  | nil => rfl
  | cons s ss ih =>
    rw [List.map_cons, ih]
    rfl

theorem dedup_replicate_fcm (n : Nat) :
    (List.replicate (n + 1) Fcm.nonDropFrame).dedup = [Fcm.nonDropFrame] := by
  induction n with
  | zero => rfl
  | succ m ih =>
    rw [List.replicate_succ]
    rw [List.dedup_cons_of_mem (by rw [List.mem_replicate]; exact ⟨by omega, rfl⟩)]
    exact ih

theorem fromLines_renderLines (e : Event) (h : GoodEvent e) :
    Event.fromLines e.renderLines = .ok (roundEvent e) := by
  unfold Event.fromLines
  rw [classify_renderLines e h]
  show mkEvent (e.sfs.map roundSfs) [] _ = .ok (roundEvent e)
  unfold mkEvent
  rw [if_neg (by
    rcases hs : e.sfs with _ | ⟨s0, ss⟩
    · exact absurd hs h.1
    · simp)]
  rw [if_neg (by
    rcases hs : e.sfs with _ | ⟨s0, ss⟩
    · exact absurd hs h.1
    · rw [map_fcm_replicate]
      simp only [List.length_map, List.length_cons]
      rw [dedup_replicate_fcm]
      simp)]
  rfl

theorem classifyLines_filter (ls : List Str) :
    classifyLines (ls.filter (fun l => !l.isEmpty)) = classifyLines ls := by
  induction ls with
  | nil => rfl
  | cons l ls ih =>
    by_cases hle : l.isEmpty = true
    · have hl : l = [] := by
        cases l
        · rfl
        · exact absurd hle (by simp)
      subst hl
      rw [List.filter_cons_of_neg (by simp)]
      rw [ih]
      show _ = classifyLines ([] :: ls)
      simp only [classifyLines]
      rw [if_pos (by rfl)]
    · rw [List.filter_cons_of_pos (by simp [hle])]
      simp only [classifyLines]
      rw [ih]

theorem fromLines_bufOf (e : Event) (h : GoodEvent e) :
    Event.fromLines (bufOf e) = .ok (roundEvent e) := by
  have h1 : Event.fromLines (bufOf e) = Event.fromLines e.renderLines := by
    unfold Event.fromLines bufOf
    rw [classifyLines_filter]
  rw [h1]
  exact fromLines_renderLines e h

theorem renderLines_cons (e : Event) (s1 : Sfs) (ss : List Sfs) (hs : e.sfs = s1 :: ss) :
    e.renderLines = Sfs.render s1 ::
      ((ss.map Sfs.render ++ (if e.nfs.isEmpty then [[]] else e.nfs.map Nfs.render)) ++
        (if e.comments.isEmpty then [[]] else e.comments.map Cmt.render)) := by
  unfold Event.renderLines
  rw [hs, List.map_cons, List.cons_append, List.cons_append]

theorem bufOf_ne_nil (e : Event) (h : GoodEvent e) : bufOf e ≠ [] := by
  rcases hs : e.sfs with _ | ⟨s1, ss⟩
  · exact absurd hs h.1
  · obtain ⟨hid, hltn, hstrip, hne, hnl, hts⟩ := render_sfs_facts s1 (h.2.1 s1 (by rw [hs]; simp))
    unfold bufOf
    rw [renderLines_cons e s1 ss hs]
    rw [List.filter_cons_of_pos (by simp [isEmpty_false_of_ne_nil _ hne])]
    simp

theorem noflush_append (i k j : Nat) (xs ys : List Str) (h1 : NoFlush i xs k)
    (h2 : NoFlush k ys j) : NoFlush i (xs ++ ys) j := by
  induction h1 with
  | nil i => exact h2
  | blank i k ls hns ih => exact NoFlush.blank _ _ _ (ih h2)
  | tok i k l ls t ts hlne hsp hcond hrec ih =>
    exact NoFlush.tok _ _ _ _ t ts hlne hsp hcond (ih h2)

theorem noflush_sfs_list (ss : List Sfs) : ∀ i : Nat, (∀ s ∈ ss, GoodSfs s) →
    List.Chain' ChainR (i :: ss.map numOf) →
    NoFlush i (ss.map Sfs.render) ((ss.map numOf).getLastD i) := by
  induction ss with
  | nil =>
    intro i _ _
    exact NoFlush.nil i
  | cons s ss ih =>
    intro i hg hch
    rw [List.map_cons] at hch
    rw [List.chain'_cons] at hch
    obtain ⟨hR, hch'⟩ := hch
    obtain ⟨hid, hltn, hstrip, hne, hnl, ts, hsp⟩ := render_sfs_facts s (hg s (by simp))
    rw [List.map_cons, List.map_cons, List.getLastD_cons]
    refine NoFlush.tok _ _ _ _ s.core.numField ts hne hsp ?_ ?_
    · rintro ⟨hi0, hnum2, hne2⟩
      rcases hR with h0 | heq
      · exact hi0 h0
      · apply hne2
        rw [pyInt_numField]
        exact heq
    · have hupd : (if pyIsNumeric s.core.numField then pyInt s.core.numField else i) =
          numOf s := by
        rw [if_pos (by rw [pyIsNumeric_eq_isDigits, numField_isDigits])]
        rw [pyInt_numField]
        rfl
      rw [hupd]
      exact ih (numOf s) (fun x hx => hg x (by simp [hx])) hch'

theorem noflush_nonnum_line (i : Nat) (l t : Str) (ts : List Str) (ls : List Str) (j : Nat)
    (hne : l ≠ []) (hsp : pySplit l = t :: ts) (hnum : pyIsNumeric t = false)
    (hrec : NoFlush i ls j) : NoFlush i (l :: ls) j := by
  refine NoFlush.tok _ _ _ _ t ts hne hsp ?_ ?_
  · rintro ⟨_, hx, _⟩
    rw [hnum] at hx
    exact absurd hx (by simp)
  · have hupd : (if pyIsNumeric t then pyInt t else i) = i := by
      rw [if_neg (by rw [hnum]; simp)]
    rw [hupd]
    exact hrec

theorem noflush_nfs_list (ns : List Nfs) : ∀ i : Nat, (∀ n ∈ ns, GoodNfs n) →
    NoFlush i (ns.map Nfs.render) i := by
  induction ns with
  | nil => exact fun i _ => NoFlush.nil i
  | cons n ns ih =>
    intro i hg
    obtain ⟨hid, hltn, hstrip, hne, hnl, t, ts, hsp, hnum⟩ := render_nfs_facts n (hg n (by simp))
    rw [List.map_cons]
    exact noflush_nonnum_line i _ t ts _ i hne hsp hnum (ih i (fun x hx => hg x (by simp [hx])))

theorem noflush_cmt_list (cs : List Cmt) : ∀ i : Nat, (∀ c ∈ cs, GoodCmt c) →
    NoFlush i (cs.map Cmt.render) i := by
  induction cs with
  | nil => exact fun i _ => NoFlush.nil i
  | cons c cs ih =>
    intro i hg
    obtain ⟨hid, hltn, hstrip, hne, hnl, t, ts, hsp, hnum⟩ := render_cmt_facts c (hg c (by simp))
    rw [List.map_cons]
    exact noflush_nonnum_line i _ t ts _ i hne hsp hnum (ih i (fun x hx => hg x (by simp [hx])))

theorem noflush_B (ns : List Nfs) (i : Nat) (h : ∀ n ∈ ns, GoodNfs n) :
    NoFlush i (if ns.isEmpty then [[]] else ns.map Nfs.render) i := by
  rcases ns with _ | ⟨n0, ns⟩
  · exact NoFlush.blank _ _ _ (NoFlush.nil i)
  · rw [if_neg (by simp)]
    exact noflush_nfs_list _ i h

theorem noflush_C (cs : List Cmt) (i : Nat) (h : ∀ c ∈ cs, GoodCmt c) :
    NoFlush i (if cs.isEmpty then [[]] else cs.map Cmt.render) i := by
  rcases cs with _ | ⟨c0, cs⟩
  · exact NoFlush.blank _ _ _ (NoFlush.nil i)
  · rw [if_neg (by simp)]
    exact noflush_cmt_list _ i h

/-- After its first line, the rest of a rendered event's lines flush
nothing, ending with the tracked index at the event's last statement
number. -/
theorem noflush_rest (e : Event) (s1 : Sfs) (ss : List Sfs) (h : GoodEvent e)
    (hs : e.sfs = s1 :: ss) :
    NoFlush (numOf s1)
      ((ss.map Sfs.render ++ (if e.nfs.isEmpty then [[]] else e.nfs.map Nfs.render)) ++
        (if e.comments.isEmpty then [[]] else e.comments.map Cmt.render))
      (lastNum e) := by
  obtain ⟨hne, hgs, hgn, hgc, hchain⟩ := h
  have hch : List.Chain' ChainR (numOf s1 :: ss.map numOf) := by
    have : numsOf e = numOf s1 :: ss.map numOf := by
      unfold numsOf
      rw [hs, List.map_cons]
    rw [← this]
    exact hchain
  have hlast : lastNum e = (ss.map numOf).getLastD (numOf s1) := by
    unfold lastNum numsOf
    rw [hs, List.map_cons, List.getLastD_cons]
  rw [hlast]
  refine noflush_append _ _ _ _ _
    (noflush_append _ _ _ _ _
      (noflush_sfs_list ss (numOf s1) (fun x hx => hgs x (by rw [hs]; simp [hx])) hch)
      (noflush_B e.nfs _ hgn))
    (noflush_C e.comments _ hgc)

/-- Running the loop over lines that flush nothing appends their
non-blank members to the buffer and moves the tracked index. -/
theorem segLoop_noflush (i j : Nat) (ls : List Str) (hnf : NoFlush i ls j) :
    ∀ (more : List Str) (n : Nat) (E : List Event) (buf : List Str), buf ≠ [] →
    segLoop (ls ++ more) n ⟨E, buf, i⟩ =
      segLoop more (n + ls.length) ⟨E, buf ++ ls.filter (fun l => !l.isEmpty), j⟩ := by
  induction hnf with
  | nil i =>
    intro more n E buf hb
    simp
  | blank i j ls hns ih =>
    intro more n E buf hb
    show segLoop (([] : Str) :: (ls ++ more)) n ⟨E, buf, i⟩ = _
    rw [segLoop]
    rw [if_pos (show ([] : Str).isEmpty = true from rfl)]
    rw [ih more (n + 1) E buf hb]
    rw [List.filter_cons_of_neg (by simp)]
    rw [List.length_cons, show n + (ls.length + 1) = n + 1 + ls.length from by omega]
  | tok i j l ls t ts hlne hsp hcond hrec ih =>
    intro more n E buf hb
    show segLoop (l :: (ls ++ more)) n ⟨E, buf, i⟩ = _
    rw [segLoop]
    rw [if_neg (by rw [isEmpty_false_of_ne_nil l hlne]; simp)]
    have hbne : isBeginNewEvent l i = .ok false := by
      unfold isBeginNewEvent
      by_cases hi : i = 0
      · rw [if_pos hi]
      · rw [if_neg hi, hsp]
        show (if (pyLower t = str "FCM:" || pyLower t = str "SPLIT:") = true
            then (Except.ok true : Except Str Bool)
          else if (pyIsNumeric t && decide (pyInt t ≠ i)) = true then .ok true
          else .ok false) = .ok false
        rw [if_neg (by simp [pyLower_ne_FCM t, pyLower_ne_SPLIT t])]
        rw [if_neg (by
          intro hc
          rw [Bool.and_eq_true, decide_eq_true_eq] at hc
          exact hcond ⟨hi, hc.1, hc.2⟩)]
    have hstep : stepLine ⟨E, buf, i⟩ l =
        .ok ⟨E, buf ++ [l], if pyIsNumeric t then pyInt t else i⟩ := by
      unfold stepLine
      rw [show (⟨E, buf, i⟩ : SegState).buffer.isEmpty = false from by
        rcases buf with _ | ⟨b, bs⟩
        · exact absurd rfl hb
        · rfl]
      show (match
          (match isBeginNewEvent l i with
           | Except.error e => Except.error e
           | Except.ok false => Except.ok ⟨E, buf, i⟩
           | Except.ok true =>
             match Event.fromLines buf with
             | Except.error e => Except.error e
             | Except.ok ev => Except.ok ⟨E ++ [ev], [], 0⟩ : Except Str SegState) with
        | Except.error e => Except.error e
        | Except.ok st₁ =>
          match pySplit l with
          | [] => Except.error (str "list index out of range")
          | t :: _ =>
            Except.ok (⟨st₁.events, st₁.buffer ++ [l],
              if pyIsNumeric t then pyInt t else st₁.idx⟩ : SegState)) = _
      rw [hbne]
      show (match pySplit l with
        | [] => (Except.error (str "list index out of range") : Except Str SegState)
        | t :: _ => Except.ok ⟨E, buf ++ [l], if pyIsNumeric t then pyInt t else i⟩) = _
      rw [hsp]
    rw [hstep]
    show segLoop (ls ++ more) (n + 1) ⟨E, buf ++ [l], if pyIsNumeric t then pyInt t else i⟩ = _
    rw [ih more (n + 1) E (buf ++ [l]) (by simp)]
    rw [List.filter_cons_of_pos (by rw [isEmpty_false_of_ne_nil l hlne]; simp)]
    rw [List.length_cons, show n + (ls.length + 1) = n + 1 + ls.length from by omega]
    rw [List.append_assoc, List.singleton_append]

/-- Absorbing a whole rendered event from an empty buffer: the first
line is appended without flushing, the rest flush nothing. -/
theorem segLoop_event_start (e : Event) (h : GoodEvent e) (more : List Str) (n : Nat)
    (E : List Event) (i : Nat) :
    segLoop (e.renderLines ++ more) n ⟨E, [], i⟩ =
      segLoop more (n + e.renderLines.length) ⟨E, bufOf e, lastNum e⟩ := by
  rcases hs : e.sfs with _ | ⟨s1, ss⟩
  · exact absurd hs h.1
  obtain ⟨hid, hltn, hstrip, hne, hnl, ts, hsp⟩ := render_sfs_facts s1 (h.2.1 s1 (by rw [hs]; simp))
  have hrl := renderLines_cons e s1 ss hs
  rw [hrl]
  show segLoop (Sfs.render s1 :: (_ ++ more)) n ⟨E, [], i⟩ = _
  rw [segLoop]
  rw [if_neg (by rw [isEmpty_false_of_ne_nil _ hne]; simp)]
  have hstep : stepLine ⟨E, [], i⟩ (Sfs.render s1) =
      .ok ⟨E, [Sfs.render s1], numOf s1⟩ := by
    unfold stepLine
    show (match pySplit (Sfs.render s1) with
      | [] => (Except.error (str "list index out of range") : Except Str SegState)
      | t :: _ => Except.ok (⟨E, [] ++ [Sfs.render s1],
          if pyIsNumeric t then pyInt t else i⟩ : SegState)) = _
    rw [hsp]
    show Except.ok (⟨E, [Sfs.render s1],
        if pyIsNumeric s1.core.numField then pyInt s1.core.numField else i⟩ : SegState) = _
    rw [if_pos (by rw [pyIsNumeric_eq_isDigits, numField_isDigits])]
    rw [pyInt_numField]
    rfl
  rw [hstep]
  show segLoop (_ ++ more) (n + 1) ⟨E, [Sfs.render s1], numOf s1⟩ = _
  rw [segLoop_noflush (numOf s1) (lastNum e) _ (noflush_rest e s1 ss h hs) more (n + 1) E
    [Sfs.render s1] (by simp)]
  have hbuf : [Sfs.render s1] ++
      (((ss.map Sfs.render ++ (if e.nfs.isEmpty then [[]] else e.nfs.map Nfs.render)) ++
        (if e.comments.isEmpty then [[]] else e.comments.map Cmt.render)).filter
        (fun l => !l.isEmpty)) = bufOf e := by
    unfold bufOf
    rw [hrl]
    rw [List.filter_cons_of_pos (by rw [isEmpty_false_of_ne_nil _ hne]; simp)]
    rfl
  rw [hbuf]
  congr 1
  rw [List.length_cons]
  omega

/-- Absorbing a rendered event from a state holding the previous event's
buffer: the first line flushes the previous event, then as above. -/
theorem segLoop_event_flush (eprev e : Event) (hp : GoodEvent eprev) (h : GoodEvent e)
    (hbd : evBound eprev e) (more : List Str) (n : Nat) (E : List Event) :
    segLoop (e.renderLines ++ more) n ⟨E, bufOf eprev, lastNum eprev⟩ =
      segLoop more (n + e.renderLines.length)
        ⟨E ++ [roundEvent eprev], bufOf e, lastNum e⟩ := by
  rcases hs : e.sfs with _ | ⟨s1, ss⟩
  · exact absurd hs h.1
  obtain ⟨hid, hltn, hstrip, hne, hnl, ts, hsp⟩ := render_sfs_facts s1 (h.2.1 s1 (by rw [hs]; simp))
  have hfirst : firstNum e = numOf s1 := by
    unfold firstNum numsOf
    rw [hs, List.map_cons, List.headD_cons]
  have hrl := renderLines_cons e s1 ss hs
  rw [hrl]
  show segLoop (Sfs.render s1 :: (_ ++ more)) n ⟨E, bufOf eprev, lastNum eprev⟩ = _
  rw [segLoop]
  rw [if_neg (by rw [isEmpty_false_of_ne_nil _ hne]; simp)]
  have hbne : isBeginNewEvent (Sfs.render s1) (lastNum eprev) = .ok true := by
    unfold isBeginNewEvent
    rw [if_neg hbd.1, hsp]
    show (if (pyLower s1.core.numField = str "FCM:" ||
          pyLower s1.core.numField = str "SPLIT:") = true
        then (Except.ok true : Except Str Bool)
      else if (pyIsNumeric s1.core.numField &&
          decide (pyInt s1.core.numField ≠ lastNum eprev)) = true then .ok true
      else .ok false) = .ok true
    rw [if_neg (by simp [pyLower_ne_FCM, pyLower_ne_SPLIT])]
    rw [if_pos (by
      rw [Bool.and_eq_true, decide_eq_true_eq]
      refine ⟨by rw [pyIsNumeric_eq_isDigits, numField_isDigits], ?_⟩
      rw [pyInt_numField]
      have := hbd.2
      rw [hfirst] at this
      exact this)]
  have hstep : stepLine ⟨E, bufOf eprev, lastNum eprev⟩ (Sfs.render s1) =
      .ok ⟨E ++ [roundEvent eprev], [Sfs.render s1], numOf s1⟩ := by
    unfold stepLine
    rw [show (⟨E, bufOf eprev, lastNum eprev⟩ : SegState).buffer.isEmpty = false from by
      have := bufOf_ne_nil eprev hp
      rcases hb : bufOf eprev with _ | ⟨b, bs⟩
      · exact absurd hb this
      · rfl]
    show (match
        (match isBeginNewEvent (Sfs.render s1) (lastNum eprev) with
         | Except.error e => Except.error e
         | Except.ok false => Except.ok ⟨E, bufOf eprev, lastNum eprev⟩
         | Except.ok true =>
           match Event.fromLines (bufOf eprev) with
           | Except.error e => Except.error e
           | Except.ok ev => Except.ok ⟨E ++ [ev], [], 0⟩ : Except Str SegState) with
      | Except.error e => Except.error e
      | Except.ok st₁ =>
        match pySplit (Sfs.render s1) with
        | [] => Except.error (str "list index out of range")
        | t :: _ =>
          Except.ok (⟨st₁.events, st₁.buffer ++ [Sfs.render s1],
            if pyIsNumeric t then pyInt t else st₁.idx⟩ : SegState)) = _
    rw [hbne]
    rw [fromLines_bufOf eprev hp]
    show (match pySplit (Sfs.render s1) with
      | [] => (Except.error (str "list index out of range") : Except Str SegState)
      | t :: _ => Except.ok (⟨E ++ [roundEvent eprev], [Sfs.render s1],
          if pyIsNumeric t then pyInt t else 0⟩ : SegState)) = _
    rw [hsp]
    show Except.ok (⟨E ++ [roundEvent eprev], [Sfs.render s1],
        if pyIsNumeric s1.core.numField then pyInt s1.core.numField else 0⟩ : SegState) = _
    rw [if_pos (by rw [pyIsNumeric_eq_isDigits, numField_isDigits])]
    rw [pyInt_numField]
    rfl
  rw [hstep]
  show segLoop (_ ++ more) (n + 1)
      ⟨E ++ [roundEvent eprev], [Sfs.render s1], numOf s1⟩ = _
  rw [segLoop_noflush (numOf s1) (lastNum e) _ (noflush_rest e s1 ss h hs) more (n + 1)
    (E ++ [roundEvent eprev]) [Sfs.render s1] (by simp)]
  have hbuf : [Sfs.render s1] ++
      (((ss.map Sfs.render ++ (if e.nfs.isEmpty then [[]] else e.nfs.map Nfs.render)) ++
        (if e.comments.isEmpty then [[]] else e.comments.map Cmt.render)).filter
        (fun l => !l.isEmpty)) = bufOf e := by
    unfold bufOf
    rw [hrl]
    rw [List.filter_cons_of_pos (by rw [isEmpty_false_of_ne_nil _ hne]; simp)]
    rfl
  rw [hbuf]
  congr 1
  rw [List.length_cons]
  omega

/-- Running the loop over the remaining rendered events (plus the
trailing blank line) from a state holding the previous event's buffer
flushes all but the last event. -/
theorem segLoop_flatMap (evs : List Event) : ∀ (eprev : Event) (E : List Event) (n : Nat),
    (∀ x ∈ evs, GoodEvent x) → GoodEvent eprev → List.Chain' evBound (eprev :: evs) →
    segLoop (evs.flatMap Event.renderLines ++ [[]]) n ⟨E, bufOf eprev, lastNum eprev⟩ =
      .ok ⟨E ++ ((eprev :: evs).dropLast.map roundEvent),
        bufOf (evs.getLastD eprev), lastNum (evs.getLastD eprev)⟩ := by
  induction evs with
  | nil =>
    intro eprev E n _ _ _
    show segLoop [([] : Str)] n _ = _
    rw [segLoop]
    rw [if_pos (show ([] : Str).isEmpty = true from rfl)]
    rw [segLoop]
    simp
  | cons e evs ih =>
    intro eprev E n hg hgp hch
    rw [List.chain'_cons] at hch
    have hflat : (e :: evs).flatMap Event.renderLines ++ [([] : Str)] =
        e.renderLines ++ (evs.flatMap Event.renderLines ++ [[]]) := by
      rw [List.flatMap_cons, List.append_assoc]
    rw [hflat]
    rw [segLoop_event_flush eprev e hgp (hg e (by simp)) hch.1 _ n E]
    rw [ih e (E ++ [roundEvent eprev]) _ (fun x hx => hg x (by simp [hx])) (hg e (by simp))
      hch.2]
    rw [List.getLastD_cons]
    rw [show (eprev :: e :: evs).dropLast = eprev :: (e :: evs).dropLast from rfl]
    rw [List.map_cons, List.append_assoc, List.singleton_append]

/-- Splitting a newline-join of newline-free strings recovers them (the
empty list joins to the empty text, which splits to one empty line). -/
theorem splitNl_joinNl (L : List Str) (h : ∀ l ∈ L, '\n' ∉ l) :
    splitNl (joinNl L) = if L.isEmpty then [[]] else L := by
  induction L with
  | nil => rfl
  | cons x L ih =>
    rcases L with _ | ⟨y, L⟩
    · show splitNl x = _
      rw [splitNl_of_no_newline x (h x (by simp))]
      rfl
    · show splitNl (x ++ '\n' :: joinNl (y :: L)) = _
      rw [splitNl_append_newline]
      rw [splitNl_of_no_newline x (h x (by simp))]
      rw [ih (fun l hl => h l (by simp [hl]))]
      rw [if_neg (by simp), if_neg (by simp)]
      rfl

/-- Splitting a rendered event at newlines yields its line list. -/
theorem splitNl_render_event (e : Event) (h : GoodEvent e) :
    splitNl e.render = e.renderLines := by
  obtain ⟨hne, hgs, hgn, hgc, _⟩ := h
  show splitNl (joinNl (e.sfs.map Sfs.render) ++
    '\n' :: (joinNl (e.nfs.map Nfs.render) ++ '\n' :: joinNl (e.comments.map Cmt.render))) = _
  rw [splitNl_append_newline, splitNl_append_newline]
  have hA : splitNl (joinNl (e.sfs.map Sfs.render)) = e.sfs.map Sfs.render := by
    rw [splitNl_joinNl _ (by
      intro l hl
      rw [List.mem_map] at hl
      obtain ⟨s, hs, hrl⟩ := hl
      rw [← hrl]
      exact render_sfs_no_nl s (hgs s hs))]
    rw [if_neg (by
      rcases hx : e.sfs with _ | ⟨s, ss⟩
      · exact absurd hx hne
      · simp)]
  have hB : splitNl (joinNl (e.nfs.map Nfs.render)) =
      (if e.nfs.isEmpty then [[]] else e.nfs.map Nfs.render) := by
    rw [splitNl_joinNl _ (by
      intro l hl
      rw [List.mem_map] at hl
      obtain ⟨x, hx, hrl⟩ := hl
      rw [← hrl]
      exact render_nfs_no_nl x (hgn x hx))]
    rcases e.nfs with _ | ⟨x, xs⟩
    · rfl
    · rfl
  have hC : splitNl (joinNl (e.comments.map Cmt.render)) =
      (if e.comments.isEmpty then [[]] else e.comments.map Cmt.render) := by
    rw [splitNl_joinNl _ (by
      intro l hl
      rw [List.mem_map] at hl
      obtain ⟨x, hx, hrl⟩ := hl
      rw [← hrl]
      exact (render_cmt_facts x (hgc x hx)).2.2.2.2.1)]
    rcases e.comments with _ | ⟨x, xs⟩
    · rfl
    · rfl
  rw [hA, hB, hC]
  unfold Event.renderLines
  rw [List.append_assoc]

/-- Splitting the concatenation of newline-terminated rendered events
yields their line lists followed by one empty line. -/
theorem splitNl_flatten (evs : List Event) (h : ∀ e ∈ evs, GoodEvent e) :
    splitNl ((evs.map (fun e => e.render ++ ['\n'])).flatten) =
      evs.flatMap Event.renderLines ++ [[]] := by
  induction evs with
  | nil => rfl
  | cons e evs ih =>
    rw [List.map_cons, List.flatten_cons]
    have : (e.render ++ ['\n']) ++ (evs.map (fun e => e.render ++ ['\n'])).flatten =
        e.render ++ '\n' :: (evs.map (fun e => e.render ++ ['\n'])).flatten := by
      rw [List.append_assoc]
      rfl
    rw [this, splitNl_append_newline]
    rw [splitNl_render_event e (h e (by simp))]
    rw [ih (fun x hx => h x (by simp [hx]))]
    rw [List.flatMap_cons, List.append_assoc]

theorem getLastD_mem_cons_self (l : List Event) : ∀ d : Event, l.getLastD d ∈ d :: l := by
  induction l with
  | nil => intro d; simp
  | cons x l ih =>
    intro d
    rw [List.getLastD_cons]
    exact List.mem_cons_of_mem d (ih x)

theorem dropLast_map_concat (f : Event → Event) (l : List Event) : ∀ d : Event,
    ((d :: l).dropLast.map f) ++ [f (l.getLastD d)] = (d :: l).map f := by
  induction l with
  | nil => intro d; rfl
  | cons x l ih =>
    intro d
    rw [List.getLastD_cons]
    rw [show (d :: x :: l).dropLast = d :: (x :: l).dropLast from rfl]
    rw [List.map_cons, List.cons_append, ih x]
    rfl

/-- Segmenting the lines of rendered good, boundary-chained events
yields exactly their rounded forms. -/
theorem finishBody_render (title : Str) (fcm : Fcm) (evs : List Event)
    (hg : ∀ e ∈ evs, GoodEvent e) (hch : List.Chain' evBound evs) :
    Edl.finishBody title fcm (evs.flatMap Event.renderLines ++ [[]]) =
      .ok ⟨title, fcm, evs.map roundEvent⟩ := by
  rcases evs with _ | ⟨e1, evs⟩
  · rfl
  have hg1 : GoodEvent e1 := hg e1 (by simp)
  have hseg : segLoop ((e1 :: evs).flatMap Event.renderLines ++ [[]]) 0 ⟨[], [], 0⟩ =
      .ok ⟨(e1 :: evs).dropLast.map roundEvent,
        bufOf (evs.getLastD e1), lastNum (evs.getLastD e1)⟩ := by
    have hflat : (e1 :: evs).flatMap Event.renderLines ++ [([] : Str)] =
        e1.renderLines ++ (evs.flatMap Event.renderLines ++ [[]]) := by
      rw [List.flatMap_cons, List.append_assoc]
    rw [hflat]
    rw [segLoop_event_start e1 hg1 _ 0 [] 0]
    rw [segLoop_flatMap evs e1 [] _ (fun x hx => hg x (by simp [hx])) hg1 hch]
    rw [List.nil_append]
  have hglast : GoodEvent (evs.getLastD e1) := hg _ (getLastD_mem_cons_self evs e1)
  unfold Edl.finishBody
  rw [hseg]
  show (if (bufOf (evs.getLastD e1)).isEmpty then
      (Except.ok ⟨title, fcm, (e1 :: evs).dropLast.map roundEvent⟩ : Except Str Edl)
    else
      match Event.fromLines (bufOf (evs.getLastD e1)) with
      | Except.error e => Except.error e
      | Except.ok ev =>
        Except.ok ⟨title, fcm, (e1 :: evs).dropLast.map roundEvent ++ [ev]⟩) = _
  rw [if_neg (by
    have := bufOf_ne_nil _ hglast
    rcases hb : bufOf (evs.getLastD e1) with _ | ⟨b, bs⟩
    · exact absurd hb this
    · simp)]
  rw [fromLines_bufOf _ hglast]
  show Except.ok (⟨title, fcm,
      (e1 :: evs).dropLast.map roundEvent ++ [roundEvent (evs.getLastD e1)]⟩ : Edl) = _
  rw [dropLast_map_concat roundEvent evs e1]

theorem render_sfs_numField_prefix (s : Sfs) : ∃ R, Sfs.render s = s.core.numField ++ R := by
  rcases s with c | ⟨c, len⟩ | ⟨c, len, wid⟩ | ⟨c, len⟩ | ⟨c, fade⟩ <;>
    exact ⟨_, by
      simp [Sfs.render, Sfs.core, SfsCore.front, List.append_assoc]
      rfl⟩

theorem render_sfs_head (s : Sfs) : ∃ x xs, Sfs.render s = x :: xs ∧ isDigitCh x = true := by
  obtain ⟨R, hR⟩ := render_sfs_numField_prefix s
  obtain ⟨x, xs, hnf, hx⟩ := numField_head_digit s.core
  exact ⟨x, xs ++ R, by rw [hR, hnf]; rfl, hx⟩

/-- A line beginning with a digit character does not pass the
upper-cased `FCM:` prefix peek of `Edl.from_file`. -/
theorem startsWith_FCM_false_of_digit (l : Str) (x : Char) (xs : Str) (hl : l = x :: xs)
    (hx : isDigitCh x = true) : pyStartsWith (str "FCM:") (pyUpper l) = false := by
  subst hl
  unfold isDigitCh at hx
  rw [Bool.and_eq_true, decide_eq_true_eq, decide_eq_true_eq] at hx
  have hux : toUpperCh x = x := by
    unfold toUpperCh
    rw [if_neg (by omega)]
  show List.isPrefixOf (str "FCM:") (toUpperCh x :: pyUpper xs) = false
  rw [hux]
  show (('F' == x) && List.isPrefixOf (str "CM:") (pyUpper xs)) = false
  rw [show ('F' == x) = false from by
    rw [beq_eq_false_iff_ne]
    intro he
    have hF : ('F' : Char).toNat = 70 := rfl
    rw [← he, hF] at hx
    omega]
  rfl

theorem notFCM_render_sfs (s : Sfs) :
    pyStartsWith (str "FCM:") (pyUpper (Sfs.render s)) = false := by
  obtain ⟨x, xs, hl, hx⟩ := render_sfs_head s
  exact startsWith_FCM_false_of_digit _ x xs hl hx

/-- Rendering a good document and re-parsing the text yields the
document's rounded form. -/
theorem renderText_parse (D : Edl) (h : GoodEdl D) :
    Edl.fromText D.renderText = .ok (roundEdl D) := by
  obtain ⟨⟨htitle, htnl⟩, hge, hch⟩ := h
  have htnl2 : '\n' ∉ str "TITLE: " ++ D.title := by
    intro hm
    rcases List.mem_append.1 hm with hm | hm
    · exact absurd hm (by decide)
    · exact htnl hm
  have hbody : Edl.finishBody D.title D.fcm
      (D.events.flatMap Event.renderLines ++ [[]]) =
      .ok ⟨D.title, D.fcm, D.events.map roundEvent⟩ := finishBody_render _ _ _ hge hch
  show Edl.fromLines (splitNl D.renderText) = .ok ⟨D.title, D.fcm, D.events.map roundEvent⟩
  rcases hf : D.fcm with _ | _ | _
  case nonDropFrame =>
    rw [hf] at hbody
    have hhdr : D.header = (str "TITLE: " ++ D.title) ++
        ('\n' :: (str "FCM: " ++ Fcm.nonDropFrame.value)) := by
      unfold Edl.header
      rw [hf, if_pos (by decide)]
    have htext : splitNl D.renderText = (str "TITLE: " ++ D.title) ::
        ((str "FCM: " ++ Fcm.nonDropFrame.value) ::
          (D.events.flatMap Event.renderLines ++ [[]])) := by
      unfold Edl.renderText
      rw [hhdr, List.append_assoc, List.singleton_append, List.append_assoc,
        List.cons_append, splitNl_append_newline, splitNl_of_no_newline _ htnl2,
        splitNl_append_newline,
        splitNl_of_no_newline (str "FCM: " ++ Fcm.nonDropFrame.value) (by decide),
        splitNl_flatten D.events hge]
      rfl
    rw [htext]
    unfold Edl.fromLines
    simp only [htitle]
    exact hbody
  case dropFrame =>
    rw [hf] at hbody
    have hhdr : D.header = (str "TITLE: " ++ D.title) ++
        ('\n' :: (str "FCM: " ++ Fcm.dropFrame.value)) := by
      unfold Edl.header
      rw [hf, if_pos (by decide)]
    have htext : splitNl D.renderText = (str "TITLE: " ++ D.title) ::
        ((str "FCM: " ++ Fcm.dropFrame.value) ::
          (D.events.flatMap Event.renderLines ++ [[]])) := by
      unfold Edl.renderText
      rw [hhdr, List.append_assoc, List.singleton_append, List.append_assoc,
        List.cons_append, splitNl_append_newline, splitNl_of_no_newline _ htnl2,
        splitNl_append_newline,
        splitNl_of_no_newline (str "FCM: " ++ Fcm.dropFrame.value) (by decide),
        splitNl_flatten D.events hge]
      rfl
    rw [htext]
    unfold Edl.fromLines
    simp only [htitle]
    exact hbody
  case pal =>
    rw [hf] at hbody
    have hhdr : D.header = str "TITLE: " ++ D.title := by
      unfold Edl.header
      rw [hf, if_neg (by simp)]
      rw [List.append_nil]
    have htext : splitNl D.renderText = (str "TITLE: " ++ D.title) ::
        (D.events.flatMap Event.renderLines ++ [[]]) := by
      unfold Edl.renderText
      rw [hhdr, List.append_assoc, List.singleton_append, splitNl_append_newline,
        splitNl_of_no_newline _ htnl2, splitNl_flatten D.events hge]
      rfl
    rw [htext]
    rcases hevs : D.events with _ | ⟨e1, evs⟩
    · rw [hevs] at hbody
      unfold Edl.fromLines
      simp only [htitle]
      simp only [List.flatMap_nil, List.nil_append] at hbody ⊢
      rw [if_neg (by decide)]
      exact hbody
    · rcases hs1 : e1.sfs with _ | ⟨s1, ss⟩
      · exact absurd hs1 (hge e1 (by rw [hevs]; simp)).1
      have hb : ∃ REST, D.events.flatMap Event.renderLines ++ [([] : Str)] =
          Sfs.render s1 :: REST := by
        rw [hevs, List.flatMap_cons, renderLines_cons e1 s1 ss hs1]
        exact ⟨_, by
          simp [List.append_assoc]
          rfl⟩
      obtain ⟨REST, hb⟩ := hb
      rw [hevs] at hb hbody
      rw [hb]
      unfold Edl.fromLines
      simp only [htitle]
      rw [if_neg (by simp [notFCM_render_sfs s1])]
      rw [← hb]
      exact hbody

theorem normTrack_name (t : Track) : (normTrack t).name = t.name := by
  unfold normTrack Track.name
  by_cases hi : t.index > 1
  · rw [if_pos (by simp; omega), if_pos hi]
    have : max 1 t.index = t.index := by omega
    rw [this]
  · rw [if_neg (by simp; omega), if_neg hi]

theorem roundSfs_core (s : Sfs) : (roundSfs s).core = roundCore s.core := by
  rcases s with c | ⟨c, len⟩ | ⟨c, len, wid⟩ | ⟨c, len⟩ | ⟨c, fade⟩ <;> rfl

theorem trackNames_roundEvent (e : Event) : (roundEvent e).trackNames = e.trackNames := by
  unfold Event.trackNames roundEvent
  show ((e.sfs.map roundSfs).map (fun s => s.core.track.name)).toFinset = _
  rw [List.map_map]
  have : ((fun s => s.core.track.name) ∘ roundSfs) =
      (fun s : Sfs => s.core.track.name) := by
    funext s
    show (roundSfs s).core.track.name = s.core.track.name
    rw [roundSfs_core]
    show (normTrack s.core.track).name = s.core.track.name
    exact normTrack_name _
  rw [this]

theorem sourceNames_roundEvent (e : Event) : (roundEvent e).sourceNames = e.sourceNames := by
  unfold Event.sourceNames roundEvent
  show ((e.sfs.map roundSfs).map (fun s => s.core.reel.name)).toFinset = _
  rw [List.map_map]
  have : ((fun s => s.core.reel.name) ∘ roundSfs) =
      (fun s : Sfs => s.core.reel.name) := by
    funext s
    show (roundSfs s).core.reel.name = s.core.reel.name
    rw [roundSfs_core]
    rfl
  rw [this]

theorem duration_roundEvent (e : Event) : (roundEvent e).duration = e.duration := by
  unfold Event.duration Event.minRecStart Event.maxRecEnd roundEvent
  have h1 : (e.sfs.map roundSfs).map (fun s => s.core.timecode_record.start.frames) =
      e.sfs.map (fun s => s.core.timecode_record.start.frames) := by
    rw [List.map_map]
    congr 1
    funext s
    show (roundSfs s).core.timecode_record.start.frames = _
    rw [roundSfs_core]
    rfl
  have h2 : (e.sfs.map roundSfs).map (fun s => s.core.timecode_record.stop.frames) =
      e.sfs.map (fun s => s.core.timecode_record.stop.frames) := by
    rw [List.map_map]
    congr 1
    funext s
    show (roundSfs s).core.timecode_record.stop.frames = _
    rw [roundSfs_core]
    rfl
  show ((match (e.sfs.map roundSfs).map (fun s => s.core.timecode_record.stop.frames) with
      | [] => 0
      | x :: xs => xs.foldl max x) -
    (match (e.sfs.map roundSfs).map (fun s => s.core.timecode_record.start.frames) with
      | [] => 0
      | x :: xs => xs.foldl min x)) = _
  rw [h1, h2]

/-- Claim C1: for every document `D` that `Edl.from_file` produced,
re-parsing the text `Edl.write` renders for `D` succeeds and yields a
document with the same title, the same FCM, the same number of events,
and, event for event, the same track-name set, the same source-name
set, and the same duration. -/
theorem c1_roundtrip (src : Str) (D : Edl) (hparse : Edl.fromText src = .ok D) :
    ∃ D', Edl.fromText D.renderText = .ok D' ∧
      D'.title = D.title ∧ D'.fcm = D.fcm ∧
      D'.events.length = D.events.length ∧
      D'.events.map Event.trackNames = D.events.map Event.trackNames ∧
      D'.events.map Event.sourceNames = D.events.map Event.sourceNames ∧
      D'.events.map Event.duration = D.events.map Event.duration := by
  have hg : GoodEdl D := fromText_goodEdl src D hparse
  refine ⟨roundEdl D, renderText_parse D hg, rfl, rfl, ?_, ?_, ?_, ?_⟩
  · exact List.length_map _ _
  · show (D.events.map roundEvent).map Event.trackNames = _
    rw [List.map_map]
    congr 1
    funext e
    exact trackNames_roundEvent e
  · show (D.events.map roundEvent).map Event.sourceNames = _
    rw [List.map_map]
    congr 1
    funext e
    exact sourceNames_roundEvent e
  · show (D.events.map roundEvent).map Event.duration = _
    rw [List.map_map]
    congr 1
    funext e
    exact duration_roundEvent e

/-- Claim C1, witness: the round-trip property instantiated at a
concrete one-event document parsed from a concrete text. -/
theorem c1_roundtrip_witness :
    ∃ D', Edl.fromText (Edl.renderText ⟨str "RT", .pal,
        [⟨[.cut ⟨.tape (str "TAPE002"), ⟨.video, 1⟩,
            ⟨⟨0, 0, 1, 0⟩, ⟨0, 0, 2, 0⟩⟩, ⟨⟨0, 0, 3, 0⟩, ⟨0, 0, 4, 0⟩⟩, some 1⟩],
          [], []⟩]⟩) = .ok D' ∧
      D'.title = str "RT" ∧ D'.fcm = .pal ∧
      D'.events.length = 1 ∧
      D'.events.map Event.trackNames =
        [Event.trackNames ⟨[.cut ⟨.tape (str "TAPE002"), ⟨.video, 1⟩,
            ⟨⟨0, 0, 1, 0⟩, ⟨0, 0, 2, 0⟩⟩, ⟨⟨0, 0, 3, 0⟩, ⟨0, 0, 4, 0⟩⟩, some 1⟩], [], []⟩] ∧
      D'.events.map Event.sourceNames =
        [Event.sourceNames ⟨[.cut ⟨.tape (str "TAPE002"), ⟨.video, 1⟩,
            ⟨⟨0, 0, 1, 0⟩, ⟨0, 0, 2, 0⟩⟩, ⟨⟨0, 0, 3, 0⟩, ⟨0, 0, 4, 0⟩⟩, some 1⟩], [], []⟩] ∧
      D'.events.map Event.duration =
        [Event.duration ⟨[.cut ⟨.tape (str "TAPE002"), ⟨.video, 1⟩,
            ⟨⟨0, 0, 1, 0⟩, ⟨0, 0, 2, 0⟩⟩, ⟨⟨0, 0, 3, 0⟩, ⟨0, 0, 4, 0⟩⟩, some 1⟩], [], []⟩] :=
  c1_roundtrip
    (str "TITLE: RT\n001  TAPE002   V     C        00:00:01:00 00:00:02:00 00:00:03:00 00:00:04:00")
    ⟨str "RT", .pal,
      [⟨[.cut ⟨.tape (str "TAPE002"), ⟨.video, 1⟩,
          ⟨⟨0, 0, 1, 0⟩, ⟨0, 0, 2, 0⟩⟩, ⟨⟨0, 0, 3, 0⟩, ⟨0, 0, 4, 0⟩⟩, some 1⟩],
        [], []⟩]⟩
    rfl

end EdlModel
